import Mathlib

/-!
Shallow embedding of `src/explicit.c`, an explicit free-list heap allocator,
together with proofs settling the specification claims.

Modelling conventions:
* Addresses are byte offsets from `segment_start` (so `segment_start` is 0 and
  `segment_end` equals the segment size).
* The heap is a list of blocks in physical (address) order.  Each block records
  its start address, the header fields (`payload`, `allocated`), and the bytes
  of its payload (`data`).  The C `Header.payload` field is an `unsigned int`
  (32 bits); `size_t` is 64 bits.  Writes into these fields are reduced with
  the corresponding `% 2^w`.
* The doubly linked free list that C threads through the payloads of free
  blocks is modelled as the list of the addresses of its nodes in list order
  (head first).  The C link writes are still performed on the payload bytes;
  since the concrete link values are allocator-owned bytes that no operation
  ever reads back in the model (the list order carries that information), the
  bytes written by a link store are modelled as 0.
* Payload bytes of freshly obtained memory are uninitialised in C; the model
  represents them as 0.
-/

def HEADER_SIZE : Nat := 8

def MIN_PAYLOAD_SIZE : Nat := 16

def MIN_BLOCK_SIZE : Nat := 24

/-- Modelled from the spec: `ALIGNMENT` is defined in `allocator.h`, which is
not part of `src/`.  The spec fixes a power-of-two alignment consistent with
the 8-byte machine words used for the two link fields (minimum payload 16 =
two 8-byte pointers), so the alignment is 8. -/
def ALIGNMENT : Nat := 8

/-- Modelled from the spec: `MAX_REQUEST_SIZE` is defined in `allocator.h`,
which is not part of `src/`; the spec only requires a configured maximum
single-request size.  The customary value `1 <<< 30` is used. -/
def MAX_REQUEST_SIZE : Nat := 1 <<< 30

/-- 2^32, the modulus of the 32-bit `unsigned int` header field. -/
def U32 : Nat := 4294967296

/-- 2^64, the modulus of 64-bit `size_t` arithmetic. -/
def U64 : Nat := 18446744073709551616

/-- Truncation to the 32-bit `unsigned int` header field. -/
def toU32 (n : Nat) : Nat := n % U32

/-- 64-bit wraparound subtraction (`size_t` subtraction in C). -/
def wsub (a b : Nat) : Nat := (a % U64 + (U64 - b % U64)) % U64

/-- C `align` from `src/explicit.c`:
`return (size + (mult - 1)) & ~(mult - 1);` on 64-bit `size_t`; the 64-bit
complement `~(mult - 1)` is `2^64 - mult`. -/
def align (size mult : Nat) : Nat :=
  Nat.land ((size + (mult - 1)) % U64) (U64 - mult)

/-- A block of the heap: start address, the two header fields, and the payload
bytes. -/
structure Block where
  addr : Nat
  payload : Nat
  allocated : Bool
  data : List Nat
deriving Repr, DecidableEq

/-- The allocator state: the blocks in physical order, the free list as the
addresses of its nodes in list order, and the segment size. -/
structure Heap where
  blocks : List Block
  freeList : List Nat
  segmentSize : Nat
deriving Repr, DecidableEq

/-- Look up the block starting at address `a`. -/
def getBlock : List Block → Nat → Option Block
  | [], _ => none
  | b :: bs, a => if b.addr = a then some b else getBlock bs a

/-- Rewrite the block starting at address `a` with `f` (header or payload
stores at a known block address). -/
def updBlocks (f : Block → Block) (a : Nat) : List Block → List Block
  | [] => []
  | b :: bs => (if b.addr = a then f b else b) :: updBlocks f a bs

def Heap.upd (s : Heap) (a : Nat) (f : Block → Block) : Heap :=
  { s with blocks := updBlocks f a s.blocks }

/-- Overwrite `len` payload bytes starting at offset `off` with 0 (the model
of a link store into allocator-owned bytes). -/
def writeZeros (d : List Nat) (off len : Nat) : List Nat :=
  List.zipWith (fun i x => if off ≤ i ∧ i < off + len then 0 else x)
    (List.range d.length) d

/-- Header store clearing the `allocated` flag. -/
def setFree (b : Block) : Block := { b with allocated := false }

/-- Header store setting the `allocated` flag. -/
def setUsed (b : Block) : Block := { b with allocated := true }

/-- Stores to both link fields of a free block (offsets 0..15 of its
payload). -/
def storeLinks2 (b : Block) : Block := { b with data := writeZeros b.data 0 16 }

/-- Store to the `previous` link field (offsets 0..7 of the payload). -/
def storePrev (b : Block) : Block := { b with data := writeZeros b.data 0 8 }

/-- Store to the `next` link field (offsets 8..15 of the payload). -/
def storeNext (b : Block) : Block := { b with data := writeZeros b.data 8 8 }

/-- C `add_block`: push `block` on the front of the free list.  The C code
stores NULL into the block's `previous` link, the old head (or NULL) into its
`next` link, and, when the list is non-empty, stores `block` into the old
head's `previous` link; all three are link stores into payload bytes.  It then
clears the block's `allocated` flag and updates `free_list_start`. -/
def add_block (s : Heap) (block : Nat) : Heap :=
  let s1 :=
    match s.freeList with
    | [] => s.upd block storeLinks2
    | oldHead :: _ => (s.upd oldHead storePrev).upd block storeLinks2
  let s2 := s1.upd block setFree
  { s2 with freeList := block :: s2.freeList }

/-- The list-order neighbours of `x` in the free list, read off the position
of `x` (the C code reads them from the two link fields of `x`).  Returns
`none` when `x` is not in the list. -/
def neighborsIn (prev : Option Nat) : List Nat → Nat → Option (Option Nat × Option Nat)
  | [], _ => none
  | a :: rest, x =>
    if a = x then some (prev, rest.head?) else neighborsIn (some a) rest x

/-- C `remove_block`: splice `block` out of the doubly linked free list (four
cases: sole node, head, tail, interior; splicing the unique occurrence of
`block` equals erasing it from the address list) and set its `allocated` flag.
The splice stores links into the payloads of the list neighbours.  If `block`
is not in the list the C code splices along garbage links; the model performs
only the flag store (unreachable from the verified call sites). -/
def remove_block (s : Heap) (block : Nat) : Heap :=
  match neighborsIn none s.freeList block with
  | none => s.upd block setUsed
  | some (prev, next) =>
    let s1 :=
      match prev with
      | some p => s.upd p storeNext
      | none => s
    let s2 :=
      match next with
      | some n => s1.upd n storePrev
      | none => s1
    let s3 := s2.upd block setUsed
    { s3 with freeList := s3.freeList.erase block }

/-- The blocks-list effect of C `partition`'s stores: the header store at
`block + payload + HEADER_SIZE` carves the block starting at `block` (whose
payload bytes run to `payload_space`) into a front block of payload `payload`
and a trailing block; the 8 bytes at offsets `payload..payload+7` of the old
payload become the new header.  Both header `payload` stores truncate to
`unsigned int`. -/
def splitBlocks (block payload_space payload : Nat) : List Block → List Block
  | [] => []
  | b :: bs =>
    if b.addr = block then
      { b with payload := toU32 payload, data := b.data.take payload } ::
      { addr := block + payload + HEADER_SIZE,
        payload := toU32 (wsub (wsub payload_space payload) HEADER_SIZE),
        allocated := false,
        data := b.data.drop (payload + HEADER_SIZE) } :: bs
    else b :: splitBlocks block payload_space payload bs

/-- C `partition`: split the block at `block` and register the trailing block
in the free list.  (C order: write the new header, `add_block` the new block,
then shrink the front block's `payload`; the net state is the same.) -/
def partition (s : Heap) (block payload_space payload : Nat) : Heap :=
  let next_block := block + payload + HEADER_SIZE
  let s1 := { s with blocks := splitBlocks block payload_space payload s.blocks }
  add_block s1 next_block

/-- C `find_fit`: first-fit scan along the free-list `next` links (the model
walks the address list, which is that link order).  On a fit, split when the
remainder supports a minimum block, then remove the winner from the list. -/
def find_fit_loop (s : Heap) (req : Nat) : List Nat → Option Nat × Heap
  | [] => (none, s)
  | a :: rest =>
    match getBlock s.blocks a with
    | none => (none, s)
    | some b =>
      if req ≤ b.payload then
        let s1 := if req + MIN_BLOCK_SIZE ≤ b.payload then partition s a b.payload req else s
        (some a, remove_block s1 a)
      else find_fit_loop s req rest

def find_fit (s : Heap) (aligned_requested_size : Nat) : Option Nat × Heap :=
  find_fit_loop s aligned_requested_size s.freeList

/-- One absorption step of C `coalesce_right`:
`block->payload += curr->payload + HEADER_SIZE` (a 32-bit header store whose
value is computed in the promoted type; under the verified invariants the sum
never reaches 2^32) followed by deleting the absorbed block: its header bytes
and payload become payload bytes of `block` (the 8 former header bytes are
allocator-owned junk, modelled as 0). -/
def absorbBlocks (block : Nat) (c : Block) : List Block → List Block
  | [] => []
  | b :: bs =>
    if b.addr = block then
      { b with payload := toU32 (b.payload + c.payload + HEADER_SIZE),
               data := b.data ++ List.replicate HEADER_SIZE 0 ++ c.data } ::
      bs.filter (fun b' => b'.addr ≠ c.addr)
    else b :: absorbBlocks block c bs

/-- The loop of C `coalesce_right`.  `curr` starts at
`block + payload + HEADER_SIZE` and the loop runs while `curr` is inside the
segment and the header at `curr` is unallocated.  After an absorption,
`remove_block curr` detaches the absorbed node from the free list (its
`allocated` store lands in the absorbed junk bytes).  The recursion is driven
by fuel bounded below by the number of blocks; each iteration deletes one
block, so the fuel never runs out from the verified call sites.  A `curr`
inside the segment with no block header (possible only in heaps that a
truncating initialization corrupted) makes C read garbage; the model stops. -/
def coalesce_loop (block : Nat) : Nat → Nat → Heap → Heap
  | _, 0, s => s
  | curr, fuel + 1, s =>
    if curr < s.segmentSize then
      match getBlock s.blocks curr with
      | none => s
      | some c =>
        if c.allocated = false then
          let s1 := { s with blocks := absorbBlocks block c s.blocks }
          let s2 := remove_block s1 curr
          coalesce_loop block (curr + c.payload + HEADER_SIZE) fuel s2
        else s
    else s

/-- C `coalesce_right`: no-op on NULL, else run the absorption loop from the
physical successor of `block`. -/
def coalesce_right (s : Heap) (block : Option Nat) : Heap :=
  match block with
  | none => s
  | some a =>
    match getBlock s.blocks a with
    | none => s
    | some b => coalesce_loop a (a + b.payload + HEADER_SIZE) (s.blocks.length + 1) s

/-- C `myinit`: reject a segment of at most one header's size; otherwise
install a single free block covering the rest of the segment (its `payload`
store truncates to `unsigned int`), with both links NULL, as the sole
free-list entry.  The segment start is address 0 in the model; uninitialised
payload bytes are modelled as 0 (so the two NULL link stores are no-ops on
the model data). -/
def myinit (heap_size : Nat) : Option Heap :=
  if heap_size ≤ HEADER_SIZE then none
  else
    some { blocks := [{ addr := 0, payload := toU32 (heap_size - HEADER_SIZE),
                        allocated := false,
                        data := List.replicate (toU32 (heap_size - HEADER_SIZE)) 0 }],
           freeList := [0],
           segmentSize := heap_size }

/-- The request shaping shared by `mymalloc` and `myrealloc` (the same two
statements appear in both C functions): round up to `ALIGNMENT`, then raise to
`MIN_PAYLOAD_SIZE`. -/
def adjust (requested_size : Nat) : Nat :=
  if align requested_size ALIGNMENT < MIN_PAYLOAD_SIZE then MIN_PAYLOAD_SIZE
  else align requested_size ALIGNMENT

/-- C `mymalloc`: reject 0 and oversized requests before any search, shape the
request, delegate to `find_fit`, and return a payload pointer
(`block + HEADER_SIZE`). -/
def mymalloc (s : Heap) (requested_size : Nat) : Option Nat × Heap :=
  if requested_size > MAX_REQUEST_SIZE ∨ requested_size = 0 then (none, s)
  else
    match find_fit s (adjust requested_size) with
    | (some block, s') => (some (block + HEADER_SIZE), s')
    | (none, s') => (none, s')

/-- C `myfree`: no-op on NULL; otherwise coalesce rightward from the block
header preceding the payload, push the block on the free list, and store 0 in
its `allocated` flag (redundantly, after `add_block` already cleared it). -/
def myfree (s : Heap) (ptr : Option Nat) : Heap :=
  match ptr with
  | none => s
  | some p =>
    let block_ptr := p - HEADER_SIZE
    let s1 := coalesce_right s (some block_ptr)
    let s2 := add_block s1 block_ptr
    s2.upd block_ptr (fun b => { b with allocated := false })

/-- C `myrealloc`.  NULL pointer or size 0 behave as `mymalloc new_size`.
Otherwise the decision table of the source: equal after shaping, shrink
without or with a split, or grow (coalesce in place, split any usable excess,
else relocate via `mymalloc`, `memcpy` of the old payload, `myfree`).  The
`memcpy` copies `old_payload_size` bytes (the payload size read before the
coalesce).  Reading the header of an address that is not a block start is
garbage in C; the model returns failure without a state change there
(unreachable for the valid references the claims quantify over). -/
def myrealloc (s : Heap) (old_ptr : Option Nat) (new_size : Nat) : Option Nat × Heap :=
  match old_ptr with
  | none => mymalloc s new_size
  | some p =>
    if new_size = 0 then mymalloc s new_size
    else
      let old_block := p - HEADER_SIZE
      match getBlock s.blocks old_block with
      | none => (none, s)
      | some b =>
        let old_payload_size := b.payload
        let new_aligned_size := adjust new_size
        let min_split := new_aligned_size + MIN_BLOCK_SIZE
        if old_payload_size = new_aligned_size then (some p, s)
        else if old_payload_size > new_aligned_size ∧ old_payload_size < min_split then
          (some p, s)
        else if old_payload_size > new_aligned_size ∧ old_payload_size ≥ min_split then
          (some p, partition s old_block old_payload_size new_aligned_size)
        else
          let s1 := coalesce_right s (some old_block)
          match getBlock s1.blocks old_block with
          | none => (none, s1)
          | some b1 =>
            let new_payload_size := b1.payload
            if new_payload_size ≥ new_aligned_size then
              let s2 :=
                if new_payload_size ≥ min_split then
                  partition s1 old_block b1.payload new_aligned_size
                else s1
              (some p, s2)
            else
              match mymalloc s1 new_size with
              | (some q, s2) =>
                let s3 :=
                  match getBlock s2.blocks old_block with
                  | some ob =>
                    s2.upd (q - HEADER_SIZE)
                      (fun nb =>
                        let d := ob.data.take old_payload_size ++
                          nb.data.drop old_payload_size
                        { nb with data := d })
                  | none => s2
                let s4 := myfree s3 (some p)
                (some q, s4)
              | (none, s2) => (none, s2)

/-! ## Invariants -/

/-- Sum of the block extents (`header + payload` each); with `chainedB 0` this
is the address on which the physical walk of the segment lands. -/
def endAddrL (l : List Block) : Nat := (l.map (fun b => HEADER_SIZE + b.payload)).sum

def Heap.endAddr (s : Heap) : Nat := endAddrL s.blocks

/-- The physical walk: starting at `c`, each block begins exactly where the
previous one ended. -/
def chainedB : Nat → List Block → Bool
  | _, [] => true
  | c, b :: bs => (b.addr = c : Bool) && chainedB (c + HEADER_SIZE + b.payload) bs

/-- The header at `a` exists and marks the block free. -/
def freeAt (l : List Block) (a : Nat) : Bool :=
  match getBlock l a with
  | some b => !b.allocated
  | none => false

/-- Every payload's bytes are tracked exactly. -/
def dataOk (s : Heap) : Prop := ∀ b ∈ s.blocks, b.data.length = b.payload

/-- Free-list/header consistency: every list entry is the address of an
unallocated block, every unallocated block is in the list, and no entry
repeats. -/
def listOk (s : Heap) : Prop :=
  (∀ a ∈ s.freeList, freeAt s.blocks a = true) ∧
  (∀ b ∈ s.blocks, b.allocated = false → b.addr ∈ s.freeList) ∧
  s.freeList.Nodup

/-- The master invariant every reachable heap satisfies. -/
def HeapInv (s : Heap) : Prop :=
  chainedB 0 s.blocks = true ∧ s.endAddr ≤ U32 + 7 ∧ dataOk s ∧ listOk s

instance (s : Heap) : Decidable (dataOk s) := by unfold dataOk; infer_instance

instance (s : Heap) : Decidable (listOk s) := by unfold listOk; infer_instance

instance (s : Heap) : Decidable (HeapInv s) := by unfold HeapInv; infer_instance

/-- The request shaping in the spec's words: round up to the least multiple of
the alignment, then raise to the minimum payload size. -/
def requestShapeSpec (n : Nat) : Nat :=
  max ((n + (ALIGNMENT - 1)) / ALIGNMENT * ALIGNMENT) MIN_PAYLOAD_SIZE

/-- The merged block produced by one absorption step of the coalescer. -/
def grownBlock (bA bC : Block) : Block :=
  { bA with payload := toU32 (bA.payload + bC.payload + HEADER_SIZE),
            data := bA.data ++ List.replicate HEADER_SIZE 0 ++ bC.data }

/-! ## Preservation lemmas for the free-list operations -/

/-- The header-level signature of a block: address, payload, flag, data
length. -/
def blockSig (b : Block) : Nat × Nat × Bool × Nat :=
  (b.addr, b.payload, b.allocated, b.data.length)

/-- The front part of a split block (payload shrunk to `payload`; the bytes
past the new payload are surrendered). -/
def frontBlock (b0 : Block) (payload : Nat) : Block :=
  { b0 with payload := payload, data := b0.data.take payload }

/-- The trailing free block created by a split. -/
def tailBlock (a space payload : Nat) (b0 : Block) : Block :=
  { addr := a + payload + HEADER_SIZE, payload := space - payload - HEADER_SIZE,
    allocated := false, data := b0.data.drop (payload + HEADER_SIZE) }

/-- The payload recorded at a block address (0 when no block starts there). -/
def payloadOf (s : Heap) (x : Nat) : Nat :=
  match getBlock s.blocks x with
  | some b => b.payload
  | none => 0

/-- The first-fit winner in the spec's words: the first entry of the free
list, in list order from the head, whose payload is at least the request. -/
def firstFitAddr (s : Heap) (req : Nat) : Option Nat :=
  s.freeList.find? (fun x => req ≤ payloadOf s x)

/-- A payload pointer the client may legally pass to `myfree`/`myrealloc`: it
points just past the header of an allocated block. -/
def validPtrB (s : Heap) (p : Nat) : Bool :=
  match getBlock s.blocks (p - HEADER_SIZE) with
  | some b => b.allocated
  | none => false

/-- One legal API call (the calls of §2 of the interface, with the pointer
discipline the contract demands). -/
inductive Step : Heap → Heap → Prop where
  | malloc (s : Heap) (n : Nat) : Step s (mymalloc s n).2
  | freeNull (s : Heap) : Step s (myfree s none)
  | free (s : Heap) (p : Nat) (h : validPtrB s p = true) : Step s (myfree s (some p))
  | reallocNull (s : Heap) (n : Nat) : Step s (myrealloc s none n).2
  | realloc (s : Heap) (p n : Nat) (h : validPtrB s p = true) :
      Step s (myrealloc s (some p) n).2

/-- The states a client can drive the allocator into from `init`. -/
inductive ReachableFrom (init : Heap) : Heap → Prop where
  | refl : ReachableFrom init init
  | step {t u : Heap} : ReachableFrom init t → Step t u → ReachableFrom init u

/-- The sole-free-block heap of the spec's sizing example (payload 1000). -/
def fitHeap : Heap :=
  { blocks := [{ addr := 0, payload := 1000, allocated := false,
                 data := List.replicate 1000 0 }],
    freeList := [0], segmentSize := 1008 }

/-- The one-allocated-block heap used to exercise the in-place resize
branches. -/
def shrinkHeap : Heap :=
  { blocks := [{ addr := 0, payload := 48, allocated := true,
                 data := List.replicate 48 0 }],
    freeList := [], segmentSize := 56 }

/-- The three-block heap (allocated, free, allocated) whose middle free block
an in-place grow absorbs before the fallback allocation fails. -/
def growHeap : Heap :=
  { blocks := [{ addr := 0, payload := 16, allocated := true,
                 data := List.replicate 16 0 },
               { addr := 24, payload := 16, allocated := false,
                 data := List.replicate 16 0 },
               { addr := 48, payload := 16, allocated := true,
                 data := List.replicate 16 0 }],
    freeList := [24], segmentSize := 72 }

/-- The payload-shape invariant of §5 of the spec: every block's payload is a
multiple of the configured alignment and at least the minimum payload size. -/
def alignedL (l : List Block) : Prop :=
  ∀ b ∈ l, b.payload % ALIGNMENT = 0 ∧ MIN_PAYLOAD_SIZE ≤ b.payload

instance (l : List Block) : Decidable (alignedL l) := by
  unfold alignedL
  infer_instance

/-- Two physically adjacent allocated blocks filling a 48-byte segment. -/
def adjHeap : Heap :=
  { blocks := [{ addr := 0, payload := 16, allocated := true,
                 data := List.replicate 16 0 },
               { addr := 24, payload := 16, allocated := true,
                 data := List.replicate 16 0 }],
    freeList := [], segmentSize := 48 }

/-! ## Toolkit: basic transport lemmas -/

theorem writeZeros_length (d : List Nat) (off len : Nat) :
    (writeZeros d off len).length = d.length := by
  simp [writeZeros]

@[simp] theorem upd_freeList (s : Heap) (a : Nat) (f : Block → Block) :
    (s.upd a f).freeList = s.freeList := rfl

@[simp] theorem upd_segmentSize (s : Heap) (a : Nat) (f : Block → Block) :
    (s.upd a f).segmentSize = s.segmentSize := rfl

@[simp] theorem upd_blocks (s : Heap) (a : Nat) (f : Block → Block) :
    (s.upd a f).blocks = updBlocks f a s.blocks := rfl

theorem getBlock_mem {l : List Block} {a : Nat} {b : Block} (h : getBlock l a = some b) :
    b ∈ l ∧ b.addr = a := by
  induction l with
  | nil => simp [getBlock] at h
  | cons hd tl ih =>
    by_cases hc : hd.addr = a
    · simp only [getBlock, if_pos hc] at h
      cases h
      exact ⟨List.mem_cons_self .., hc⟩
    · simp only [getBlock, if_neg hc] at h
      exact ⟨List.mem_cons_of_mem _ (ih h).1, (ih h).2⟩

theorem getBlock_updBlocks_self (f : Block → Block) (a : Nat) (l : List Block)
    (hf : ∀ b, (f b).addr = b.addr) :
    getBlock (updBlocks f a l) a = (getBlock l a).map f := by
  induction l with
  | nil => simp [getBlock, updBlocks]
  | cons hd tl ih =>
    by_cases hc : hd.addr = a
    · simp [getBlock, updBlocks, if_pos hc, hf hd, hc]
    · simp [getBlock, updBlocks, if_neg hc, ih]

theorem getBlock_updBlocks_ne (f : Block → Block) (a x : Nat) (l : List Block)
    (hf : ∀ b, (f b).addr = b.addr) (hx : x ≠ a) :
    getBlock (updBlocks f a l) x = getBlock l x := by
  induction l with
  | nil => simp [updBlocks]
  | cons hd tl ih =>
    by_cases hc : hd.addr = a
    · have h1 : (f hd).addr ≠ x := by rw [hf hd, hc]; exact fun h => hx h.symm
      have h2 : hd.addr ≠ x := by rw [hc]; exact fun h => hx h.symm
      simp [getBlock, updBlocks, if_pos hc, if_neg h1, if_neg h2, ih]
    · simp only [getBlock, updBlocks, if_neg hc]
      by_cases hdx : hd.addr = x
      · simp [if_pos hdx]
      · simp [if_neg hdx, ih]

theorem forall_updBlocks {p : Block → Prop} {f : Block → Block} {a : Nat} {l : List Block}
    (hl : ∀ b ∈ l, p b) (hf : ∀ b ∈ l, p b → p (f b)) :
    ∀ b ∈ updBlocks f a l, p b := by
  induction l with
  | nil => simp [updBlocks]
  | cons hd tl ih =>
    intro b hb
    simp only [updBlocks, List.mem_cons] at hb
    rcases hb with hb | hb
    · subst hb
      split
      · exact hf hd (List.mem_cons_self ..) (hl hd (List.mem_cons_self ..))
      · exact hl hd (List.mem_cons_self ..)
    · exact ih (fun b h => hl b (List.mem_cons_of_mem _ h))
        (fun b h => hf b (List.mem_cons_of_mem _ h)) b hb

theorem chainedB_updBlocks (f : Block → Block) (a c : Nat) (l : List Block)
    (hf : ∀ b, (f b).addr = b.addr ∧ (f b).payload = b.payload) :
    chainedB c (updBlocks f a l) = chainedB c l := by
  induction l generalizing c with
  | nil => rfl
  | cons hd tl ih =>
    simp only [updBlocks, chainedB]
    split
    · rw [(hf hd).1, (hf hd).2, ih]
    · rw [ih]

theorem endAddrL_updBlocks (f : Block → Block) (a : Nat) (l : List Block)
    (hf : ∀ b, (f b).payload = b.payload) :
    endAddrL (updBlocks f a l) = endAddrL l := by
  induction l with
  | nil => rfl
  | cons hd tl ih =>
    simp only [updBlocks, endAddrL, List.map_cons, List.sum_cons] at *
    split
    · rw [hf hd, ih]
    · rw [ih]

theorem updBlocks_id (f : Block → Block) (a : Nat) (l : List Block)
    (h : ∀ b ∈ l, b.addr ≠ a) : updBlocks f a l = l := by
  induction l with
  | nil => rfl
  | cons hd tl ih =>
    simp only [updBlocks, if_neg (h hd (List.mem_cons_self ..))]
    rw [ih (fun b hb => h b (List.mem_cons_of_mem _ hb))]

theorem endAddrL_append (l1 l2 : List Block) :
    endAddrL (l1 ++ l2) = endAddrL l1 + endAddrL l2 := by
  simp [endAddrL]

theorem chainedB_append (c : Nat) (l1 l2 : List Block) :
    chainedB c (l1 ++ l2) = (chainedB c l1 && chainedB (c + endAddrL l1) l2) := by
  induction l1 generalizing c with
  | nil => simp [chainedB, endAddrL]
  | cons hd tl ih =>
    have hoff : c + HEADER_SIZE + hd.payload + endAddrL tl = c + endAddrL (hd :: tl) := by
      simp only [endAddrL, List.map_cons, List.sum_cons]
      omega
    simp only [List.cons_append, chainedB, List.append_eq, ih, Bool.and_assoc, hoff]

theorem chained_lb {c : Nat} {l : List Block} (h : chainedB c l = true) :
    ∀ b ∈ l, c ≤ b.addr := by
  induction l generalizing c with
  | nil => simp
  | cons hd tl ih =>
    simp only [chainedB, Bool.and_eq_true, decide_eq_true_eq] at h
    intro b hb
    rcases List.mem_cons.1 hb with hb | hb
    · subst hb; omega
    · have := ih h.2 b hb
      omega

theorem chained_ub {c : Nat} {l : List Block} (h : chainedB c l = true) :
    ∀ b ∈ l, b.addr + HEADER_SIZE + b.payload ≤ c + endAddrL l := by
  induction l generalizing c with
  | nil => simp
  | cons hd tl ih =>
    simp only [chainedB, Bool.and_eq_true, decide_eq_true_eq] at h
    intro b hb
    rcases List.mem_cons.1 hb with hb | hb
    · subst hb
      simp only [endAddrL, List.map_cons, List.sum_cons]
      omega
    · have := ih h.2 b hb
      simp only [endAddrL, List.map_cons, List.sum_cons] at *
      omega

theorem chained_getBlock {c : Nat} {l : List Block} (h : chainedB c l = true)
    {b : Block} (hb : b ∈ l) : getBlock l b.addr = some b := by
  induction l generalizing c with
  | nil => simp at hb
  | cons hd tl ih =>
    simp only [chainedB, Bool.and_eq_true, decide_eq_true_eq] at h
    rcases List.mem_cons.1 hb with hb | hb
    · subst hb; simp [getBlock]
    · have hlt : c + HEADER_SIZE + hd.payload ≤ b.addr := chained_lb h.2 b hb
      have h1 : hd.addr = c := h.1
      have h8 : HEADER_SIZE = 8 := rfl
      have hne : hd.addr ≠ b.addr := by omega
      simp only [getBlock, if_neg hne]
      exact ih h.2 hb

theorem getBlock_decomp {l : List Block} {a : Nat} {b : Block}
    (h : getBlock l a = some b) :
    ∃ l1 l2, l = l1 ++ b :: l2 ∧ ∀ x ∈ l1, x.addr ≠ a := by
  induction l with
  | nil => simp [getBlock] at h
  | cons hd tl ih =>
    by_cases hc : hd.addr = a
    · simp only [getBlock, if_pos hc] at h
      cases h
      exact ⟨[], tl, rfl, by simp⟩
    · simp only [getBlock, if_neg hc] at h
      obtain ⟨l1, l2, heq, hne⟩ := ih h
      refine ⟨hd :: l1, l2, by rw [heq]; rfl, ?_⟩
      intro x hx
      rcases List.mem_cons.1 hx with hx | hx
      · subst hx; exact hc
      · exact hne x hx

theorem getBlock_append (l1 l2 : List Block) (a : Nat) :
    getBlock (l1 ++ l2) a =
      match getBlock l1 a with
      | some b => some b
      | none => getBlock l2 a := by
  induction l1 with
  | nil => simp [getBlock]
  | cons hd tl ih =>
    by_cases hc : hd.addr = a
    · simp [getBlock, if_pos hc]
    · simp only [List.cons_append, getBlock, if_neg hc]
      exact ih

theorem getBlock_none (l : List Block) (a : Nat) (h : ∀ x ∈ l, x.addr ≠ a) :
    getBlock l a = none := by
  induction l with
  | nil => rfl
  | cons hd tl ih =>
    simp only [getBlock, if_neg (h hd (List.mem_cons_self ..))]
    exact ih (fun x hx => h x (List.mem_cons_of_mem _ hx))

theorem extent_le_endAddrL {l : List Block} {b : Block} (hb : b ∈ l) :
    HEADER_SIZE + b.payload ≤ endAddrL l := by
  induction l with
  | nil => simp at hb
  | cons hd tl ih =>
    simp only [endAddrL, List.map_cons, List.sum_cons] at *
    rcases List.mem_cons.1 hb with hb | hb
    · subst hb; omega
    · have := ih hb; omega

/-! ## Arithmetic of the 32/64-bit operations -/

theorem toU32_eq {n : Nat} (h : n < U32) : toU32 n = n := Nat.mod_eq_of_lt h

theorem wsub_eq {a b : Nat} (hb : b ≤ a) (ha : a < U64) : wsub a b = a - b := by
  have hb' : b < U64 := lt_of_le_of_lt hb ha
  unfold wsub
  rw [Nat.mod_eq_of_lt ha, Nat.mod_eq_of_lt hb']
  have h1 : a + (U64 - b) = (a - b) + U64 := by omega
  rw [h1, Nat.add_mod_right, Nat.mod_eq_of_lt (by omega)]

theorem land_mask8 {x : Nat} (hx : x < U64) : Nat.land x (U64 - 8) = x / 8 * 8 := by
  have hmask : U64 - 8 = (2 ^ 61 - 1) <<< 3 := by decide
  have hrhs : x / 8 * 8 = (x >>> 3) <<< 3 := by
    rw [Nat.shiftRight_eq_div_pow, Nat.shiftLeft_eq]
  rw [hmask, hrhs]
  show x &&& (2 ^ 61 - 1) <<< 3 = (x >>> 3) <<< 3
  apply Nat.eq_of_testBit_eq
  intro i
  rw [Nat.testBit_and, Nat.testBit_shiftLeft, Nat.testBit_shiftLeft,
    Nat.testBit_shiftRight, Nat.testBit_two_pow_sub_one]
  by_cases h3 : 3 ≤ i
  · by_cases h64 : i < 64
    · have h61 : i - 3 < 61 := by omega
      have hadd : 3 + (i - 3) = i := by omega
      simp [h3, h61, hadd]
    · have hig : U64 ≤ 2 ^ i := by
        calc U64 = 2 ^ 64 := by unfold U64; norm_num
        _ ≤ 2 ^ i := Nat.pow_le_pow_right (by norm_num) (by omega)
      have hxi : x.testBit i = false := Nat.testBit_lt_two_pow (lt_of_lt_of_le hx hig)
      have h61 : ¬ (i - 3 < 61) := by omega
      simp [h3, h61, hxi]
  · simp [h3]

theorem align8_eq {n : Nat} (h : n + 7 < U64) : align n 8 = (n + 7) / 8 * 8 := by
  unfold align
  rw [Nat.mod_eq_of_lt (by omega : n + (8 - 1) < U64)]
  have := land_mask8 (x := n + (8 - 1)) (by omega)
  rw [this]

theorem align8_mod (n : Nat) : align n 8 % 8 = 0 := by
  unfold align
  rw [land_mask8 (Nat.mod_lt _ (by unfold U64; norm_num))]
  simp [Nat.mul_mod_left]

theorem align8_ge {n : Nat} (h : n + 7 < U64) : n ≤ align n 8 := by
  rw [align8_eq h]
  have := Nat.div_add_mod (n + 7) 8
  have := Nat.mod_lt (n + 7) (y := 8) (by norm_num)
  omega

theorem align8_le {n : Nat} (h : n + 7 < U64) : align n 8 ≤ n + 7 := by
  rw [align8_eq h]
  have := Nat.div_add_mod (n + 7) 8
  omega

theorem adjust_mod8 (n : Nat) : adjust n % 8 = 0 := by
  unfold adjust
  split
  · rfl
  · exact align8_mod n

theorem adjust_ge16 (n : Nat) : MIN_PAYLOAD_SIZE ≤ adjust n := by
  unfold adjust
  split
  · exact le_refl _
  · omega

theorem adjust_ge {n : Nat} (h : n + 7 < U64) : n ≤ adjust n := by
  unfold adjust ALIGNMENT MIN_PAYLOAD_SIZE
  have := align8_ge h
  split
  · omega
  · omega

theorem adjust_le {n : Nat} (h : n + 7 < U64) : adjust n ≤ max (n + 7) MIN_PAYLOAD_SIZE := by
  unfold adjust ALIGNMENT
  have := align8_le h
  split
  · exact le_max_right _ _
  · exact le_trans this (le_max_left _ _)

theorem adjust_eq_spec {n : Nat} (h : n + 7 < U64) : adjust n = requestShapeSpec n := by
  unfold adjust requestShapeSpec ALIGNMENT MIN_PAYLOAD_SIZE
  rw [align8_eq h]
  split
  · omega
  · omega

/-! ## Structure of adjacent blocks -/

theorem chained_adjacent_decomp {l : List Block} {c a : Nat} {bA bC : Block}
    (h : chainedB c l = true) (hA : getBlock l a = some bA)
    (hC : getBlock l (a + HEADER_SIZE + bA.payload) = some bC) :
    ∃ l1 l2, l = l1 ++ bA :: bC :: l2 ∧ (∀ x ∈ l1, x.addr < a) ∧ bA.addr = a ∧
      bC.addr = a + HEADER_SIZE + bA.payload ∧
      (∀ x ∈ l2, bC.addr + HEADER_SIZE + bC.payload ≤ x.addr) := by
  obtain ⟨l1, l2', heq, hne⟩ := getBlock_decomp hA
  have haddrA : bA.addr = a := (getBlock_mem hA).2
  subst heq
  have h8 : HEADER_SIZE = 8 := rfl
  rw [chainedB_append] at h
  simp only [Bool.and_eq_true] at h
  obtain ⟨h1, h2⟩ := h
  simp only [chainedB, Bool.and_eq_true, decide_eq_true_eq] at h2
  obtain ⟨hA_at, h2'⟩ := h2
  have hl1lt : ∀ x ∈ l1, x.addr < a := by
    intro x hx
    have := chained_ub h1 x hx
    omega
  have hcurr_gt : a < a + HEADER_SIZE + bA.payload := by omega
  have hg1 : getBlock l1 (a + HEADER_SIZE + bA.payload) = none :=
    getBlock_none _ _ (fun x hx => by have := hl1lt x hx; omega)
  rw [getBlock_append, hg1] at hC
  simp only [getBlock, if_neg (show bA.addr ≠ a + HEADER_SIZE + bA.payload by omega)] at hC
  cases l2' with
  | nil => simp [getBlock] at hC
  | cons bC' l2 =>
    rw [chainedB] at h2'
    simp only [Bool.and_eq_true, decide_eq_true_eq] at h2'
    obtain ⟨hC_at, h3⟩ := h2'
    rw [haddrA] at hA_at
    rw [← hA_at] at hC_at h3
    simp only [getBlock, if_pos hC_at] at hC
    cases hC
    refine ⟨l1, l2, rfl, hl1lt, haddrA, hC_at, ?_⟩
    intro x hx
    have := chained_lb h3 x hx
    omega

theorem absorbBlocks_eq (a : Nat) (bA bC : Block) (l1 l2 : List Block)
    (h1 : ∀ x ∈ l1, x.addr ≠ a) (ha : bA.addr = a)
    (h2 : ∀ x ∈ l2, x.addr ≠ bC.addr) :
    absorbBlocks a bC (l1 ++ bA :: bC :: l2) = l1 ++ grownBlock bA bC :: l2 := by
  induction l1 with
  | nil =>
    simp only [List.nil_append, absorbBlocks, if_pos ha, grownBlock]
    congr 1
    rw [List.filter_cons]
    simp only [ne_eq, decide_not, decide_eq_true_eq]
    rw [if_neg (by simp)]
    rw [List.filter_eq_self.2]
    intro x hx
    simp [h2 x hx]
  | cons hd tl ih =>
    simp only [List.cons_append, absorbBlocks,
      if_neg (h1 hd (List.mem_cons_self ..)), List.append_eq]
    rw [ih (fun x hx => h1 x (List.mem_cons_of_mem _ hx))]

theorem splitBlocks_eq (a space payload : Nat) (b0 : Block) (l1 l2 : List Block)
    (h1 : ∀ x ∈ l1, x.addr ≠ a) (hb : b0.addr = a) :
    splitBlocks a space payload (l1 ++ b0 :: l2) =
      l1 ++ { b0 with payload := toU32 payload, data := b0.data.take payload } ::
        { addr := a + payload + HEADER_SIZE,
          payload := toU32 (wsub (wsub space payload) HEADER_SIZE),
          allocated := false, data := b0.data.drop (payload + HEADER_SIZE) } :: l2 := by
  induction l1 with
  | nil => simp [splitBlocks, if_pos hb]
  | cons hd tl ih =>
    simp only [List.cons_append, splitBlocks, if_neg (h1 hd (List.mem_cons_self ..)),
      List.append_eq]
    rw [ih (fun x hx => h1 x (List.mem_cons_of_mem _ hx))]

theorem mem_updBlocks {f : Block → Block} {a : Nat} {l : List Block} {b' : Block} :
    b' ∈ updBlocks f a l ↔ ∃ b ∈ l, b' = if b.addr = a then f b else b := by
  induction l with
  | nil => simp [updBlocks]
  | cons hd tl ih =>
    simp only [updBlocks, List.mem_cons, ih]
    constructor
    · rintro (h | ⟨b, hb, rfl⟩)
      · exact ⟨hd, Or.inl rfl, h⟩
      · exact ⟨b, Or.inr hb, rfl⟩
    · rintro ⟨b, (rfl | hb), rfl⟩
      · exact Or.inl rfl
      · exact Or.inr ⟨b, hb, rfl⟩

theorem updBlocks_comp (f g : Block → Block) (a : Nat) (l : List Block)
    (hg : ∀ b, (g b).addr = b.addr) :
    updBlocks f a (updBlocks g a l) = updBlocks (fun b => f (g b)) a l := by
  induction l with
  | nil => rfl
  | cons hd tl ih =>
    by_cases hc : hd.addr = a
    · simp only [updBlocks, if_pos hc, if_pos ((hg hd).trans hc), ih]
    · simp only [updBlocks, if_neg hc, ih]

theorem freeMem_updBlocks {l : List Block} {fl fl' : List Nat} {f : Block → Block} {a : Nat}
    (hbase : ∀ b ∈ l, b.allocated = false → b.addr ∈ fl)
    (hsub : ∀ x ∈ fl, x ∈ fl')
    (hfa : ∀ b, (f b).addr = b.addr)
    (hain : a ∈ fl') :
    ∀ b' ∈ updBlocks f a l, b'.allocated = false → b'.addr ∈ fl' := by
  intro b' hb' hfree
  obtain ⟨b, hb, rfl⟩ := mem_updBlocks.1 hb'
  by_cases hc : b.addr = a
  · rw [if_pos hc] at hfree ⊢
    rw [hfa b, hc]
    exact hain
  · rw [if_neg hc] at hfree ⊢
    exact hsub _ (hbase b hb hfree)

theorem dataOk_updBlocks {l : List Block} {f : Block → Block} {a : Nat}
    (hbase : ∀ b ∈ l, b.data.length = b.payload)
    (hf : ∀ b, b.data.length = b.payload → (f b).data.length = (f b).payload) :
    ∀ b ∈ updBlocks f a l, b.data.length = b.payload := by
  intro b' hb'
  obtain ⟨b, hb, rfl⟩ := mem_updBlocks.1 hb'
  by_cases hc : b.addr = a
  · rw [if_pos hc]
    exact hf b (hbase b hb)
  · rw [if_neg hc]
    exact hbase b hb

theorem getBlock_updBlocks_sig (f : Block → Block) (a x : Nat) (l : List Block)
    (hfa : ∀ b, (f b).addr = b.addr) (hsig : ∀ b, blockSig (f b) = blockSig b) :
    (getBlock (updBlocks f a l) x).map blockSig = (getBlock l x).map blockSig := by
  by_cases hx : x = a
  · subst hx
    rw [getBlock_updBlocks_self f x l hfa]
    cases getBlock l x with
    | none => rfl
    | some b => simp [hsig b]
  · rw [getBlock_updBlocks_ne f a x l hfa hx]

theorem freeAt_of_sig {m l : List Block} {x : Nat}
    (h : (getBlock m x).map blockSig = (getBlock l x).map blockSig) :
    freeAt m x = freeAt l x := by
  unfold freeAt
  cases hm : getBlock m x with
  | none =>
    cases hl : getBlock l x with
    | none => rfl
    | some b => rw [hm, hl] at h; simp at h
  | some bm =>
    cases hl : getBlock l x with
    | none => rw [hm, hl] at h; simp at h
    | some bl =>
      rw [hm, hl] at h
      simp only [Option.map_some', Option.some.injEq, blockSig, Prod.mk.injEq] at h
      simp [h.2.2.1]

theorem storeHelper_addr : ∀ b : Block, (setFree b).addr = b.addr := fun _ => rfl

theorem setUsed_addr : ∀ b : Block, (setUsed b).addr = b.addr := fun _ => rfl

theorem storeLinks2_addr : ∀ b : Block, (storeLinks2 b).addr = b.addr := fun _ => rfl

theorem storePrev_addr : ∀ b : Block, (storePrev b).addr = b.addr := fun _ => rfl

theorem storeNext_addr : ∀ b : Block, (storeNext b).addr = b.addr := fun _ => rfl

theorem setFree_keep : ∀ b : Block, (setFree b).addr = b.addr ∧ (setFree b).payload = b.payload :=
  fun _ => ⟨rfl, rfl⟩

theorem setUsed_keep : ∀ b : Block, (setUsed b).addr = b.addr ∧ (setUsed b).payload = b.payload :=
  fun _ => ⟨rfl, rfl⟩

theorem storeLinks2_keep :
    ∀ b : Block, (storeLinks2 b).addr = b.addr ∧ (storeLinks2 b).payload = b.payload :=
  fun _ => ⟨rfl, rfl⟩

theorem storePrev_keep :
    ∀ b : Block, (storePrev b).addr = b.addr ∧ (storePrev b).payload = b.payload :=
  fun _ => ⟨rfl, rfl⟩

theorem storeNext_keep :
    ∀ b : Block, (storeNext b).addr = b.addr ∧ (storeNext b).payload = b.payload :=
  fun _ => ⟨rfl, rfl⟩

theorem setFree_payload : ∀ b : Block, (setFree b).payload = b.payload := fun _ => rfl

theorem setUsed_payload : ∀ b : Block, (setUsed b).payload = b.payload := fun _ => rfl

theorem storeLinks2_payload : ∀ b : Block, (storeLinks2 b).payload = b.payload := fun _ => rfl

theorem storePrev_payload : ∀ b : Block, (storePrev b).payload = b.payload := fun _ => rfl

theorem storeNext_payload : ∀ b : Block, (storeNext b).payload = b.payload := fun _ => rfl

theorem storeLinks2_sig : ∀ b : Block, blockSig (storeLinks2 b) = blockSig b := by
  intro b
  simp [blockSig, storeLinks2, writeZeros_length]

theorem storePrev_sig : ∀ b : Block, blockSig (storePrev b) = blockSig b := by
  intro b
  simp [blockSig, storePrev, writeZeros_length]

theorem storeNext_sig : ∀ b : Block, blockSig (storeNext b) = blockSig b := by
  intro b
  simp [blockSig, storeNext, writeZeros_length]

theorem add_block_freeList (s : Heap) (a : Nat) :
    (add_block s a).freeList = a :: s.freeList := by
  rcases hfl : s.freeList with _ | ⟨oh, rest⟩ <;> simp [add_block, hfl, Heap.upd]

theorem add_block_segmentSize (s : Heap) (a : Nat) :
    (add_block s a).segmentSize = s.segmentSize := by
  rcases hfl : s.freeList with _ | ⟨oh, rest⟩ <;> simp [add_block, hfl, Heap.upd]

theorem add_block_chained (s : Heap) (a c : Nat) :
    chainedB c (add_block s a).blocks = chainedB c s.blocks := by
  rcases hfl : s.freeList with _ | ⟨oh, rest⟩ <;> simp only [add_block, hfl, Heap.upd]
  · rw [chainedB_updBlocks _ _ _ _ setFree_keep, chainedB_updBlocks _ _ _ _ storeLinks2_keep]
  · rw [chainedB_updBlocks _ _ _ _ setFree_keep, chainedB_updBlocks _ _ _ _ storeLinks2_keep,
      chainedB_updBlocks _ _ _ _ storePrev_keep]

theorem add_block_endAddr (s : Heap) (a : Nat) :
    endAddrL (add_block s a).blocks = endAddrL s.blocks := by
  rcases hfl : s.freeList with _ | ⟨oh, rest⟩ <;> simp only [add_block, hfl, Heap.upd]
  · rw [endAddrL_updBlocks _ _ _ setFree_payload, endAddrL_updBlocks _ _ _ storeLinks2_payload]
  · rw [endAddrL_updBlocks _ _ _ setFree_payload, endAddrL_updBlocks _ _ _ storeLinks2_payload,
      endAddrL_updBlocks _ _ _ storePrev_payload]

theorem add_block_getBlock_self (s : Heap) (a : Nat) (hnm : a ∉ s.freeList) :
    getBlock (add_block s a).blocks a =
      (getBlock s.blocks a).map (fun b => setFree (storeLinks2 b)) := by
  rcases hfl : s.freeList with _ | ⟨oh, rest⟩
  · simp only [add_block, hfl, Heap.upd]
    rw [getBlock_updBlocks_self _ _ _ storeHelper_addr,
      getBlock_updBlocks_self _ _ _ storeLinks2_addr, Option.map_map]
    rfl
  · have hne : a ≠ oh := by
      intro h
      exact hnm (h ▸ hfl ▸ List.mem_cons_self ..)
    simp only [add_block, hfl, Heap.upd]
    rw [getBlock_updBlocks_self _ _ _ storeHelper_addr,
      getBlock_updBlocks_self _ _ _ storeLinks2_addr,
      getBlock_updBlocks_ne _ _ _ _ storePrev_addr hne, Option.map_map]
    rfl

theorem add_block_getBlock_sig (s : Heap) (a x : Nat) (hx : x ≠ a) :
    (getBlock (add_block s a).blocks x).map blockSig =
      (getBlock s.blocks x).map blockSig := by
  rcases hfl : s.freeList with _ | ⟨oh, rest⟩ <;> simp only [add_block, hfl, Heap.upd]
  · rw [getBlock_updBlocks_ne _ _ _ _ storeHelper_addr hx]
    exact getBlock_updBlocks_sig _ _ _ _ storeLinks2_addr storeLinks2_sig
  · rw [getBlock_updBlocks_ne _ _ _ _ storeHelper_addr hx,
      getBlock_updBlocks_sig _ _ _ _ storeLinks2_addr storeLinks2_sig]
    exact getBlock_updBlocks_sig _ _ _ _ storePrev_addr storePrev_sig

theorem add_block_dataOk (s : Heap) (a : Nat) (h : dataOk s) : dataOk (add_block s a) := by
  have hL2 : ∀ b : Block, b.data.length = b.payload →
      (storeLinks2 b).data.length = (storeLinks2 b).payload := by
    intro b hb
    simp [storeLinks2, writeZeros_length, hb]
  have hP : ∀ b : Block, b.data.length = b.payload →
      (storePrev b).data.length = (storePrev b).payload := by
    intro b hb
    simp [storePrev, writeZeros_length, hb]
  have hF : ∀ b : Block, b.data.length = b.payload →
      (setFree b).data.length = (setFree b).payload := fun b hb => hb
  rcases hfl : s.freeList with _ | ⟨oh, rest⟩ <;> simp only [add_block, hfl, Heap.upd] <;>
    unfold dataOk at h ⊢
  · exact dataOk_updBlocks (dataOk_updBlocks h (fun b => hL2 b)) (fun b => hF b)
  · exact dataOk_updBlocks (dataOk_updBlocks (dataOk_updBlocks h (fun b => hP b))
      (fun b => hL2 b)) (fun b => hF b)

theorem add_block_freeMem (s : Heap) (a : Nat)
    (h : ∀ b ∈ s.blocks, b.allocated = false → b.addr ∈ s.freeList) :
    ∀ b ∈ (add_block s a).blocks, b.allocated = false → b.addr ∈ a :: s.freeList := by
  rcases hfl : s.freeList with _ | ⟨oh, rest⟩ <;> simp only [add_block, hfl, Heap.upd] <;>
    rw [hfl] at h
  · exact freeMem_updBlocks
      (freeMem_updBlocks h (fun x hx => List.mem_cons_of_mem _ hx) storeLinks2_addr
        (List.mem_cons_self ..))
      (fun x hx => hx) storeHelper_addr (List.mem_cons_self ..)
  · exact freeMem_updBlocks
      (freeMem_updBlocks
        (freeMem_updBlocks h (fun x hx => List.mem_cons_of_mem _ hx) storePrev_addr
          (List.mem_cons_of_mem _ (List.mem_cons_self ..)))
        (fun x hx => hx) storeLinks2_addr (List.mem_cons_self ..))
      (fun x hx => hx) storeHelper_addr (List.mem_cons_self ..)

theorem add_block_listOk (s : Heap) (a : Nat) (bA : Block)
    (hlo : listOk s) (hg : getBlock s.blocks a = some bA) (hnm : a ∉ s.freeList) :
    listOk (add_block s a) := by
  obtain ⟨h1, h2, h3⟩ := hlo
  refine ⟨?_, ?_, ?_⟩
  · rw [add_block_freeList]
    intro x hx
    rcases List.mem_cons.1 hx with hx | hx
    · subst hx
      unfold freeAt
      rw [add_block_getBlock_self s x hnm, hg]
      rfl
    · have hxa : x ≠ a := fun h => hnm (h ▸ hx)
      rw [freeAt_of_sig (add_block_getBlock_sig s a x hxa)]
      exact h1 x hx
  · rw [add_block_freeList]
    exact add_block_freeMem s a h2
  · rw [add_block_freeList]
    exact List.nodup_cons.2 ⟨hnm, h3⟩

theorem add_block_HeapInv (s : Heap) (a : Nat) (bA : Block)
    (hInv : HeapInv s) (hg : getBlock s.blocks a = some bA) (hnm : a ∉ s.freeList) :
    HeapInv (add_block s a) := by
  obtain ⟨hc, he, hd, hl⟩ := hInv
  refine ⟨?_, ?_, ?_, ?_⟩
  · rw [add_block_chained]
    exact hc
  · show endAddrL (add_block s a).blocks ≤ U32 + 7
    rw [add_block_endAddr]
    exact he
  · exact add_block_dataOk s a hd
  · exact add_block_listOk s a bA hl hg hnm

theorem neighborsIn_some {l : List Nat} {x : Nat} (prev : Option Nat) (hx : x ∈ l) :
    ∃ pn, neighborsIn prev l x = some pn := by
  induction l generalizing prev with
  | nil => simp at hx
  | cons a rest ih =>
    by_cases hax : a = x
    · exact ⟨(prev, rest.head?), by simp [neighborsIn, hax]⟩
    · rcases List.mem_cons.1 hx with hx' | hx'
      · exact absurd hx'.symm hax
      · obtain ⟨pn, hpn⟩ := ih (some a) hx'
        exact ⟨pn, by simp [neighborsIn, hax, hpn]⟩

theorem neighborsIn_gen {l : List Nat} {x : Nat} {pr nx : Option Nat} :
    ∀ {prev : Option Nat}, l.Nodup → neighborsIn prev l x = some (pr, nx) →
    x ∈ l ∧ (∀ n, nx = some n → n ∈ l ∧ n ≠ x) ∧
      (∀ p, pr = some p → pr = prev ∨ (p ∈ l ∧ p ≠ x)) := by
  induction l with
  | nil => intro prev _ h; simp [neighborsIn] at h
  | cons a rest ih =>
    intro prev hnd h
    have hnd' : rest.Nodup := (List.nodup_cons.1 hnd).2
    have hna : a ∉ rest := (List.nodup_cons.1 hnd).1
    by_cases hax : a = x
    · simp only [neighborsIn, if_pos hax, Option.some.injEq, Prod.mk.injEq] at h
      refine ⟨by rw [← hax]; exact List.mem_cons_self .., ?_, ?_⟩
      · intro n hn
        rw [← h.2] at hn
        have hmem : n ∈ rest := by
          cases rest with
          | nil => simp at hn
          | cons r rs =>
            simp only [List.head?, Option.some.injEq] at hn
            rw [← hn]
            exact List.mem_cons_self ..
        refine ⟨List.mem_cons_of_mem _ hmem, ?_⟩
        intro hnx
        rw [hnx, ← hax] at hmem
        exact hna hmem
      · intro p hp
        exact Or.inl h.1.symm
    · simp only [neighborsIn, if_neg hax] at h
      obtain ⟨hxm, hn, hp⟩ := ih hnd' h
      refine ⟨List.mem_cons_of_mem _ hxm, ?_, ?_⟩
      · intro n hnn
        obtain ⟨h1, h2⟩ := hn n hnn
        exact ⟨List.mem_cons_of_mem _ h1, h2⟩
      · intro p hp'
        rcases hp p hp' with hcase | ⟨h1, h2⟩
        · rw [hcase] at hp'
          cases hp'
          exact Or.inr ⟨List.mem_cons_self .., fun hh => hax hh⟩
        · exact Or.inr ⟨List.mem_cons_of_mem _ h1, h2⟩

theorem freeMem_updBlocks_keepflag {l : List Block} {fl : List Nat} {f : Block → Block} {a : Nat}
    (hbase : ∀ b ∈ l, b.allocated = false → b.addr ∈ fl)
    (hfa : ∀ b, (f b).addr = b.addr) (hff : ∀ b, (f b).allocated = b.allocated) :
    ∀ b' ∈ updBlocks f a l, b'.allocated = false → b'.addr ∈ fl := by
  intro b' hb' hfree
  obtain ⟨b, hb, rfl⟩ := mem_updBlocks.1 hb'
  by_cases hc : b.addr = a
  · rw [if_pos hc] at hfree ⊢
    rw [hfa b]
    exact hbase b hb (by rw [← hff b]; exact hfree)
  · rw [if_neg hc] at hfree ⊢
    exact hbase b hb hfree

theorem freeMem_updBlocks_setUsed {l : List Block} {fl : List Nat} {x : Nat}
    (hbase : ∀ b ∈ l, b.allocated = false → b.addr ∈ fl) :
    ∀ b' ∈ updBlocks setUsed x l, b'.allocated = false → b'.addr ∈ fl ∧ b'.addr ≠ x := by
  intro b' hb' hfree
  obtain ⟨b, hb, rfl⟩ := mem_updBlocks.1 hb'
  by_cases hc : b.addr = x
  · rw [if_pos hc] at hfree
    simp [setUsed] at hfree
  · rw [if_neg hc] at hfree ⊢
    exact ⟨hbase b hb hfree, hc⟩

theorem remove_block_freeList (s : Heap) (x : Nat) :
    (remove_block s x).freeList = s.freeList.erase x := by
  rcases hn : neighborsIn none s.freeList x with _ | ⟨pr, nx⟩
  · have hxm : x ∉ s.freeList := by
      intro hx
      obtain ⟨pn, hpn⟩ := neighborsIn_some none hx
      rw [hn] at hpn
      cases hpn
    simp only [remove_block, hn, upd_freeList]
    rw [List.erase_of_not_mem hxm]
  · rcases pr with _ | p <;> rcases nx with _ | n <;> simp [remove_block, hn, Heap.upd]

theorem remove_block_segmentSize (s : Heap) (x : Nat) :
    (remove_block s x).segmentSize = s.segmentSize := by
  rcases hn : neighborsIn none s.freeList x with _ | ⟨pr, nx⟩
  · simp [remove_block, hn]
  · rcases pr with _ | p <;> rcases nx with _ | n <;> simp [remove_block, hn, Heap.upd]

theorem remove_block_chained (s : Heap) (x c : Nat) :
    chainedB c (remove_block s x).blocks = chainedB c s.blocks := by
  rcases hn : neighborsIn none s.freeList x with _ | ⟨pr, nx⟩
  · simp only [remove_block, hn, upd_blocks]
    rw [chainedB_updBlocks _ _ _ _ setUsed_keep]
  · rcases pr with _ | p <;> rcases nx with _ | n <;>
      simp only [remove_block, hn, upd_blocks, Heap.upd] <;>
      rw [chainedB_updBlocks _ _ _ _ setUsed_keep]
    · rw [chainedB_updBlocks _ _ _ _ storePrev_keep]
    · rw [chainedB_updBlocks _ _ _ _ storeNext_keep]
    · rw [chainedB_updBlocks _ _ _ _ storePrev_keep, chainedB_updBlocks _ _ _ _ storeNext_keep]

theorem remove_block_endAddr (s : Heap) (x : Nat) :
    endAddrL (remove_block s x).blocks = endAddrL s.blocks := by
  rcases hn : neighborsIn none s.freeList x with _ | ⟨pr, nx⟩
  · simp only [remove_block, hn, upd_blocks]
    rw [endAddrL_updBlocks _ _ _ setUsed_payload]
  · rcases pr with _ | p <;> rcases nx with _ | n <;>
      simp only [remove_block, hn, upd_blocks, Heap.upd] <;>
      rw [endAddrL_updBlocks _ _ _ setUsed_payload]
    · rw [endAddrL_updBlocks _ _ _ storePrev_payload]
    · rw [endAddrL_updBlocks _ _ _ storeNext_payload]
    · rw [endAddrL_updBlocks _ _ _ storePrev_payload, endAddrL_updBlocks _ _ _ storeNext_payload]

theorem remove_block_dataOk (s : Heap) (x : Nat) (h : dataOk s) : dataOk (remove_block s x) := by
  have hU : ∀ b : Block, b.data.length = b.payload →
      (setUsed b).data.length = (setUsed b).payload := fun b hb => hb
  have hP : ∀ b : Block, b.data.length = b.payload →
      (storePrev b).data.length = (storePrev b).payload := by
    intro b hb
    simp [storePrev, writeZeros_length, hb]
  have hN : ∀ b : Block, b.data.length = b.payload →
      (storeNext b).data.length = (storeNext b).payload := by
    intro b hb
    simp [storeNext, writeZeros_length, hb]
  unfold dataOk at h ⊢
  rcases hn : neighborsIn none s.freeList x with _ | ⟨pr, nx⟩
  · simp only [remove_block, hn, upd_blocks]
    exact dataOk_updBlocks h hU
  · rcases pr with _ | p <;> rcases nx with _ | n <;>
      simp only [remove_block, hn, upd_blocks, Heap.upd]
    · exact dataOk_updBlocks h hU
    · exact dataOk_updBlocks (dataOk_updBlocks h hP) hU
    · exact dataOk_updBlocks (dataOk_updBlocks h hN) hU
    · exact dataOk_updBlocks (dataOk_updBlocks (dataOk_updBlocks h hN) hP) hU

theorem remove_block_getBlock_sig (s : Heap) (x y : Nat) (hy : y ≠ x) :
    (getBlock (remove_block s x).blocks y).map blockSig =
      (getBlock s.blocks y).map blockSig := by
  rcases hn : neighborsIn none s.freeList x with _ | ⟨pr, nx⟩
  · simp only [remove_block, hn, upd_blocks]
    rw [getBlock_updBlocks_ne _ _ _ _ setUsed_addr hy]
  · rcases pr with _ | p <;> rcases nx with _ | n <;>
      simp only [remove_block, hn, upd_blocks, Heap.upd] <;>
      rw [getBlock_updBlocks_ne _ _ _ _ setUsed_addr hy]
    · rw [getBlock_updBlocks_sig _ _ _ _ storePrev_addr storePrev_sig]
    · rw [getBlock_updBlocks_sig _ _ _ _ storeNext_addr storeNext_sig]
    · rw [getBlock_updBlocks_sig _ _ _ _ storePrev_addr storePrev_sig,
        getBlock_updBlocks_sig _ _ _ _ storeNext_addr storeNext_sig]

theorem remove_block_getBlock_self (s : Heap) (x : Nat) (hnd : s.freeList.Nodup) :
    getBlock (remove_block s x).blocks x = (getBlock s.blocks x).map setUsed := by
  rcases hn : neighborsIn none s.freeList x with _ | ⟨pr, nx⟩
  · simp only [remove_block, hn, upd_blocks]
    rw [getBlock_updBlocks_self _ _ _ setUsed_addr]
  · obtain ⟨hxm, hnfact, hpfact⟩ := neighborsIn_gen hnd hn
    rcases hpr : pr with _ | p <;> rcases hnx : nx with _ | n <;> subst hpr hnx <;>
      simp only [remove_block, hn, upd_blocks, Heap.upd] <;>
      rw [getBlock_updBlocks_self _ _ _ setUsed_addr]
    · obtain ⟨_, hnex⟩ := hnfact n rfl
      rw [getBlock_updBlocks_ne _ _ _ _ storePrev_addr (fun hh => hnex hh.symm)]
    · rcases hpfact p rfl with hcase | ⟨_, hpex⟩
      · cases hcase
      · rw [getBlock_updBlocks_ne _ _ _ _ storeNext_addr (fun hh => hpex hh.symm)]
    · obtain ⟨_, hnex⟩ := hnfact n rfl
      rcases hpfact p rfl with hcase | ⟨_, hpex⟩
      · cases hcase
      · rw [getBlock_updBlocks_ne _ _ _ _ storePrev_addr (fun hh => hnex hh.symm),
          getBlock_updBlocks_ne _ _ _ _ storeNext_addr (fun hh => hpex hh.symm)]

theorem remove_block_freeMem (s : Heap) (x : Nat) (hnd : s.freeList.Nodup)
    (hbase : ∀ b ∈ s.blocks, b.allocated = false → b.addr ∈ s.freeList) :
    ∀ b' ∈ (remove_block s x).blocks, b'.allocated = false →
      b'.addr ∈ s.freeList.erase x := by
  have conv : ∀ b' : Block, b'.addr ∈ s.freeList ∧ b'.addr ≠ x →
      b'.addr ∈ s.freeList.erase x := by
    intro b' ⟨h1, h2⟩
    exact (List.Nodup.mem_erase_iff hnd).2 ⟨h2, h1⟩
  rcases hn : neighborsIn none s.freeList x with _ | ⟨pr, nx⟩
  · simp only [remove_block, hn, upd_blocks]
    intro b' hb' hf
    exact conv b' (freeMem_updBlocks_setUsed hbase b' hb' hf)
  · rcases pr with _ | p <;> rcases nx with _ | n <;>
      simp only [remove_block, hn, upd_blocks, Heap.upd] <;> intro b' hb' hf
    · exact conv b' (freeMem_updBlocks_setUsed hbase b' hb' hf)
    · exact conv b' (freeMem_updBlocks_setUsed
        (freeMem_updBlocks_keepflag hbase storePrev_addr (fun b => rfl)) b' hb' hf)
    · exact conv b' (freeMem_updBlocks_setUsed
        (freeMem_updBlocks_keepflag hbase storeNext_addr (fun b => rfl)) b' hb' hf)
    · exact conv b' (freeMem_updBlocks_setUsed
        (freeMem_updBlocks_keepflag
          (freeMem_updBlocks_keepflag hbase storeNext_addr (fun b => rfl))
          storePrev_addr (fun b => rfl)) b' hb' hf)

theorem remove_block_listOk (s : Heap) (x : Nat) (hlo : listOk s) :
    listOk (remove_block s x) := by
  obtain ⟨h1, h2, h3⟩ := hlo
  refine ⟨?_, ?_, ?_⟩
  · rw [remove_block_freeList]
    intro y hy
    obtain ⟨hyx, hym⟩ := (List.Nodup.mem_erase_iff h3).1 hy
    rw [freeAt_of_sig (remove_block_getBlock_sig s x y hyx)]
    exact h1 y hym
  · rw [remove_block_freeList]
    exact remove_block_freeMem s x h3 h2
  · rw [remove_block_freeList]
    exact List.Nodup.erase x h3

theorem add_block_freeMem' (s : Heap) (a : Nat)
    (h : ∀ b ∈ s.blocks, b.allocated = false → b.addr ∈ a :: s.freeList) :
    ∀ b ∈ (add_block s a).blocks, b.allocated = false → b.addr ∈ a :: s.freeList := by
  rcases hfl : s.freeList with _ | ⟨oh, rest⟩ <;> simp only [add_block, hfl, Heap.upd] <;>
    rw [hfl] at h
  · exact freeMem_updBlocks
      (freeMem_updBlocks h (fun x hx => hx) storeLinks2_addr (List.mem_cons_self ..))
      (fun x hx => hx) storeHelper_addr (List.mem_cons_self ..)
  · exact freeMem_updBlocks
      (freeMem_updBlocks
        (freeMem_updBlocks h (fun x hx => hx) storePrev_addr
          (List.mem_cons_of_mem _ (List.mem_cons_self ..)))
        (fun x hx => hx) storeLinks2_addr (List.mem_cons_self ..))
      (fun x hx => hx) storeHelper_addr (List.mem_cons_self ..)

theorem add_block_listOk' (s : Heap) (a : Nat) (bA : Block)
    (hA1 : ∀ x ∈ s.freeList, freeAt s.blocks x = true)
    (hA2 : ∀ b ∈ s.blocks, b.allocated = false → b.addr ∈ a :: s.freeList)
    (hnd : s.freeList.Nodup)
    (hg : getBlock s.blocks a = some bA) (hnm : a ∉ s.freeList) :
    listOk (add_block s a) := by
  refine ⟨?_, ?_, ?_⟩
  · rw [add_block_freeList]
    intro x hx
    rcases List.mem_cons.1 hx with hx | hx
    · subst hx
      unfold freeAt
      rw [add_block_getBlock_self s x hnm, hg]
      rfl
    · have hxa : x ≠ a := fun h => hnm (h ▸ hx)
      rw [freeAt_of_sig (add_block_getBlock_sig s a x hxa)]
      exact hA1 x hx
  · rw [add_block_freeList]
    exact add_block_freeMem' s a hA2
  · rw [add_block_freeList]
    exact List.nodup_cons.2 ⟨hnm, hnd⟩

theorem getBlock_cons_self {b : Block} {l : List Block} {x : Nat} (h : b.addr = x) :
    getBlock (b :: l) x = some b := by
  simp [getBlock, h]

theorem getBlock_cons_ne {b : Block} {l : List Block} {x : Nat} (h : b.addr ≠ x) :
    getBlock (b :: l) x = getBlock l x := by
  simp [getBlock, h]

theorem partition_spec (s : Heap) (a space payload : Nat) (b0 : Block)
    (hInv : HeapInv s) (hg : getBlock s.blocks a = some b0)
    (hspace : b0.payload = space) (hfit : payload + MIN_BLOCK_SIZE ≤ space) :
    (partition s a space payload).freeList = (a + payload + HEADER_SIZE) :: s.freeList ∧
    (partition s a space payload).segmentSize = s.segmentSize ∧
    chainedB 0 (partition s a space payload).blocks = true ∧
    endAddrL (partition s a space payload).blocks = endAddrL s.blocks ∧
    dataOk (partition s a space payload) ∧
    listOk (partition s a space payload) ∧
    (getBlock (partition s a space payload).blocks a).map blockSig =
      some (a, payload, b0.allocated, payload) ∧
    (getBlock (partition s a space payload).blocks (a + payload + HEADER_SIZE)).map blockSig =
      some (a + payload + HEADER_SIZE, space - payload - HEADER_SIZE, false,
        space - payload - HEADER_SIZE) ∧
    (∀ x, x ≠ a → x ≠ a + payload + HEADER_SIZE →
      (getBlock (partition s a space payload).blocks x).map blockSig =
        (getBlock s.blocks x).map blockSig) := by
  obtain ⟨hch, he, hd, hfA1, hfA2, hnd⟩ := hInv
  have h8 : HEADER_SIZE = 8 := rfl
  have h24 : MIN_BLOCK_SIZE = 24 := rfl
  have haddr : b0.addr = a := (getBlock_mem hg).2
  have hmem0 : b0 ∈ s.blocks := (getBlock_mem hg).1
  have hsp32 : space < U32 := by
    have h1 := extent_le_endAddrL hmem0
    have h2 : endAddrL s.blocks ≤ U32 + 7 := he
    rw [hspace] at h1
    omega
  have hplt : payload < U32 := by omega
  have hnp32 : space - payload - HEADER_SIZE < U32 := by omega
  have hU64 : space < U64 := by
    have : U32 < U64 := by unfold U32 U64; norm_num
    omega
  have hw : toU32 (wsub (wsub space payload) HEADER_SIZE) = space - payload - HEADER_SIZE := by
    rw [wsub_eq (by omega) hU64, wsub_eq (by omega : HEADER_SIZE ≤ space - payload) (by omega)]
    exact toU32_eq hnp32
  have htp : toU32 payload = payload := toU32_eq hplt
  obtain ⟨l1, l2, heq, hneq⟩ := getBlock_decomp hg
  have hch2 := hch
  rw [heq, chainedB_append] at hch2
  simp only [Bool.and_eq_true] at hch2
  obtain ⟨hchl1, hchmid⟩ := hch2
  rw [chainedB] at hchmid
  simp only [Bool.and_eq_true, decide_eq_true_eq] at hchmid
  obtain ⟨hb0at, hchl2⟩ := hchmid
  rw [haddr] at hb0at
  have hdlen0 : b0.data.length = space := by
    rw [hd b0 hmem0, hspace]
  have hblocks1 : splitBlocks a space payload s.blocks =
      l1 ++ frontBlock b0 payload :: tailBlock a space payload b0 :: l2 := by
    rw [heq, splitBlocks_eq a space payload b0 l1 l2 hneq haddr]
    unfold frontBlock tailBlock
    rw [htp, hw]
  have hpart : partition s a space payload =
      add_block { s with blocks :=
          l1 ++ frontBlock b0 payload :: tailBlock a space payload b0 :: l2 }
        (a + payload + HEADER_SIZE) := by
    unfold partition
    rw [hblocks1]
  have hfba : (frontBlock b0 payload).addr = a := haddr
  have hfbp : (frontBlock b0 payload).payload = payload := rfl
  have htba : (tailBlock a space payload b0).addr = a + payload + HEADER_SIZE := rfl
  have htbp : (tailBlock a space payload b0).payload = space - payload - HEADER_SIZE := rfl
  have hl1lt : ∀ x ∈ l1, x.addr < a := by
    intro x hx
    have := chained_ub hchl1 x hx
    omega
  have hl2ge : ∀ x ∈ l2, a + 8 + space ≤ x.addr := by
    intro x hx
    have hlb := chained_lb hchl2 x hx
    rw [hspace] at hlb
    omega
  have hne_next : a ≠ a + payload + HEADER_SIZE := by omega
  have haddr_ne_next : ∀ bx ∈ s.blocks, bx.addr ≠ a + payload + HEADER_SIZE := by
    intro bx hbx
    rw [heq] at hbx
    rcases List.mem_append.1 hbx with hbx | hbx
    · have := hl1lt bx hbx
      omega
    · rcases List.mem_cons.1 hbx with hbx | hbx
      · rw [hbx, haddr]
        omega
      · have := hl2ge bx hbx
        omega
  have hF1 : getBlock (l1 ++ frontBlock b0 payload :: tailBlock a space payload b0 :: l2) a =
      some (frontBlock b0 payload) := by
    rw [getBlock_append, getBlock_none l1 a hneq, getBlock_cons_self hfba]
  have hF2 : getBlock (l1 ++ frontBlock b0 payload :: tailBlock a space payload b0 :: l2)
      (a + payload + HEADER_SIZE) = some (tailBlock a space payload b0) := by
    rw [getBlock_append, getBlock_none l1 _ (fun x hx => by have := hl1lt x hx; omega),
      getBlock_cons_ne (by rw [hfba]; omega), getBlock_cons_self htba]
  have hF3 : ∀ x, x ≠ a → x ≠ a + payload + HEADER_SIZE →
      getBlock (l1 ++ frontBlock b0 payload :: tailBlock a space payload b0 :: l2) x =
      getBlock s.blocks x := by
    intro x hxa hxn
    rw [heq, getBlock_append, getBlock_append]
    cases getBlock l1 x with
    | some b => rfl
    | none =>
      rw [getBlock_cons_ne (by rw [hfba]; exact fun h => hxa h.symm),
        getBlock_cons_ne (by rw [htba]; exact fun h => hxn h.symm),
        getBlock_cons_ne (by rw [haddr]; exact fun h => hxa h.symm)]
  have hF4 : chainedB 0 (l1 ++ frontBlock b0 payload :: tailBlock a space payload b0 :: l2)
      = true := by
    rw [chainedB_append]
    simp only [Bool.and_eq_true]
    refine ⟨hchl1, ?_⟩
    rw [chainedB, chainedB]
    simp only [Bool.and_eq_true, decide_eq_true_eq]
    refine ⟨by rw [hfba]; omega, by rw [htba, hfbp]; omega, ?_⟩
    have hoff : 0 + endAddrL l1 + HEADER_SIZE + (frontBlock b0 payload).payload + HEADER_SIZE +
        (tailBlock a space payload b0).payload = 0 + endAddrL l1 + HEADER_SIZE + b0.payload := by
      rw [hfbp, htbp, hspace]
      omega
    rw [hoff]
    exact hchl2
  have hF5 : endAddrL (l1 ++ frontBlock b0 payload :: tailBlock a space payload b0 :: l2) =
      endAddrL s.blocks := by
    rw [heq, endAddrL_append, endAddrL_append]
    simp only [endAddrL, List.map_cons, List.sum_cons]
    rw [hfbp, htbp, hspace]
    omega
  have hF6 : ∀ b ∈ l1 ++ frontBlock b0 payload :: tailBlock a space payload b0 :: l2,
      b.data.length = b.payload := by
    intro b hb
    rcases List.mem_append.1 hb with hb | hb
    · exact hd b (heq ▸ List.mem_append.2 (Or.inl hb))
    · rcases List.mem_cons.1 hb with hb | hb
      · rw [hb]
        unfold frontBlock
        simp only [List.length_take]
        omega
      · rcases List.mem_cons.1 hb with hb | hb
        · rw [hb]
          unfold tailBlock
          simp only [List.length_drop]
          omega
        · exact hd b (heq ▸ List.mem_append.2 (Or.inr (List.mem_cons_of_mem _ hb)))
  have hfl_is_addr : ∀ x ∈ s.freeList, ∃ bx ∈ s.blocks, bx.addr = x ∧ bx.allocated = false := by
    intro x hx
    have := hfA1 x hx
    unfold freeAt at this
    cases hgx : getBlock s.blocks x with
    | none => rw [hgx] at this; simp at this
    | some bx =>
      rw [hgx] at this
      simp only [Bool.not_eq_true'] at this
      exact ⟨bx, (getBlock_mem hgx).1, (getBlock_mem hgx).2, this⟩
  have hnm_next : (a + payload + HEADER_SIZE) ∉ s.freeList := by
    intro hx
    obtain ⟨bx, hbm, hbeq, _⟩ := hfl_is_addr _ hx
    exact haddr_ne_next bx hbm hbeq
  have hA1' : ∀ x ∈ s.freeList, freeAt
      (l1 ++ frontBlock b0 payload :: tailBlock a space payload b0 :: l2) x = true := by
    intro x hx
    by_cases hxa : x = a
    · subst hxa
      unfold freeAt
      rw [hF1]
      have := hfA1 x hx
      unfold freeAt at this
      rw [hg] at this
      unfold frontBlock
      exact this
    · have hxn : x ≠ a + payload + HEADER_SIZE := fun h => hnm_next (h ▸ hx)
      unfold freeAt
      rw [hF3 x hxa hxn]
      have := hfA1 x hx
      unfold freeAt at this
      exact this
  have hA2' : ∀ b ∈ l1 ++ frontBlock b0 payload :: tailBlock a space payload b0 :: l2,
      b.allocated = false → b.addr ∈ (a + payload + HEADER_SIZE) :: s.freeList := by
    intro b hb hbf
    rcases List.mem_append.1 hb with hb | hb
    · exact List.mem_cons_of_mem _
        (hfA2 b (heq ▸ List.mem_append.2 (Or.inl hb)) hbf)
    · rcases List.mem_cons.1 hb with hb | hb
      · subst hb
        rw [hfba]
        refine List.mem_cons_of_mem _ (haddr ▸ hfA2 b0 hmem0 ?_)
        unfold frontBlock at hbf
        exact hbf
      · rcases List.mem_cons.1 hb with hb | hb
        · subst hb
          rw [htba]
          exact List.mem_cons_self ..
        · exact List.mem_cons_of_mem _
            (hfA2 b (heq ▸ List.mem_append.2 (Or.inr (List.mem_cons_of_mem _ hb))) hbf)
  rw [hpart]
  refine ⟨?_, ?_, ?_, ?_, ?_, ?_, ?_, ?_, ?_⟩
  · rw [add_block_freeList]
  · rw [add_block_segmentSize]
  · rw [add_block_chained]
    exact hF4
  · rw [add_block_endAddr]
    exact hF5
  · exact add_block_dataOk _ _ hF6
  · exact add_block_listOk' _ _ (tailBlock a space payload b0) hA1' hA2' hnd hF2 hnm_next
  · have h1 := add_block_getBlock_sig
        { s with blocks := l1 ++ frontBlock b0 payload :: tailBlock a space payload b0 :: l2 }
        (a + payload + HEADER_SIZE) a hne_next
    rw [h1]
    show (getBlock (l1 ++ frontBlock b0 payload :: tailBlock a space payload b0 :: l2) a).map
        blockSig = some (a, payload, b0.allocated, payload)
    rw [hF1]
    have hsig1 : blockSig (frontBlock b0 payload) = (a, payload, b0.allocated, payload) := by
      unfold blockSig frontBlock
      simp only [List.length_take, hdlen0, haddr]
      rw [Nat.min_eq_left (by omega)]
    simp only [Option.map_some']
    rw [hsig1]
  · have hnm' : (a + payload + HEADER_SIZE) ∉
        ({ s with blocks := l1 ++ frontBlock b0 payload :: tailBlock a space payload b0 :: l2 }
          : Heap).freeList := hnm_next
    have h1 := add_block_getBlock_self
        { s with blocks := l1 ++ frontBlock b0 payload :: tailBlock a space payload b0 :: l2 }
        (a + payload + HEADER_SIZE) hnm'
    rw [h1]
    show ((getBlock (l1 ++ frontBlock b0 payload :: tailBlock a space payload b0 :: l2)
        (a + payload + HEADER_SIZE)).map (fun b => setFree (storeLinks2 b))).map blockSig =
      some (a + payload + HEADER_SIZE, space - payload - HEADER_SIZE, false,
        space - payload - HEADER_SIZE)
    rw [hF2]
    have hsig2 : blockSig (setFree (storeLinks2 (tailBlock a space payload b0))) =
        (a + payload + HEADER_SIZE, space - payload - HEADER_SIZE, false,
          space - payload - HEADER_SIZE) := by
      unfold blockSig setFree storeLinks2 tailBlock
      simp only [writeZeros_length, List.length_drop, hdlen0]
      have hx : space - (payload + HEADER_SIZE) = space - payload - HEADER_SIZE := by omega
      rw [hx]
    simp only [Option.map_some']
    rw [hsig2]
  · intro x hxa hxn
    have h1 := add_block_getBlock_sig
        { s with blocks := l1 ++ frontBlock b0 payload :: tailBlock a space payload b0 :: l2 }
        (a + payload + HEADER_SIZE) x hxn
    rw [h1]
    show (getBlock (l1 ++ frontBlock b0 payload :: tailBlock a space payload b0 :: l2) x).map
        blockSig = (getBlock s.blocks x).map blockSig
    rw [hF3 x hxa hxn]

theorem remove_block_length (s : Heap) (x : Nat) :
    (remove_block s x).blocks.length = s.blocks.length := by
  have hu : ∀ (f : Block → Block) (a : Nat) (l : List Block),
      (updBlocks f a l).length = l.length := by
    intro f a l
    induction l with
    | nil => rfl
    | cons hd tl ih => simp [updBlocks, ih]
  rcases hn : neighborsIn none s.freeList x with _ | ⟨pr, nx⟩
  · simp [remove_block, hn, Heap.upd, hu]
  · rcases pr with _ | p <;> rcases nx with _ | n <;>
      simp [remove_block, hn, Heap.upd, hu]

theorem remove_block_getBlock_out (s : Heap) (x y : Nat) (hnd : s.freeList.Nodup)
    (hyfl : y ∉ s.freeList) (hyx : y ≠ x) :
    getBlock (remove_block s x).blocks y = getBlock s.blocks y := by
  rcases hn : neighborsIn none s.freeList x with _ | ⟨pr, nx⟩
  · simp only [remove_block, hn, upd_blocks]
    rw [getBlock_updBlocks_ne _ _ _ _ setUsed_addr hyx]
  · obtain ⟨hxm, hnfact, hpfact⟩ := neighborsIn_gen hnd hn
    rcases hpr : pr with _ | p <;> rcases hnx : nx with _ | n <;> subst hpr hnx <;>
      simp only [remove_block, hn, upd_blocks, Heap.upd] <;>
      rw [getBlock_updBlocks_ne _ _ _ _ setUsed_addr hyx]
    · obtain ⟨hnm, _⟩ := hnfact n rfl
      rw [getBlock_updBlocks_ne _ _ _ _ storePrev_addr (fun hh => hyfl (by rw [hh]; exact hnm))]
    · rcases hpfact p rfl with hcase | ⟨hpm, _⟩
      · cases hcase
      · rw [getBlock_updBlocks_ne _ _ _ _ storeNext_addr (fun hh => hyfl (by rw [hh]; exact hpm))]
    · obtain ⟨hnm, _⟩ := hnfact n rfl
      rcases hpfact p rfl with hcase | ⟨hpm, _⟩
      · cases hcase
      · rw [getBlock_updBlocks_ne _ _ _ _ storePrev_addr (fun hh => hyfl (by rw [hh]; exact hnm)),
          getBlock_updBlocks_ne _ _ _ _ storeNext_addr (fun hh => hyfl (by rw [hh]; exact hpm))]

theorem absorb_spec (s : Heap) (a : Nat) (bA c : Block)
    (hInv : HeapInv s) (hga : getBlock s.blocks a = some bA)
    (hgc : getBlock s.blocks (a + bA.payload + HEADER_SIZE) = some c)
    (hcfree : c.allocated = false) (hanm : a ∉ s.freeList) :
    (remove_block { s with blocks := absorbBlocks a c s.blocks }
        (a + bA.payload + HEADER_SIZE)).freeList = s.freeList.erase
          (a + bA.payload + HEADER_SIZE) ∧
    (remove_block { s with blocks := absorbBlocks a c s.blocks }
        (a + bA.payload + HEADER_SIZE)).segmentSize = s.segmentSize ∧
    chainedB 0 (remove_block { s with blocks := absorbBlocks a c s.blocks }
        (a + bA.payload + HEADER_SIZE)).blocks = true ∧
    endAddrL (remove_block { s with blocks := absorbBlocks a c s.blocks }
        (a + bA.payload + HEADER_SIZE)).blocks = endAddrL s.blocks ∧
    dataOk (remove_block { s with blocks := absorbBlocks a c s.blocks }
        (a + bA.payload + HEADER_SIZE)) ∧
    listOk (remove_block { s with blocks := absorbBlocks a c s.blocks }
        (a + bA.payload + HEADER_SIZE)) ∧
    getBlock (remove_block { s with blocks := absorbBlocks a c s.blocks }
        (a + bA.payload + HEADER_SIZE)).blocks a = some (grownBlock bA c) ∧
    (grownBlock bA c).payload = bA.payload + c.payload + HEADER_SIZE ∧
    (∀ x, x ≠ a → x ≠ a + bA.payload + HEADER_SIZE →
      (getBlock (remove_block { s with blocks := absorbBlocks a c s.blocks }
          (a + bA.payload + HEADER_SIZE)).blocks x).map blockSig =
        (getBlock s.blocks x).map blockSig) ∧
    (remove_block { s with blocks := absorbBlocks a c s.blocks }
        (a + bA.payload + HEADER_SIZE)).blocks.length + 1 = s.blocks.length := by
  obtain ⟨hch, he, hd, hfA1, hfA2, hnd⟩ := hInv
  have h8 : HEADER_SIZE = 8 := rfl
  have haddrA : bA.addr = a := (getBlock_mem hga).2
  have haddrC : c.addr = a + bA.payload + HEADER_SIZE := (getBlock_mem hgc).2
  have hmemA : bA ∈ s.blocks := (getBlock_mem hga).1
  have hmemC : c ∈ s.blocks := (getBlock_mem hgc).1
  have hAalloc : bA.allocated = true := by
    cases hA : bA.allocated with
    | true => rfl
    | false => exact absurd (haddrA ▸ hfA2 bA hmemA hA) hanm
  have hconv : a + HEADER_SIZE + bA.payload = a + bA.payload + HEADER_SIZE := by omega
  obtain ⟨l1, l2, heq, hl1lt, _, hcaddr', hl2ge⟩ :=
    chained_adjacent_decomp hch hga (by rw [hconv]; exact hgc)
  have hl2ne : ∀ x ∈ l2, x.addr ≠ c.addr := by
    intro x hx
    have := hl2ge x hx
    omega
  have habs : absorbBlocks a c s.blocks = l1 ++ grownBlock bA c :: l2 := by
    rw [heq]
    exact absorbBlocks_eq a bA c l1 l2 (fun x hx => by have := hl1lt x hx; omega) haddrA hl2ne
  -- payload bound for the grown block
  have hext : HEADER_SIZE + bA.payload + (HEADER_SIZE + c.payload) ≤ endAddrL s.blocks := by
    rw [heq, endAddrL_append]
    simp only [endAddrL, List.map_cons, List.sum_cons]
    omega
  have hsum32 : bA.payload + c.payload + HEADER_SIZE < U32 := by
    have : endAddrL s.blocks ≤ U32 + 7 := he
    omega
  have hgp : (grownBlock bA c).payload = bA.payload + c.payload + HEADER_SIZE := by
    unfold grownBlock
    exact toU32_eq hsum32
  have hgaddr : (grownBlock bA c).addr = a := haddrA
  have hcne_a : c.addr ≠ a := by
    rw [haddrC]
    omega
  -- the absorbed state s1
  have hga1 : getBlock (l1 ++ grownBlock bA c :: l2) a = some (grownBlock bA c) := by
    rw [getBlock_append, getBlock_none l1 a (fun x hx => by have := hl1lt x hx; omega),
      getBlock_cons_self hgaddr]
  have hgother : ∀ x, x ≠ a → x ≠ a + bA.payload + HEADER_SIZE →
      getBlock (l1 ++ grownBlock bA c :: l2) x = getBlock s.blocks x := by
    intro x hxa hxc
    rw [heq, getBlock_append, getBlock_append]
    cases getBlock l1 x with
    | some b => rfl
    | none =>
      rw [getBlock_cons_ne (by rw [hgaddr]; exact fun h => hxa h.symm),
        getBlock_cons_ne (by rw [haddrA]; exact fun h => hxa h.symm),
        getBlock_cons_ne (by rw [haddrC]; exact fun h => hxc h.symm)]
  have hch1 : chainedB 0 (l1 ++ grownBlock bA c :: l2) = true := by
    have hch2 := hch
    rw [heq, chainedB_append] at hch2
    simp only [Bool.and_eq_true] at hch2
    obtain ⟨hchl1, hchmid⟩ := hch2
    rw [chainedB, chainedB] at hchmid
    simp only [Bool.and_eq_true, decide_eq_true_eq] at hchmid
    obtain ⟨hoff1, hoff2, hchl2⟩ := hchmid
    rw [chainedB_append]
    simp only [Bool.and_eq_true]
    refine ⟨hchl1, ?_⟩
    rw [chainedB]
    simp only [Bool.and_eq_true, decide_eq_true_eq]
    refine ⟨by rw [hgaddr, ← hoff1, haddrA], ?_⟩
    have hoffeq : 0 + endAddrL l1 + HEADER_SIZE + (grownBlock bA c).payload =
        0 + endAddrL l1 + HEADER_SIZE + bA.payload + HEADER_SIZE + c.payload := by
      rw [hgp]
      omega
    rw [hoffeq]
    exact hchl2
  have hend1 : endAddrL (l1 ++ grownBlock bA c :: l2) = endAddrL s.blocks := by
    rw [heq, endAddrL_append, endAddrL_append]
    simp only [endAddrL, List.map_cons, List.sum_cons]
    rw [hgp]
    omega
  have hdata1 : ∀ b ∈ l1 ++ grownBlock bA c :: l2, b.data.length = b.payload := by
    intro b hb
    rcases List.mem_append.1 hb with hb | hb
    · exact hd b (heq ▸ List.mem_append.2 (Or.inl hb))
    · rcases List.mem_cons.1 hb with hb | hb
      · rw [hb, hgp]
        unfold grownBlock
        simp only [List.length_append, List.length_replicate]
        rw [hd bA hmemA, hd c hmemC]
        omega
      · exact hd b
          (heq ▸ List.mem_append.2 (Or.inr (List.mem_cons_of_mem _ (List.mem_cons_of_mem _ hb))))
  have hcfl : (a + bA.payload + HEADER_SIZE) ∈ s.freeList := by
    have := hfA2 c hmemC hcfree
    rw [haddrC] at this
    exact this
  have haddr_ne : ∀ bx ∈ s.blocks, bx.addr = a + bA.payload + HEADER_SIZE → bx = c := by
    intro bx hbx hbeq
    rw [heq] at hbx
    rcases List.mem_append.1 hbx with hbx | hbx
    · have := hl1lt bx hbx
      omega
    · rcases List.mem_cons.1 hbx with hbx | hbx
      · rw [hbx] at hbeq
        rw [haddrA] at hbeq
        omega
      · rcases List.mem_cons.1 hbx with hbx | hbx
        · exact hbx
        · have := hl2ge bx hbx
          rw [haddrC] at this
          omega
  have hA1' : ∀ x ∈ s.freeList, x ≠ a + bA.payload + HEADER_SIZE →
      freeAt (l1 ++ grownBlock bA c :: l2) x = true := by
    intro x hx hxc
    have hxa : x ≠ a := fun h => hanm (h ▸ hx)
    unfold freeAt
    rw [hgother x hxa hxc]
    exact hfA1 x hx
  have hnd1 : ({ s with blocks := absorbBlocks a c s.blocks } : Heap).freeList.Nodup := hnd
  have hanm1 : a ∉ ({ s with blocks := absorbBlocks a c s.blocks } : Heap).freeList := hanm
  have hane : a ≠ a + bA.payload + HEADER_SIZE := by omega
  have hbase1 : ∀ b ∈ ({ s with blocks := absorbBlocks a c s.blocks } : Heap).blocks,
      b.allocated = false →
      b.addr ∈ ({ s with blocks := absorbBlocks a c s.blocks } : Heap).freeList := by
    intro b hb hbf
    have hb' : b ∈ l1 ++ grownBlock bA c :: l2 := by
      rw [← habs]
      exact hb
    rcases List.mem_append.1 hb' with hbm | hbm
    · exact hfA2 b (heq ▸ List.mem_append.2 (Or.inl hbm)) hbf
    · rcases List.mem_cons.1 hbm with hbm | hbm
      · rw [hbm] at hbf
        unfold grownBlock at hbf
        rw [hAalloc] at hbf
        cases hbf
      · exact hfA2 b
          (heq ▸ List.mem_append.2 (Or.inr (List.mem_cons_of_mem _ (List.mem_cons_of_mem _ hbm))))
          hbf
  refine ⟨?_, ?_, ?_, ?_, ?_, ?_, ?_, hgp, ?_, ?_⟩
  · rw [remove_block_freeList]
  · rw [remove_block_segmentSize]
  · rw [remove_block_chained]
    show chainedB 0 (absorbBlocks a c s.blocks) = true
    rw [habs]
    exact hch1
  · rw [remove_block_endAddr]
    show endAddrL (absorbBlocks a c s.blocks) = endAddrL s.blocks
    rw [habs]
    exact hend1
  · apply remove_block_dataOk
    intro b hb
    exact hdata1 b (by rw [← habs]; exact hb)
  · refine ⟨?_, ?_, ?_⟩
    · rw [remove_block_freeList]
      intro y hy
      have hy' : y ∈ s.freeList.erase (a + bA.payload + HEADER_SIZE) := hy
      obtain ⟨hyne, hyin⟩ := (List.Nodup.mem_erase_iff hnd).1 hy'
      rw [freeAt_of_sig (remove_block_getBlock_sig _ (a + bA.payload + HEADER_SIZE) y hyne)]
      show freeAt (absorbBlocks a c s.blocks) y = true
      rw [habs]
      exact hA1' y hyin hyne
    · rw [remove_block_freeList]
      exact remove_block_freeMem _ (a + bA.payload + HEADER_SIZE) hnd1 hbase1
    · rw [remove_block_freeList]
      exact List.Nodup.erase _ hnd1
  · rw [remove_block_getBlock_out _ (a + bA.payload + HEADER_SIZE) a hnd1 hanm1 hane]
    show getBlock (absorbBlocks a c s.blocks) a = some (grownBlock bA c)
    rw [habs]
    exact hga1
  · intro x hxa hxc
    rw [remove_block_getBlock_sig _ (a + bA.payload + HEADER_SIZE) x hxc]
    show (getBlock (absorbBlocks a c s.blocks) x).map blockSig = (getBlock s.blocks x).map blockSig
    rw [habs, hgother x hxa hxc]
  · rw [remove_block_length]
    show (absorbBlocks a c s.blocks).length + 1 = s.blocks.length
    rw [habs, heq]
    simp only [List.length_append, List.length_cons]
    omega

theorem coalesce_loop_stop_seg {s : Heap} {a curr n : Nat} (h : ¬ curr < s.segmentSize) :
    coalesce_loop a curr (n + 1) s = s := by
  simp [coalesce_loop, h]

theorem coalesce_loop_stop_none {s : Heap} {a curr n : Nat} (hlt : curr < s.segmentSize)
    (h : getBlock s.blocks curr = none) : coalesce_loop a curr (n + 1) s = s := by
  simp [coalesce_loop, hlt, h]

theorem coalesce_loop_stop_alloc {s : Heap} {a curr n : Nat} {c : Block}
    (hlt : curr < s.segmentSize) (hgc : getBlock s.blocks curr = some c)
    (h : ¬ c.allocated = false) : coalesce_loop a curr (n + 1) s = s := by
  simp [coalesce_loop, hlt, hgc, h]

theorem coalesce_loop_step {s : Heap} {a curr n : Nat} {c : Block}
    (hlt : curr < s.segmentSize) (hgc : getBlock s.blocks curr = some c)
    (hcf : c.allocated = false) :
    coalesce_loop a curr (n + 1) s =
      coalesce_loop a (curr + c.payload + HEADER_SIZE) n
        (remove_block { s with blocks := absorbBlocks a c s.blocks } curr) := by
  simp [coalesce_loop, hlt, hgc, hcf]

theorem coalesce_loop_spec (fuel : Nat) : ∀ (s : Heap) (a : Nat) (bA : Block) (curr : Nat),
    s.blocks.length < fuel → HeapInv s → getBlock s.blocks a = some bA →
    a ∉ s.freeList → curr = a + bA.payload + HEADER_SIZE →
    HeapInv (coalesce_loop a curr fuel s) ∧
    (coalesce_loop a curr fuel s).segmentSize = s.segmentSize ∧
    endAddrL (coalesce_loop a curr fuel s).blocks = endAddrL s.blocks ∧
    (∃ b', getBlock (coalesce_loop a curr fuel s).blocks a = some b' ∧
      b'.allocated = bA.allocated ∧ bA.payload ≤ b'.payload ∧
      b'.data.take bA.data.length = bA.data) ∧
    (∀ x ∈ (coalesce_loop a curr fuel s).freeList, x ∈ s.freeList) := by
  induction fuel with
  | zero =>
    intro s a bA curr hfuel
    omega
  | succ n ih =>
    intro s a bA curr hfuel hInv hga hanm hcurr
    have hrefl : HeapInv s ∧ s.segmentSize = s.segmentSize ∧
        endAddrL s.blocks = endAddrL s.blocks ∧
        (∃ b', getBlock s.blocks a = some b' ∧ b'.allocated = bA.allocated ∧
          bA.payload ≤ b'.payload ∧ b'.data.take bA.data.length = bA.data) ∧
        (∀ x ∈ s.freeList, x ∈ s.freeList) :=
      ⟨hInv, rfl, rfl, ⟨bA, hga, rfl, le_refl _, List.take_length bA.data⟩, fun x hx => hx⟩
    by_cases hlt : curr < s.segmentSize
    · cases hgc : getBlock s.blocks curr with
      | none =>
        rw [coalesce_loop_stop_none hlt hgc]
        exact hrefl
      | some c =>
        by_cases hcf : c.allocated = false
        · subst hcurr
          obtain ⟨hA1, hA2, hA3, hA4, hA5, hA6, hA7, hgp, hA8, hA9⟩ :=
            absorb_spec s a bA c hInv hga hgc hcf hanm
          have hInv2 : HeapInv (remove_block { s with blocks := absorbBlocks a c s.blocks }
              (a + bA.payload + HEADER_SIZE)) := by
            refine ⟨hA3, ?_, hA5, hA6⟩
            show endAddrL _ ≤ U32 + 7
            rw [hA4]
            exact hInv.2.1
          have hlen2 : (remove_block { s with blocks := absorbBlocks a c s.blocks }
              (a + bA.payload + HEADER_SIZE)).blocks.length < n := by
            omega
          have hanm2 : a ∉ (remove_block { s with blocks := absorbBlocks a c s.blocks }
              (a + bA.payload + HEADER_SIZE)).freeList := by
            rw [hA1]
            intro hmem
            exact hanm (List.mem_of_mem_erase hmem)
          have hcurr2 : a + bA.payload + HEADER_SIZE + c.payload + HEADER_SIZE =
              a + (grownBlock bA c).payload + HEADER_SIZE := by
            rw [hgp]
            omega
          obtain ⟨ihInv, ihSeg, ihEnd, ⟨b', hb'g, hb'a, hb'p, hb'd⟩, ihSub⟩ :=
            ih (remove_block { s with blocks := absorbBlocks a c s.blocks }
                (a + bA.payload + HEADER_SIZE)) a (grownBlock bA c)
              (a + bA.payload + HEADER_SIZE + c.payload + HEADER_SIZE)
              hlen2 hInv2 hA7 hanm2 hcurr2
          rw [coalesce_loop_step hlt hgc hcf]
          refine ⟨ihInv, ?_, ?_, ⟨b', hb'g, ?_, ?_, ?_⟩, ?_⟩
          · rw [ihSeg, hA2]
          · rw [ihEnd, hA4]
          · rw [hb'a]
            rfl
          · rw [hgp] at hb'p
            omega
          · have hlenle : bA.data.length ≤ (grownBlock bA c).data.length := by
              unfold grownBlock
              simp only [List.length_append]
              omega
            have h1 : b'.data.take bA.data.length =
                (b'.data.take (grownBlock bA c).data.length).take bA.data.length := by
              rw [List.take_take, Nat.min_eq_left hlenle]
            rw [h1, hb'd]
            show ((bA.data ++ List.replicate HEADER_SIZE 0 ++ c.data).take bA.data.length) =
              bA.data
            rw [List.append_assoc]
            exact List.take_left bA.data _
          · intro x hx
            have hx2 := ihSub x hx
            rw [hA1] at hx2
            exact List.mem_of_mem_erase hx2
        · rw [coalesce_loop_stop_alloc hlt hgc hcf]
          exact hrefl
    · rw [coalesce_loop_stop_seg hlt]
      exact hrefl

theorem add_block_getBlock_out (s : Heap) (a y : Nat) (hya : y ≠ a) (hyfl : y ∉ s.freeList) :
    getBlock (add_block s a).blocks y = getBlock s.blocks y := by
  rcases hfl : s.freeList with _ | ⟨oh, rest⟩ <;> simp only [add_block, hfl, Heap.upd]
  · rw [getBlock_updBlocks_ne _ _ _ _ storeHelper_addr hya,
      getBlock_updBlocks_ne _ _ _ _ storeLinks2_addr hya]
  · have hyoh : y ≠ oh := fun h => hyfl (h ▸ hfl ▸ List.mem_cons_self ..)
    rw [getBlock_updBlocks_ne _ _ _ _ storeHelper_addr hya,
      getBlock_updBlocks_ne _ _ _ _ storeLinks2_addr hya,
      getBlock_updBlocks_ne _ _ _ _ storePrev_addr hyoh]

theorem partition_getBlock_out (s : Heap) (a space payload : Nat) (b0 : Block) (y : Nat)
    (by0 : Block) (hInv : HeapInv s) (hg : getBlock s.blocks a = some b0)
    (hspace : b0.payload = space) (hfit : payload + MIN_BLOCK_SIZE ≤ space)
    (hya : y ≠ a) (hyfl : y ∉ s.freeList) (hgy : getBlock s.blocks y = some by0) :
    getBlock (partition s a space payload).blocks y = getBlock s.blocks y ∧
      y ≠ a + payload + HEADER_SIZE := by
  obtain ⟨hch, he, hd, hfA1, hfA2, hnd⟩ := hInv
  have h8 : HEADER_SIZE = 8 := rfl
  have haddr : b0.addr = a := (getBlock_mem hg).2
  have htoU : toU32 payload = payload := by
    apply toU32_eq
    have h1 := extent_le_endAddrL (getBlock_mem hg).1
    have h2 : endAddrL s.blocks ≤ U32 + 7 := he
    rw [hspace] at h1
    unfold MIN_BLOCK_SIZE at hfit
    omega
  obtain ⟨l1, l2, heq, hneq⟩ := getBlock_decomp hg
  have hch2 := hch
  rw [heq, chainedB_append] at hch2
  simp only [Bool.and_eq_true] at hch2
  obtain ⟨hchl1, hchmid⟩ := hch2
  rw [chainedB] at hchmid
  simp only [Bool.and_eq_true, decide_eq_true_eq] at hchmid
  obtain ⟨hb0at, hchl2⟩ := hchmid
  rw [haddr] at hb0at
  have hyne : y ≠ a + payload + HEADER_SIZE := by
    have hymem := (getBlock_mem hgy).1
    have hyaddr := (getBlock_mem hgy).2
    rw [heq] at hymem
    rcases List.mem_append.1 hymem with hm | hm
    · have := chained_ub hchl1 by0 hm
      unfold MIN_BLOCK_SIZE at hfit
      omega
    · rcases List.mem_cons.1 hm with hm | hm
      · rw [hm] at hyaddr
        rw [haddr] at hyaddr
        omega
      · have := chained_lb hchl2 by0 hm
        rw [hspace] at this
        unfold MIN_BLOCK_SIZE at hfit
        omega
  refine ⟨?_, hyne⟩
  have hsplit1 : getBlock (splitBlocks a space payload s.blocks) y = getBlock s.blocks y := by
    rw [heq, splitBlocks_eq a space payload b0 l1 l2 hneq haddr, getBlock_append,
      getBlock_append]
    cases getBlock l1 y with
    | some b => rfl
    | none =>
      rw [getBlock_cons_ne (by show b0.addr ≠ y; rw [haddr]; exact fun h => hya h.symm),
        getBlock_cons_ne (by show a + payload + HEADER_SIZE ≠ y; exact fun h => hyne h.symm),
        getBlock_cons_ne (by rw [haddr]; exact fun h => hya h.symm)]
  have hyfl' : y ∉ ({ s with blocks := splitBlocks a space payload s.blocks } : Heap).freeList :=
    hyfl
  show getBlock (add_block { s with blocks := splitBlocks a space payload s.blocks }
      (a + payload + HEADER_SIZE)).blocks y = getBlock s.blocks y
  rw [add_block_getBlock_out { s with blocks := splitBlocks a space payload s.blocks } _ _
    hyne hyfl']
  exact hsplit1

theorem map_setUsed_sig {x : Option Block} {ad pl ln : Nat} {fl : Bool}
    (h : x.map blockSig = some (ad, pl, fl, ln)) :
    (x.map setUsed).map blockSig = some (ad, pl, true, ln) := by
  cases x with
  | none => simp at h
  | some b =>
    simp only [Option.map_some', Option.some.injEq, blockSig, Prod.mk.injEq] at h ⊢
    unfold setUsed
    exact ⟨h.1, h.2.1, rfl, h.2.2.2⟩

theorem find_fit_loop_spec (lst : List Nat) : ∀ (s : Heap) (req : Nat),
    HeapInv s → (∀ x ∈ lst, x ∈ s.freeList) →
    ((find_fit_loop s req lst).1 = lst.find? (fun x => req ≤ payloadOf s x)) ∧
    ((find_fit_loop s req lst).1 = none → (find_fit_loop s req lst).2 = s) ∧
    (∀ a, (find_fit_loop s req lst).1 = some a →
      HeapInv (find_fit_loop s req lst).2 ∧
      (find_fit_loop s req lst).2.segmentSize = s.segmentSize ∧
      endAddrL (find_fit_loop s req lst).2.blocks = endAddrL s.blocks ∧
      (∃ b, getBlock s.blocks a = some b ∧ b.allocated = false ∧ req ≤ b.payload ∧
        ((getBlock (find_fit_loop s req lst).2.blocks a).map blockSig =
          some (a, if req + MIN_BLOCK_SIZE ≤ b.payload then req else b.payload, true,
            if req + MIN_BLOCK_SIZE ≤ b.payload then req else b.payload)) ∧
        (req + MIN_BLOCK_SIZE ≤ b.payload →
          (find_fit_loop s req lst).2.freeList =
            (a + req + HEADER_SIZE) :: s.freeList.erase a ∧
          (getBlock (find_fit_loop s req lst).2.blocks (a + req + HEADER_SIZE)).map blockSig =
            some (a + req + HEADER_SIZE, b.payload - req - HEADER_SIZE, false,
              b.payload - req - HEADER_SIZE)) ∧
        (b.payload < req + MIN_BLOCK_SIZE →
          (find_fit_loop s req lst).2.freeList = s.freeList.erase a) ∧
        (∀ y (by0 : Block), y ∉ s.freeList → getBlock s.blocks y = some by0 →
          getBlock (find_fit_loop s req lst).2.blocks y = getBlock s.blocks y))) := by
  induction lst with
  | nil =>
    intro s req hInv hsub
    refine ⟨rfl, fun _ => rfl, ?_⟩
    intro a ha
    simp [find_fit_loop] at ha
  | cons a0 rest ih =>
    intro s req hInv hsub
    have ha0fl : a0 ∈ s.freeList := hsub a0 (List.mem_cons_self ..)
    have hfree : freeAt s.blocks a0 = true := hInv.2.2.2.1 a0 ha0fl
    unfold freeAt at hfree
    cases hgb : getBlock s.blocks a0 with
    | none =>
      rw [hgb] at hfree
      exact absurd hfree (by simp)
    | some b =>
      rw [hgb] at hfree
      have hballoc : b.allocated = false := by
        have hfree' : (!b.allocated) = true := hfree
        simpa using hfree' 
      have hpayl : payloadOf s a0 = b.payload := by
        unfold payloadOf
        rw [hgb]
      have h8 : HEADER_SIZE = 8 := rfl
      have hndfl : s.freeList.Nodup := hInv.2.2.2.2.2
      by_cases hle : req ≤ b.payload
      · have hfinds : List.find? (fun x => req ≤ payloadOf s x) (a0 :: rest) = some a0 := by
          apply List.find?_cons_of_pos
          simp [hpayl, hle]
        have hloop : find_fit_loop s req (a0 :: rest) =
            (some a0, remove_block
              (if req + MIN_BLOCK_SIZE ≤ b.payload then partition s a0 b.payload req else s)
              a0) := by
          simp [find_fit_loop, hgb, hle]
        rw [hloop, hfinds]
        refine ⟨rfl, ?_, ?_⟩
        · intro h
          exact absurd h (by simp)
        intro a ha
        have haa : a = a0 := by
          have ha' : some a0 = some a := ha
          cases ha'
          rfl
        subst haa
        by_cases hsplit : req + MIN_BLOCK_SIZE ≤ b.payload
        · rw [if_pos hsplit]
          obtain ⟨hP1, hP2, hP3, hP4, hP5, hP6, hP7, hP8, hP9⟩ :=
            partition_spec s a b.payload req b hInv hgb rfl hsplit
          have hndP : (partition s a b.payload req).freeList.Nodup := hP6.2.2
          have hane : a ≠ a + req + HEADER_SIZE := by omega
          refine ⟨?_, ?_, ?_, b, hgb, hballoc, hle, ?_, ?_, ?_, ?_⟩
          · refine ⟨by rw [remove_block_chained]; exact hP3, ?_,
              remove_block_dataOk _ _ hP5, remove_block_listOk _ _ hP6⟩
            show endAddrL _ ≤ U32 + 7
            rw [remove_block_endAddr, hP4]
            exact hInv.2.1
          · rw [remove_block_segmentSize, hP2]
          · rw [remove_block_endAddr, hP4]
          · rw [remove_block_getBlock_self _ _ hndP, if_pos hsplit]
            exact map_setUsed_sig hP7
          · intro _
            refine ⟨?_, ?_⟩
            · rw [remove_block_freeList, hP1,
                List.erase_cons_tail (by simp; omega)]
            · rw [remove_block_getBlock_sig (partition s a b.payload req) a
                (a + req + HEADER_SIZE) (fun hh => hane hh.symm)]
              exact hP8
          · intro hcon
            omega
          · intro y by0 hyfl hgy
            have hya : y ≠ a := fun hh => hyfl (hh ▸ ha0fl)
            obtain ⟨hout, hynext⟩ := partition_getBlock_out s a b.payload req b y by0 hInv hgb
              rfl hsplit hya hyfl hgy
            have hyfl1 : y ∉ (partition s a b.payload req).freeList := by
              rw [hP1]
              intro hmem
              rcases List.mem_cons.1 hmem with hmem | hmem
              · exact hynext hmem
              · exact hyfl hmem
            rw [remove_block_getBlock_out (partition s a b.payload req) a y hndP hyfl1 hya]
            exact hout
        · rw [if_neg hsplit]
          have haddr : b.addr = a := (getBlock_mem hgb).2
          have hsigb : (getBlock s.blocks a).map blockSig =
              some (a, b.payload, false, b.payload) := by
            rw [hgb]
            show some (blockSig b) = some (a, b.payload, false, b.payload)
            rw [show blockSig b = (b.addr, b.payload, b.allocated, b.data.length) from rfl,
              haddr, hballoc, hInv.2.2.1 b (getBlock_mem hgb).1]
          refine ⟨?_, ?_, ?_, b, hgb, hballoc, hle, ?_, ?_, ?_, ?_⟩
          · refine ⟨by rw [remove_block_chained]; exact hInv.1, ?_,
              remove_block_dataOk _ _ hInv.2.2.1,
              remove_block_listOk _ _ hInv.2.2.2⟩
            show endAddrL _ ≤ U32 + 7
            rw [remove_block_endAddr]
            exact hInv.2.1
          · rw [remove_block_segmentSize]
          · rw [remove_block_endAddr]
          · rw [remove_block_getBlock_self _ _ hndfl, if_neg hsplit]
            exact map_setUsed_sig hsigb
          · intro hcon
            omega
          · intro _
            rw [remove_block_freeList]
          · intro y by0 hyfl hgy
            have hya : y ≠ a := fun hh => hyfl (hh ▸ ha0fl)
            rw [remove_block_getBlock_out s a y hndfl hyfl hya]
      · have hloop : find_fit_loop s req (a0 :: rest) = find_fit_loop s req rest := by
          simp [find_fit_loop, hgb, hle]
        have hfinds : List.find? (fun x => req ≤ payloadOf s x) (a0 :: rest) =
            List.find? (fun x => req ≤ payloadOf s x) rest := by
          apply List.find?_cons_of_neg
          simp [hpayl, hle]
        rw [hloop, hfinds]
        exact ih s req hInv (fun x hx => hsub x (List.mem_cons_of_mem _ hx))

theorem upd_setFree_spec (s : Heap) (a : Nat) (hmem : a ∈ s.freeList) (hInv : HeapInv s) :
    HeapInv (s.upd a setFree) ∧ (s.upd a setFree).freeList = s.freeList ∧
    (s.upd a setFree).segmentSize = s.segmentSize ∧
    endAddrL (s.upd a setFree).blocks = endAddrL s.blocks := by
  obtain ⟨hch, he, hd, hfA1, hfA2, hnd⟩ := hInv
  have hend : endAddrL (s.upd a setFree).blocks = endAddrL s.blocks := by
    rw [upd_blocks, endAddrL_updBlocks _ _ _ setFree_payload]
  refine ⟨⟨?_, ?_, ?_, ?_, ?_, hnd⟩, rfl, rfl, hend⟩
  · rw [upd_blocks, chainedB_updBlocks _ _ _ _ setFree_keep]
    exact hch
  · show endAddrL _ ≤ U32 + 7
    rw [hend]
    exact he
  · intro b hb
    rw [upd_blocks] at hb
    obtain ⟨b0, hb0, rfl⟩ := mem_updBlocks.1 hb
    by_cases hc : b0.addr = a
    · rw [if_pos hc]
      exact hd b0 hb0
    · rw [if_neg hc]
      exact hd b0 hb0
  · intro x hx
    by_cases hxa : x = a
    · subst hxa
      unfold freeAt
      rw [upd_blocks, getBlock_updBlocks_self _ _ _ storeHelper_addr]
      have hf := hfA1 x hx
      unfold freeAt at hf
      cases hgx : getBlock s.blocks x with
      | none =>
        rw [hgx] at hf
        exact absurd hf (by simp)
      | some bx => rfl
    · unfold freeAt
      rw [upd_blocks, getBlock_updBlocks_ne _ _ _ _ storeHelper_addr hxa]
      exact hfA1 x hx
  · intro b hb hbf
    rw [upd_blocks] at hb
    obtain ⟨b0, hb0, rfl⟩ := mem_updBlocks.1 hb
    by_cases hc : b0.addr = a
    · rw [if_pos hc]
      show (setFree b0).addr ∈ s.freeList
      rw [storeHelper_addr, hc]
      exact hmem
    · rw [if_neg hc] at hbf ⊢
      exact hfA2 b0 hb0 hbf

theorem coalesce_right_spec (s : Heap) (a : Nat) (bA : Block)
    (hInv : HeapInv s) (hga : getBlock s.blocks a = some bA) (hanm : a ∉ s.freeList) :
    HeapInv (coalesce_right s (some a)) ∧
    (coalesce_right s (some a)).segmentSize = s.segmentSize ∧
    endAddrL (coalesce_right s (some a)).blocks = endAddrL s.blocks ∧
    (∃ b', getBlock (coalesce_right s (some a)).blocks a = some b' ∧
      b'.allocated = bA.allocated ∧ bA.payload ≤ b'.payload ∧
      b'.data.take bA.data.length = bA.data) ∧
    (∀ x ∈ (coalesce_right s (some a)).freeList, x ∈ s.freeList) := by
  have hcr : coalesce_right s (some a) =
      coalesce_loop a (a + bA.payload + HEADER_SIZE) (s.blocks.length + 1) s := by
    simp [coalesce_right, hga]
  rw [hcr]
  exact coalesce_loop_spec (s.blocks.length + 1) s a bA (a + bA.payload + HEADER_SIZE)
    (by omega) hInv hga hanm rfl

theorem myfree_spec (s : Heap) (p : Nat) (bA : Block)
    (hInv : HeapInv s) (hga : getBlock s.blocks (p - HEADER_SIZE) = some bA)
    (halloc : bA.allocated = true) :
    HeapInv (myfree s (some p)) ∧
    (myfree s (some p)).segmentSize = s.segmentSize ∧
    endAddrL (myfree s (some p)).blocks = endAddrL s.blocks := by
  have hanm : (p - HEADER_SIZE) ∉ s.freeList := by
    intro hmem
    have hf := hInv.2.2.2.1 _ hmem
    unfold freeAt at hf
    rw [hga] at hf
    have hf' : (!bA.allocated) = true := hf
    rw [halloc] at hf'
    exact absurd hf' (by simp)
  obtain ⟨hInv1, hseg1, hend1, ⟨b', hgb', halloc', hple', hdata'⟩, hsub1⟩ :=
    coalesce_right_spec s (p - HEADER_SIZE) bA hInv hga hanm
  have hanm1 : (p - HEADER_SIZE) ∉ (coalesce_right s (some (p - HEADER_SIZE))).freeList :=
    fun hmem => hanm (hsub1 _ hmem)
  have hInv2 := add_block_HeapInv (coalesce_right s (some (p - HEADER_SIZE)))
    (p - HEADER_SIZE) b' hInv1 hgb' hanm1
  have hmem2 : (p - HEADER_SIZE) ∈
      (add_block (coalesce_right s (some (p - HEADER_SIZE))) (p - HEADER_SIZE)).freeList := by
    rw [add_block_freeList]
    exact List.mem_cons_self ..
  obtain ⟨hInv3, _, hseg3, hend3⟩ := upd_setFree_spec _ (p - HEADER_SIZE) hmem2 hInv2
  refine ⟨?_, ?_, ?_⟩
  · show HeapInv ((add_block (coalesce_right s (some (p - HEADER_SIZE)))
      (p - HEADER_SIZE)).upd (p - HEADER_SIZE) setFree)
    exact hInv3
  · show ((add_block (coalesce_right s (some (p - HEADER_SIZE)))
      (p - HEADER_SIZE)).upd (p - HEADER_SIZE) setFree).segmentSize = s.segmentSize
    rw [hseg3, add_block_segmentSize, hseg1]
  · show endAddrL ((add_block (coalesce_right s (some (p - HEADER_SIZE)))
      (p - HEADER_SIZE)).upd (p - HEADER_SIZE) setFree).blocks = endAddrL s.blocks
    rw [hend3, add_block_endAddr, hend1]

theorem mymalloc_spec (s : Heap) (n : Nat) (hInv : HeapInv s) :
    HeapInv (mymalloc s n).2 ∧ (mymalloc s n).2.segmentSize = s.segmentSize ∧
    endAddrL (mymalloc s n).2.blocks = endAddrL s.blocks ∧
    ((mymalloc s n).1 = none → (mymalloc s n).2 = s) ∧
    (∀ q, (mymalloc s n).1 = some q →
      HEADER_SIZE ≤ q ∧
      (∃ P, (getBlock (mymalloc s n).2.blocks (q - HEADER_SIZE)).map blockSig =
          some (q - HEADER_SIZE, P, true, P) ∧ adjust n ≤ P) ∧
      (∀ y (by0 : Block), y ∉ s.freeList → getBlock s.blocks y = some by0 →
        getBlock (mymalloc s n).2.blocks y = getBlock s.blocks y)) := by
  by_cases hrej : n > MAX_REQUEST_SIZE ∨ n = 0
  · have hm : mymalloc s n = (none, s) := by
      simp [mymalloc, hrej]
    rw [hm]
    exact ⟨hInv, rfl, rfl, fun _ => rfl, fun q hq => absurd hq (by simp)⟩
  · obtain ⟨hFF0, hFF1, hFF2⟩ :=
      find_fit_loop_spec s.freeList s (adjust n) hInv (fun x hx => hx)
    rcases hff : find_fit s (adjust n) with ⟨r1, r2⟩
    have hr1 : (find_fit_loop s (adjust n) s.freeList).1 = r1 := by
      rw [show find_fit_loop s (adjust n) s.freeList = find_fit s (adjust n) from rfl, hff]
    have hr2 : (find_fit_loop s (adjust n) s.freeList).2 = r2 := by
      rw [show find_fit_loop s (adjust n) s.freeList = find_fit s (adjust n) from rfl, hff]
    cases r1 with
    | none =>
      have hm : mymalloc s n = (none, r2) := by
        simp [mymalloc, hrej, hff]
      have hs2 : r2 = s := by
        rw [← hr2]
        exact hFF1 hr1
      rw [hm, hs2]
      exact ⟨hInv, rfl, rfl, fun _ => rfl, fun q hq => absurd hq (by simp)⟩
    | some a =>
      have hm : mymalloc s n = (some (a + HEADER_SIZE), r2) := by
        simp [mymalloc, hrej, hff]
      obtain ⟨hI, hSeg, hEnd, b, hgb, hbf, hble, hsig, hspl, hnspl, hout⟩ := hFF2 a hr1
      rw [hr2] at hI hSeg hEnd hsig hout
      rw [hm]
      have h8 : HEADER_SIZE = 8 := rfl
      refine ⟨hI, hSeg, hEnd, fun h => absurd h (by simp), ?_⟩
      intro q hq
      have hq' : q = a + HEADER_SIZE := by
        have : some (a + HEADER_SIZE) = some q := hq
        cases this
        rfl
      subst hq'
      have hqa : a + HEADER_SIZE - HEADER_SIZE = a := by omega
      rw [hqa]
      refine ⟨by omega, ?_, ?_⟩
      · refine ⟨if adjust n + MIN_BLOCK_SIZE ≤ b.payload then adjust n else b.payload,
          hsig, ?_⟩
        split
        · exact le_refl _
        · exact hble
      · intro y by0 hyfl hgy
        exact hout y by0 hyfl hgy

theorem freeAt_updBlocks_keepflag (f : Block → Block) (a x : Nat) (l : List Block)
    (hfa : ∀ b, (f b).addr = b.addr) (hff : ∀ b, (f b).allocated = b.allocated) :
    freeAt (updBlocks f a l) x = freeAt l x := by
  unfold freeAt
  by_cases hx : x = a
  · subst hx
    rw [getBlock_updBlocks_self _ _ _ hfa]
    cases getBlock l x with
    | none => rfl
    | some b => simp [hff b]
  · rw [getBlock_updBlocks_ne _ _ _ _ hfa hx]

theorem dataOk_updBlocks' {l : List Block} {f : Block → Block} {a : Nat}
    (hbase : ∀ b ∈ l, b.data.length = b.payload)
    (hf : ∀ b ∈ l, b.addr = a → b.data.length = b.payload →
      (f b).data.length = (f b).payload) :
    ∀ b ∈ updBlocks f a l, b.data.length = b.payload := by
  intro b' hb'
  obtain ⟨b, hb, rfl⟩ := mem_updBlocks.1 hb'
  by_cases hc : b.addr = a
  · rw [if_pos hc]
    exact hf b hb hc (hbase b hb)
  · rw [if_neg hc]
    exact hbase b hb

theorem upd_keepflag_HeapInv (s : Heap) (a : Nat) (f : Block → Block)
    (hfa : ∀ b, (f b).addr = b.addr) (hff : ∀ b, (f b).allocated = b.allocated)
    (hfp : ∀ b, (f b).payload = b.payload)
    (hlen : ∀ b ∈ s.blocks, b.addr = a → b.data.length = b.payload →
      (f b).data.length = (f b).payload)
    (hInv : HeapInv s) :
    HeapInv (s.upd a f) ∧ (s.upd a f).freeList = s.freeList ∧
    (s.upd a f).segmentSize = s.segmentSize ∧
    endAddrL (s.upd a f).blocks = endAddrL s.blocks := by
  obtain ⟨hch, he, hd, hfA1, hfA2, hnd⟩ := hInv
  have hend : endAddrL (s.upd a f).blocks = endAddrL s.blocks := by
    rw [upd_blocks, endAddrL_updBlocks _ _ _ hfp]
  refine ⟨⟨?_, ?_, ?_, ?_, ?_, hnd⟩, rfl, rfl, hend⟩
  · rw [upd_blocks, chainedB_updBlocks _ _ _ _ (fun b => ⟨hfa b, hfp b⟩)]
    exact hch
  · show endAddrL _ ≤ U32 + 7
    rw [hend]
    exact he
  · intro b hb
    rw [upd_blocks s a f] at hb
    exact dataOk_updBlocks' hd hlen b hb
  · intro x hx
    rw [upd_blocks, freeAt_updBlocks_keepflag _ _ _ _ hfa hff]
    exact hfA1 x hx
  · intro b hb
    rw [upd_blocks s a f] at hb
    exact freeMem_updBlocks_keepflag hfA2 hfa hff b hb

theorem myrealloc_spec (s : Heap) (p n : Nat) (b : Block)
    (hInv : HeapInv s) (hn : n ≠ 0)
    (hgb : getBlock s.blocks (p - HEADER_SIZE) = some b)
    (halloc : b.allocated = true) :
    HeapInv (myrealloc s (some p) n).2 ∧
    (myrealloc s (some p) n).2.segmentSize = s.segmentSize ∧
    endAddrL (myrealloc s (some p) n).2.blocks = endAddrL s.blocks := by
  have h8 : HEADER_SIZE = 8 := rfl
  have h24 : MIN_BLOCK_SIZE = 24 := rfl
  by_cases hc1 : b.payload = adjust n
  · have hred : myrealloc s (some p) n = (some p, s) := by
      simp [myrealloc, hn, hgb, hc1]
    rw [hred]
    exact ⟨hInv, rfl, rfl⟩
  by_cases hc2 : b.payload > adjust n ∧ b.payload < adjust n + MIN_BLOCK_SIZE
  · have hred : myrealloc s (some p) n = (some p, s) := by
      simp [myrealloc, hn, hgb, hc1, hc2]
    rw [hred]
    exact ⟨hInv, rfl, rfl⟩
  by_cases hc3 : b.payload > adjust n ∧ b.payload ≥ adjust n + MIN_BLOCK_SIZE
  · have hred : myrealloc s (some p) n =
        (some p, partition s (p - HEADER_SIZE) b.payload (adjust n)) := by
      simp [myrealloc, hn, hgb, hc1, hc2, hc3]
    obtain ⟨hfl2, hseg2, hch2, hend2, hdo2, hlo2, _, _, _⟩ :=
      partition_spec s (p - HEADER_SIZE) b.payload (adjust n) b hInv hgb rfl (by omega)
    rw [hred]
    refine ⟨⟨hch2, ?_, hdo2, hlo2⟩, hseg2, hend2⟩
    show endAddrL _ ≤ U32 + 7
    rw [hend2]
    exact hInv.2.1
  have hlt : b.payload < adjust n := by omega
  have hanm : (p - HEADER_SIZE) ∉ s.freeList := by
    intro hmem
    have hf := hInv.2.2.2.1 _ hmem
    unfold freeAt at hf
    rw [hgb] at hf
    have hf' : (!b.allocated) = true := hf
    rw [halloc] at hf'
    exact absurd hf' (by simp)
  obtain ⟨hInv1, hseg1, hend1, ⟨b1, hgb1, hfl1, hple1, hdata1⟩, hsub1⟩ :=
    coalesce_right_spec s (p - HEADER_SIZE) b hInv hgb hanm
  by_cases hge : b1.payload ≥ adjust n
  · by_cases hsp : b1.payload ≥ adjust n + MIN_BLOCK_SIZE
    · have hred : myrealloc s (some p) n =
          (some p, partition (coalesce_right s (some (p - HEADER_SIZE)))
            (p - HEADER_SIZE) b1.payload (adjust n)) := by
        simp [myrealloc, hn, hgb, hc1, hc2, hc3, hgb1, hge, hsp]
      obtain ⟨hfl2, hseg2, hch2, hend2, hdo2, hlo2, _, _, _⟩ :=
        partition_spec (coalesce_right s (some (p - HEADER_SIZE)))
          (p - HEADER_SIZE) b1.payload (adjust n) b1 hInv1 hgb1 rfl (by omega)
      rw [hred]
      refine ⟨⟨hch2, ?_, hdo2, hlo2⟩, ?_, ?_⟩
      · show endAddrL _ ≤ U32 + 7
        rw [hend2, hend1]
        exact hInv.2.1
      · show (partition _ _ _ _).segmentSize = s.segmentSize
        rw [hseg2, hseg1]
      · rw [hend2, hend1]
    · have hred : myrealloc s (some p) n =
          (some p, coalesce_right s (some (p - HEADER_SIZE))) := by
        simp [myrealloc, hn, hgb, hc1, hc2, hc3, hgb1, hge, hsp]
      rw [hred]
      exact ⟨hInv1, hseg1, hend1⟩
  obtain ⟨hInv2, hseg2, hend2, hmnone, hmsome⟩ :=
    mymalloc_spec (coalesce_right s (some (p - HEADER_SIZE))) n hInv1
  rcases hmm : mymalloc (coalesce_right s (some (p - HEADER_SIZE))) n with ⟨r1, s2⟩
  simp only [hmm] at hInv2 hseg2 hend2 hmnone hmsome
  cases r1 with
  | none =>
    have hred : myrealloc s (some p) n = (none, s2) := by
      simp [myrealloc, hn, hgb, hc1, hc2, hc3, hgb1, hge, hmm]
    have hs2 : s2 = coalesce_right s (some (p - HEADER_SIZE)) := hmnone rfl
    rw [hred, hs2]
    exact ⟨hInv1, hseg1, hend1⟩
  | some q =>
    obtain ⟨hq8, ⟨P2, hsigq, hP2ge⟩, hout⟩ := hmsome q rfl
    have hanm1 : (p - HEADER_SIZE) ∉
        (coalesce_right s (some (p - HEADER_SIZE))).freeList :=
      fun h => hanm (hsub1 _ h)
    have houtA : getBlock s2.blocks (p - HEADER_SIZE) = some b1 := by
      rw [hout (p - HEADER_SIZE) b1 hanm1 hgb1]
      exact hgb1
    have hne : q - HEADER_SIZE ≠ p - HEADER_SIZE := by
      intro heq
      rw [heq, houtA] at hsigq
      simp only [Option.map_some', Option.some.injEq, blockSig, Prod.mk.injEq] at hsigq
      obtain ⟨h1, h2, h3, h4⟩ := hsigq
      omega
    have hred : myrealloc s (some p) n =
        (some q, myfree (s2.upd (q - HEADER_SIZE)
          (fun nb =>
            { nb with data := b1.data.take b.payload ++ nb.data.drop b.payload }))
          (some p)) := by
      simp [myrealloc, hn, hgb, hc1, hc2, hc3, hgb1, hge, hmm, houtA]
    have hlen : ∀ nb ∈ s2.blocks, nb.addr = q - HEADER_SIZE →
        nb.data.length = nb.payload →
        ((fun nb : Block =>
          { nb with data := b1.data.take b.payload ++ nb.data.drop b.payload }) nb).data.length =
        ((fun nb : Block =>
          { nb with data := b1.data.take b.payload ++ nb.data.drop b.payload }) nb).payload := by
      intro nb hnb haddr hdl
      have hgnb : getBlock s2.blocks (q - HEADER_SIZE) = some nb := by
        rw [← haddr]
        exact chained_getBlock hInv2.1 hnb
      have hsig' := hsigq
      rw [hgnb] at hsig'
      simp only [Option.map_some', Option.some.injEq, blockSig, Prod.mk.injEq] at hsig'
      obtain ⟨h1, h2, h3, h4⟩ := hsig'
      have hb1len : b1.data.length = b1.payload :=
        hInv1.2.2.1 b1 (getBlock_mem hgb1).1
      show (b1.data.take b.payload ++ nb.data.drop b.payload).length = nb.payload
      rw [List.length_append, List.length_take, List.length_drop]
      omega
    obtain ⟨hInv3, hfl3, hseg3, hend3⟩ :=
      upd_keepflag_HeapInv s2 (q - HEADER_SIZE)
        (fun nb =>
          { nb with data := b1.data.take b.payload ++ nb.data.drop b.payload })
        (fun _ => rfl) (fun _ => rfl) (fun _ => rfl) hlen hInv2
    have hga3 : getBlock (s2.upd (q - HEADER_SIZE)
        (fun nb =>
          { nb with data := b1.data.take b.payload ++ nb.data.drop b.payload })).blocks
        (p - HEADER_SIZE) = some b1 := by
      rw [upd_blocks, getBlock_updBlocks_ne
        (fun nb : Block =>
          { nb with data := b1.data.take b.payload ++ nb.data.drop b.payload })
        (q - HEADER_SIZE) (p - HEADER_SIZE) s2.blocks
        (fun _ => rfl) (fun h => hne h.symm)]
      exact houtA
    have hallocb1 : b1.allocated = true := by
      rw [hfl1]
      exact halloc
    obtain ⟨hInv4, hseg4, hend4⟩ := myfree_spec _ p b1 hInv3 hga3 hallocb1
    rw [hred]
    refine ⟨hInv4, ?_, ?_⟩
    · show (myfree _ (some p)).segmentSize = s.segmentSize
      rw [hseg4, hseg3, hseg2, hseg1]
    · show endAddrL (myfree _ (some p)).blocks = endAddrL s.blocks
      rw [hend4, hend3, hend2, hend1]

theorem validPtrB_elim {s : Heap} {p : Nat} (h : validPtrB s p = true) :
    ∃ b, getBlock s.blocks (p - HEADER_SIZE) = some b ∧ b.allocated = true := by
  unfold validPtrB at h
  cases hg : getBlock s.blocks (p - HEADER_SIZE) with
  | none =>
    rw [hg] at h
    exact absurd h (by simp)
  | some b =>
    rw [hg] at h
    exact ⟨b, rfl, h⟩

theorem step_preserves {s t : Heap} (hInv : HeapInv s) (hst : Step s t) :
    HeapInv t ∧ t.segmentSize = s.segmentSize ∧
    endAddrL t.blocks = endAddrL s.blocks := by
  cases hst with
  | malloc n =>
    obtain ⟨h1, h2, h3, _, _⟩ := mymalloc_spec s n hInv
    exact ⟨h1, h2, h3⟩
  | freeNull => exact ⟨hInv, rfl, rfl⟩
  | free p h =>
    obtain ⟨b, hg, ha⟩ := validPtrB_elim h
    exact myfree_spec s p b hInv hg ha
  | reallocNull n =>
    obtain ⟨h1, h2, h3, _, _⟩ := mymalloc_spec s n hInv
    exact ⟨h1, h2, h3⟩
  | realloc p n h =>
    obtain ⟨b, hg, ha⟩ := validPtrB_elim h
    by_cases hn : n = 0
    · subst hn
      have hr : myrealloc s (some p) 0 = mymalloc s 0 := by
        simp [myrealloc]
      have hm : mymalloc s 0 = (none, s) := by
        simp [mymalloc]
      rw [hr, hm]
      exact ⟨hInv, rfl, rfl⟩
    · exact myrealloc_spec s p n b hInv hn hg ha

theorem reachable_spec {init t : Heap} (hInv : HeapInv init)
    (h : ReachableFrom init t) :
    HeapInv t ∧ t.segmentSize = init.segmentSize ∧
    endAddrL t.blocks = endAddrL init.blocks := by
  induction h with
  | refl => exact ⟨hInv, rfl, rfl⟩
  | step hr hs ih =>
    obtain ⟨h1, h2, h3⟩ := ih
    obtain ⟨g1, g2, g3⟩ := step_preserves h1 hs
    exact ⟨g1, g2.trans h2, g3.trans h3⟩

theorem myinit_HeapInv {size : Nat} {s : Heap} (h : myinit size = some s) :
    HeapInv s ∧ s.segmentSize = size := by
  unfold myinit at h
  by_cases hle : size ≤ HEADER_SIZE
  · rw [if_pos hle] at h
    exact absurd h (by simp)
  · rw [if_neg hle] at h
    have hs : s = { blocks := [{ addr := 0, payload := toU32 (size - HEADER_SIZE),
                                 allocated := false,
                                 data := List.replicate (toU32 (size - HEADER_SIZE)) 0 }],
                    freeList := [0],
                    segmentSize := size } := by
      cases h
      rfl
    subst hs
    have hlt : toU32 (size - HEADER_SIZE) < U32 := Nat.mod_lt _ (by norm_num [U32])
    refine ⟨⟨?_, ?_, ?_, ?_, ?_, ?_⟩, rfl⟩
    · simp [chainedB]
    · show endAddrL _ ≤ U32 + 7
      simp only [endAddrL, List.map_cons, List.map_nil, List.sum_cons, List.sum_nil]
      have h8 : HEADER_SIZE = 8 := rfl
      omega
    · intro b hb
      simp only [List.mem_singleton] at hb
      subst hb
      simp
    · intro a ha
      simp only [List.mem_singleton] at ha
      subst ha
      rfl
    · intro b hb hbf
      simp only [List.mem_singleton] at hb
      subst hb
      simp
    · simp

/-- Claim C10: `myrealloc` on a non-null reference with new size 0 delegates
to `mymalloc 0`, which rejects the request: the call returns the failure
signal and the heap — in particular the referenced block, its header and its
data — is returned entirely unchanged; this path never frees. -/
theorem C10_realloc_zero_fails (s : Heap) (p : Nat) :
    myrealloc s (some p) 0 = (none, s) := by
  have h1 : myrealloc s (some p) 0 = mymalloc s 0 := by
    simp [myrealloc]
  have h2 : mymalloc s 0 = (none, s) := by
    simp [mymalloc]
  rw [h1, h2]

/-- Claim C6 (amended): `myinit` fails exactly when the segment size is at
most `HEADER_SIZE` — so it also rejects a segment of exactly one header's
size, which the original sentence classifies as large enough.  On any larger
size it succeeds and installs a single free block of payload
`toU32 (size - HEADER_SIZE)` (the whole segment minus the header whenever no
32-bit truncation occurs) whose payload bytes are all zero (both links NULL),
as the sole free-list entry. -/
theorem C6_init_characterization (size : Nat) :
    (myinit size = none ↔ size ≤ HEADER_SIZE) ∧
    (HEADER_SIZE < size →
      myinit size = some
        { blocks := [{ addr := 0, payload := toU32 (size - HEADER_SIZE),
                       allocated := false,
                       data := List.replicate (toU32 (size - HEADER_SIZE)) 0 }],
          freeList := [0],
          segmentSize := size }) := by
  constructor
  · unfold myinit
    by_cases h : size ≤ HEADER_SIZE
    · simp [h]
    · simp [h]
  · intro h
    unfold myinit
    rw [if_neg (by omega)]

theorem C6_witness :
    myinit 16 = some
      { blocks := [{ addr := 0, payload := toU32 (16 - HEADER_SIZE),
                     allocated := false,
                     data := List.replicate (toU32 (16 - HEADER_SIZE)) 0 }],
        freeList := [0],
        segmentSize := 16 } :=
  (C6_init_characterization 16).2 (by decide)

/-- Claim C6 counterexample: a segment of exactly `HEADER_SIZE` bytes is not
too small to hold one header, yet `myinit` rejects it (the code tests
`heap_size <= HEADER_SIZE`, not `<`). -/
theorem C6_counterexample : myinit 8 = none ∧ ¬ (8 < HEADER_SIZE) := by decide

/-- Claim C9: `mymalloc` rejects a zero or over-maximum request before any
search, with no state change; every other request is shaped — rounded up to
`ALIGNMENT`, then raised to `MIN_PAYLOAD_SIZE` if smaller, which is exactly
the spec's `requestShapeSpec` — and precisely the shaped size is handed to
`find_fit`, whose outcome `mymalloc` returns (block address plus one header
on success). -/
theorem C9_malloc_gate (s : Heap) (n : Nat) :
    ((n = 0 ∨ n > MAX_REQUEST_SIZE) → mymalloc s n = (none, s)) ∧
    (¬ (n = 0 ∨ n > MAX_REQUEST_SIZE) →
      adjust n = requestShapeSpec n ∧
      (mymalloc s n).1 =
        ((find_fit s (adjust n)).1).map (fun block => block + HEADER_SIZE) ∧
      (mymalloc s n).2 = (find_fit s (adjust n)).2) := by
  constructor
  · intro h
    have h' : n > MAX_REQUEST_SIZE ∨ n = 0 := h.symm
    simp [mymalloc, h']
  · intro h
    have h' : ¬ (n > MAX_REQUEST_SIZE ∨ n = 0) := fun hc => h hc.symm
    have hb : n + 7 < U64 := by
      have h30 : MAX_REQUEST_SIZE = 1 <<< 30 := rfl
      have : ¬ n > MAX_REQUEST_SIZE := fun hc => h' (Or.inl hc)
      have h64 : U64 = 18446744073709551616 := rfl
      have h30' : (1 : Nat) <<< 30 = 1073741824 := by decide
      omega
    refine ⟨adjust_eq_spec hb, ?_, ?_⟩ <;>
    · rcases hff : find_fit s (adjust n) with ⟨r1, r2⟩
      cases r1 <;> simp [mymalloc, h', hff]

theorem C9_witness :
    adjust 5 = requestShapeSpec 5 ∧
    (mymalloc { blocks := [], freeList := [], segmentSize := 0 } 5).1 =
      ((find_fit { blocks := [], freeList := [], segmentSize := 0 } (adjust 5)).1).map
        (fun block => block + HEADER_SIZE) ∧
    (mymalloc { blocks := [], freeList := [], segmentSize := 0 } 5).2 =
      (find_fit { blocks := [], freeList := [], segmentSize := 0 } (adjust 5)).2 :=
  (C9_malloc_gate { blocks := [], freeList := [], segmentSize := 0 } 5).2 (by decide)

/-- Claim C5: in every state reachable from a successful initialization by
legal allocate, release and resize calls, a block's header marks it
unallocated exactly when its address is on the free list (the model's list
order is the next-link order), and each address appears in the list at most
once. -/
theorem C5_freelist_iff (size : Nat) (init t : Heap)
    (hinit : myinit size = some init) (hr : ReachableFrom init t) :
    (∀ b ∈ t.blocks, (b.allocated = false ↔ b.addr ∈ t.freeList)) ∧
    (∀ x, t.freeList.count x ≤ 1) := by
  obtain ⟨hInv0, _⟩ := myinit_HeapInv hinit
  obtain ⟨hInv, _, _⟩ := reachable_spec hInv0 hr
  obtain ⟨hch, _, _, hfA1, hfA2, hnd⟩ := hInv
  constructor
  · intro b hb
    constructor
    · exact fun hf => hfA2 b hb hf
    · intro hmem
      have hf := hfA1 _ hmem
      unfold freeAt at hf
      have hgb : getBlock t.blocks b.addr = some b := chained_getBlock hch hb
      rw [hgb] at hf
      simpa using hf
  · exact List.nodup_iff_count_le_one.1 hnd

theorem C5_witness :
    (∀ b ∈ ({ blocks := [{ addr := 0, payload := 24, allocated := false, data := List.replicate 24 0 }], freeList := [0], segmentSize := 32 } : Heap).blocks,
      (b.allocated = false ↔ b.addr ∈ ({ blocks := [{ addr := 0, payload := 24, allocated := false, data := List.replicate 24 0 }], freeList := [0], segmentSize := 32 } : Heap).freeList)) ∧
    (∀ x, ({ blocks := [{ addr := 0, payload := 24, allocated := false, data := List.replicate 24 0 }], freeList := [0], segmentSize := 32 } : Heap).freeList.count x ≤ 1) :=
  C5_freelist_iff 32 _ _ (by decide) ReachableFrom.refl

/-- Claim C4 (amended): provided the initialization size fits the 32-bit
payload header (`size ≤ U32 + 7`, so the stored payload is not truncated),
every reachable state's physical walk — starting at `segment_start` and
advancing by `HEADER_SIZE + payload_size` — tiles the segment without gap or
overlap and lands exactly on `segment_end`.  Without the proviso the very
first state already breaks the walk (see the counterexample). -/
theorem C4_physical_walk (size : Nat) (init t : Heap)
    (hinit : myinit size = some init) (hsz : size ≤ U32 + 7)
    (hr : ReachableFrom init t) :
    chainedB 0 t.blocks = true ∧ t.endAddr = t.segmentSize := by
  obtain ⟨hInv0, hseg0⟩ := myinit_HeapInv hinit
  obtain ⟨hInv, hseg, hend⟩ := reachable_spec hInv0 hr
  have h8 : HEADER_SIZE = 8 := rfl
  have hinitE : endAddrL init.blocks = size := by
    unfold myinit at hinit
    by_cases hle : size ≤ HEADER_SIZE
    · rw [if_pos hle] at hinit
      exact absurd hinit (by simp)
    · rw [if_neg hle] at hinit
      have hs : init = { blocks := [{ addr := 0,
                                      payload := toU32 (size - HEADER_SIZE),
                                      allocated := false,
                                      data := List.replicate (toU32 (size - HEADER_SIZE)) 0 }],
                         freeList := [0],
                         segmentSize := size } := by
        cases hinit
        rfl
      subst hs
      show HEADER_SIZE + toU32 (size - HEADER_SIZE) + 0 = size
      have ht : toU32 (size - HEADER_SIZE) = size - HEADER_SIZE := by
        have hU : U32 = 4294967296 := rfl
        unfold toU32 U32
        omega
      omega
  refine ⟨hInv.1, ?_⟩
  show endAddrL t.blocks = t.segmentSize
  rw [hend, hinitE, hseg, hseg0]

theorem C4_witness :
    chainedB 0 ({ blocks := [{ addr := 0, payload := 24, allocated := false,
                               data := List.replicate 24 0 }],
                  freeList := [0], segmentSize := 32 } : Heap).blocks = true ∧
    ({ blocks := [{ addr := 0, payload := 24, allocated := false,
                    data := List.replicate 24 0 }],
       freeList := [0], segmentSize := 32 } : Heap).endAddr =
    ({ blocks := [{ addr := 0, payload := 24, allocated := false,
                    data := List.replicate 24 0 }],
       freeList := [0], segmentSize := 32 } : Heap).segmentSize :=
  C4_physical_walk 32 _ _ (by decide) (by decide) ReachableFrom.refl

/-- Claim C4 counterexample: initializing with `U32 + 16` bytes succeeds, but
the 32-bit header store truncates the payload to 8, so the walk from
`segment_start` ends at offset 16 — not at `segment_end = U32 + 16`: the
walk neither visits every byte nor lands on the segment end, already in the
initial (trivially reachable) state. -/
theorem C4_counterexample :
    myinit (U32 + 16) = some
      { blocks := [{ addr := 0, payload := 8, allocated := false,
                     data := List.replicate 8 0 }],
        freeList := [0], segmentSize := U32 + 16 } ∧
    ({ blocks := [{ addr := 0, payload := 8, allocated := false,
                    data := List.replicate 8 0 }],
       freeList := [0], segmentSize := U32 + 16 } : Heap).endAddr ≠ U32 + 16 := by
  constructor
  · unfold myinit
    rw [if_neg (by decide)]
    have ht : toU32 (U32 + 16 - HEADER_SIZE) = 8 := by decide
    rw [ht]
  · decide

/-- Claim C8: `find_fit` is a first-fit scan of the free list from the head:
it returns the first entry whose payload is at least the request (that is,
`List.find?` over the list in link order), fails leaving the heap unchanged
when no candidate fits, and on success marks the winner allocated, splitting
it beforehand exactly when the remainder after carving out the request meets
`MIN_BLOCK_SIZE` and registering the carved-off tail as a free block (so a
request of 16 against a sole free block of payload 1000 yields an allocated
block of payload 16 and a listed free block of payload 1000 - 16 - 8). -/
theorem C8_first_fit (s : Heap) (req : Nat) (hInv : HeapInv s) :
    (find_fit s req).1 = s.freeList.find? (fun x => req ≤ payloadOf s x) ∧
    ((find_fit s req).1 = none → (find_fit s req).2 = s) ∧
    (∀ a, (find_fit s req).1 = some a →
      ∃ b, getBlock s.blocks a = some b ∧ b.allocated = false ∧ req ≤ b.payload ∧
        ((getBlock (find_fit s req).2.blocks a).map blockSig =
          some (a, if req + MIN_BLOCK_SIZE ≤ b.payload then req else b.payload, true,
            if req + MIN_BLOCK_SIZE ≤ b.payload then req else b.payload)) ∧
        (req + MIN_BLOCK_SIZE ≤ b.payload →
          (find_fit s req).2.freeList = (a + req + HEADER_SIZE) :: s.freeList.erase a ∧
          (getBlock (find_fit s req).2.blocks (a + req + HEADER_SIZE)).map blockSig =
            some (a + req + HEADER_SIZE, b.payload - req - HEADER_SIZE,
              false, b.payload - req - HEADER_SIZE)) ∧
        (b.payload < req + MIN_BLOCK_SIZE →
          (find_fit s req).2.freeList = s.freeList.erase a)) := by
  obtain ⟨h1, h2, h3⟩ := find_fit_loop_spec s.freeList s req hInv (fun x hx => hx)
  refine ⟨h1, h2, ?_⟩
  intro a ha
  obtain ⟨hI, hS, hE, b, hgb, hbf, hble, hsig, hspl, hnspl, hout⟩ := h3 a ha
  exact ⟨b, hgb, hbf, hble, hsig, hspl, hnspl⟩

set_option maxRecDepth 100000 in
theorem C8_witness :
    (find_fit fitHeap 16).2.freeList = [24] ∧
    ((getBlock (find_fit fitHeap 16).2.blocks 24).map blockSig =
      some (24, 976, false, 976)) ∧
    ((find_fit fitHeap 16).1 = fitHeap.freeList.find? (fun x => 16 ≤ payloadOf fitHeap x) ∧
    ((find_fit fitHeap 16).1 = none → (find_fit fitHeap 16).2 = fitHeap) ∧
    (∀ a, (find_fit fitHeap 16).1 = some a →
      ∃ b, getBlock fitHeap.blocks a = some b ∧ b.allocated = false ∧ 16 ≤ b.payload ∧
        ((getBlock (find_fit fitHeap 16).2.blocks a).map blockSig =
          some (a, if 16 + MIN_BLOCK_SIZE ≤ b.payload then 16 else b.payload, true,
            if 16 + MIN_BLOCK_SIZE ≤ b.payload then 16 else b.payload)) ∧
        (16 + MIN_BLOCK_SIZE ≤ b.payload →
          (find_fit fitHeap 16).2.freeList = (a + 16 + HEADER_SIZE) :: fitHeap.freeList.erase a ∧
          (getBlock (find_fit fitHeap 16).2.blocks (a + 16 + HEADER_SIZE)).map blockSig =
            some (a + 16 + HEADER_SIZE, b.payload - 16 - HEADER_SIZE,
              false, b.payload - 16 - HEADER_SIZE)) ∧
        (b.payload < 16 + MIN_BLOCK_SIZE →
          (find_fit fitHeap 16).2.freeList = fitHeap.freeList.erase a))) :=
  ⟨by decide, by decide, C8_first_fit fitHeap 16 (by decide)⟩

/-- Claim C7: for a live allocated block whose payload already covers the
shaped target (`adjust n ≤ old`), `myrealloc` returns the same reference; it
carves the excess into a new listed free block exactly when
`old ≥ adjust n + MIN_BLOCK_SIZE` (leaving the front at exactly the target
and every other block untouched), and otherwise — equal size, or excess
below the split threshold — returns with the heap, hence the block, entirely
as-is (internal slack). -/
theorem C7_realloc_inplace (s : Heap) (p n : Nat) (b : Block)
    (hInv : HeapInv s) (hn : 0 < n)
    (hgb : getBlock s.blocks (p - HEADER_SIZE) = some b)
    (halloc : b.allocated = true)
    (hge : adjust n ≤ b.payload) :
    (myrealloc s (some p) n).1 = some p ∧
    (b.payload < adjust n + MIN_BLOCK_SIZE → (myrealloc s (some p) n).2 = s) ∧
    (adjust n + MIN_BLOCK_SIZE ≤ b.payload →
      ((getBlock (myrealloc s (some p) n).2.blocks (p - HEADER_SIZE)).map blockSig =
        some (p - HEADER_SIZE, adjust n, true, adjust n)) ∧
      ((getBlock (myrealloc s (some p) n).2.blocks
          (p - HEADER_SIZE + adjust n + HEADER_SIZE)).map blockSig =
        some (p - HEADER_SIZE + adjust n + HEADER_SIZE,
          b.payload - adjust n - HEADER_SIZE, false,
          b.payload - adjust n - HEADER_SIZE)) ∧
      (myrealloc s (some p) n).2.freeList =
        (p - HEADER_SIZE + adjust n + HEADER_SIZE) :: s.freeList ∧
      (∀ x, x ≠ p - HEADER_SIZE → x ≠ p - HEADER_SIZE + adjust n + HEADER_SIZE →
        (getBlock (myrealloc s (some p) n).2.blocks x).map blockSig =
          (getBlock s.blocks x).map blockSig)) := by
  have hn' : n ≠ 0 := by omega
  have h24 : MIN_BLOCK_SIZE = 24 := rfl
  by_cases hc1 : b.payload = adjust n
  · have hred : myrealloc s (some p) n = (some p, s) := by
      simp [myrealloc, hn', hgb, hc1]
    rw [hred]
    exact ⟨rfl, fun _ => rfl, fun hsp => absurd hsp (by omega)⟩
  · by_cases hc2 : b.payload > adjust n ∧ b.payload < adjust n + MIN_BLOCK_SIZE
    · have hred : myrealloc s (some p) n = (some p, s) := by
        simp [myrealloc, hn', hgb, hc1, hc2]
      rw [hred]
      exact ⟨rfl, fun _ => rfl, fun hsp => absurd hsp (by omega)⟩
    · have hc3 : b.payload > adjust n ∧ b.payload ≥ adjust n + MIN_BLOCK_SIZE := by
        omega
      have hred : myrealloc s (some p) n =
          (some p, partition s (p - HEADER_SIZE) b.payload (adjust n)) := by
        simp [myrealloc, hn', hgb, hc1, hc2, hc3]
      obtain ⟨hfl2, hseg2, hch2, hend2, hdo2, hlo2, hsiga, hsigt, hsigo⟩ :=
        partition_spec s (p - HEADER_SIZE) b.payload (adjust n) b hInv hgb rfl
          (by omega)
      rw [hred]
      rw [halloc] at hsiga
      exact ⟨rfl, fun hlt => absurd hlt (by omega),
        fun _ => ⟨hsiga, hsigt, hfl2, hsigo⟩⟩

theorem C7_witness :
    (myrealloc shrinkHeap (some 8) 16).1 = some 8 ∧
    ((48 : Nat) < adjust 16 + MIN_BLOCK_SIZE → (myrealloc shrinkHeap (some 8) 16).2 = shrinkHeap) ∧
    (adjust 16 + MIN_BLOCK_SIZE ≤ 48 →
      ((getBlock (myrealloc shrinkHeap (some 8) 16).2.blocks (8 - HEADER_SIZE)).map blockSig =
        some (8 - HEADER_SIZE, adjust 16, true, adjust 16)) ∧
      ((getBlock (myrealloc shrinkHeap (some 8) 16).2.blocks
          (8 - HEADER_SIZE + adjust 16 + HEADER_SIZE)).map blockSig =
        some (8 - HEADER_SIZE + adjust 16 + HEADER_SIZE,
          48 - adjust 16 - HEADER_SIZE, false, 48 - adjust 16 - HEADER_SIZE)) ∧
      (myrealloc shrinkHeap (some 8) 16).2.freeList =
        (8 - HEADER_SIZE + adjust 16 + HEADER_SIZE) :: shrinkHeap.freeList ∧
      (∀ x, x ≠ 8 - HEADER_SIZE → x ≠ 8 - HEADER_SIZE + adjust 16 + HEADER_SIZE →
        (getBlock (myrealloc shrinkHeap (some 8) 16).2.blocks x).map blockSig =
          (getBlock shrinkHeap.blocks x).map blockSig)) :=
  C7_realloc_inplace shrinkHeap 8 16
    { addr := 0, payload := 48, allocated := true, data := List.replicate 48 0 }
    (by decide) (by decide) (by decide) (by decide) (by decide)

/-- Claim C1 (amended/corrected): when growing in place falls short of the
target and the fallback allocation fails, `myrealloc` returns the failure
signal with the heap in the state left by the in-place coalesce — a valid
state in which the original block keeps its start address, its allocated
flag and every byte of its old payload (nothing is destroyed or moved) —
but not, in general, the unchanged pre-call state: rightward free
neighbours have already been absorbed into the block and dropped from the
free list. -/
theorem C1_grow_fail (s : Heap) (p n : Nat) (b b1 : Block)
    (hInv : HeapInv s) (hn : n ≠ 0)
    (hgb : getBlock s.blocks (p - HEADER_SIZE) = some b)
    (halloc : b.allocated = true)
    (hlt : b.payload < adjust n)
    (hgb1 : getBlock (coalesce_right s (some (p - HEADER_SIZE))).blocks
      (p - HEADER_SIZE) = some b1)
    (hb1lt : b1.payload < adjust n)
    (hmfail : (mymalloc (coalesce_right s (some (p - HEADER_SIZE))) n).1 = none) :
    myrealloc s (some p) n = (none, coalesce_right s (some (p - HEADER_SIZE))) ∧
    HeapInv (coalesce_right s (some (p - HEADER_SIZE))) ∧
    b1.allocated = true ∧ b.payload ≤ b1.payload ∧
    b1.data.take b.data.length = b.data := by
  have h24 : MIN_BLOCK_SIZE = 24 := rfl
  have hc1 : ¬ b.payload = adjust n := by omega
  have hc2 : ¬ (b.payload > adjust n ∧ b.payload < adjust n + MIN_BLOCK_SIZE) := by
    omega
  have hc3 : ¬ (b.payload > adjust n ∧ b.payload ≥ adjust n + MIN_BLOCK_SIZE) := by
    omega
  have hanm : (p - HEADER_SIZE) ∉ s.freeList := by
    intro hmem
    have hf := hInv.2.2.2.1 _ hmem
    unfold freeAt at hf
    rw [hgb] at hf
    have hf' : (!b.allocated) = true := hf
    rw [halloc] at hf'
    exact absurd hf' (by simp)
  obtain ⟨hInv1, hseg1, hend1, ⟨b', hgb', hfl', hple', hdata'⟩, hsub1⟩ :=
    coalesce_right_spec s (p - HEADER_SIZE) b hInv hgb hanm
  rw [hgb'] at hgb1
  injection hgb1 with hinj
  subst hinj
  have hge : ¬ b'.payload ≥ adjust n := by omega
  obtain ⟨_, _, _, hmnone, _⟩ :=
    mymalloc_spec (coalesce_right s (some (p - HEADER_SIZE))) n hInv1
  rcases hmmp : mymalloc (coalesce_right s (some (p - HEADER_SIZE))) n with ⟨r1, r2⟩
  rw [hmmp] at hmfail hmnone
  have hr1 : r1 = none := hmfail
  subst hr1
  have hr2 : r2 = coalesce_right s (some (p - HEADER_SIZE)) := hmnone rfl
  subst hr2
  have hred : myrealloc s (some p) n =
      (none, coalesce_right s (some (p - HEADER_SIZE))) := by
    simp [myrealloc, hn, hgb, hc1, hc2, hc3, hgb', hge, hb1lt, hmmp]
  rw [halloc] at hfl'
  exact ⟨hred, hInv1, hfl', hple', hdata'⟩

theorem C1_witness :
    myrealloc growHeap (some 8) 100 =
      (none, coalesce_right growHeap (some (8 - HEADER_SIZE))) ∧
    HeapInv (coalesce_right growHeap (some (8 - HEADER_SIZE))) ∧
    ({ addr := 0, payload := 40, allocated := true, data := List.replicate 40 0 } : Block).allocated = true ∧
    ({ addr := 0, payload := 16, allocated := true, data := List.replicate 16 0 } : Block).payload ≤ ({ addr := 0, payload := 40, allocated := true, data := List.replicate 40 0 } : Block).payload ∧
    ({ addr := 0, payload := 40, allocated := true, data := List.replicate 40 0 } : Block).data.take ({ addr := 0, payload := 16, allocated := true, data := List.replicate 16 0 } : Block).data.length = ({ addr := 0, payload := 16, allocated := true, data := List.replicate 16 0 } : Block).data :=
  C1_grow_fail growHeap 8 100
    { addr := 0, payload := 16, allocated := true, data := List.replicate 16 0 }
    { addr := 0, payload := 40, allocated := true, data := List.replicate 40 0 }
    (by decide) (by decide) (by decide) (by decide) (by decide) (by decide)
    (by decide) (by decide)

/-- Claim C1 counterexample: in `growHeap` the block at 0 (payload 16,
allocated) is asked to grow to 100 bytes; the in-place coalesce absorbs the
free neighbour at 24 but still falls short, and the fallback allocation
fails — `myrealloc` returns the failure signal, yet the heap is NOT the
pre-call heap: the block's payload grew from 16 to 40 and the free list
emptied, refuting the claimed "unchanged state". -/
theorem C1_counterexample :
    HeapInv growHeap ∧
    (myrealloc growHeap (some 8) 100).1 = none ∧
    (myrealloc growHeap (some 8) 100).2 ≠ growHeap := by decide

theorem alignedL_updBlocks {l : List Block} {a : Nat} {f : Block → Block}
    (hfp : ∀ b, (f b).payload = b.payload) (h : alignedL l) :
    alignedL (updBlocks f a l) := by
  intro b' hb'
  obtain ⟨b, hb, rfl⟩ := mem_updBlocks.1 hb'
  by_cases hc : b.addr = a
  · rw [if_pos hc, hfp]
    exact h b hb
  · rw [if_neg hc]
    exact h b hb

theorem alignedL_add_block {s : Heap} {x : Nat} (h : alignedL s.blocks) :
    alignedL (add_block s x).blocks := by
  rcases hfl : s.freeList with _ | ⟨oh, rest⟩ <;> simp only [add_block, hfl, Heap.upd]
  · exact alignedL_updBlocks setFree_payload (alignedL_updBlocks storeLinks2_payload h)
  · exact alignedL_updBlocks setFree_payload
      (alignedL_updBlocks storeLinks2_payload (alignedL_updBlocks storePrev_payload h))

theorem alignedL_remove_block {s : Heap} {x : Nat} (h : alignedL s.blocks) :
    alignedL (remove_block s x).blocks := by
  rcases hn : neighborsIn none s.freeList x with _ | ⟨pr, nx⟩
  · simp only [remove_block, hn, upd_blocks]
    exact alignedL_updBlocks setUsed_payload h
  · rcases pr with _ | p <;> rcases nx with _ | n <;>
      simp only [remove_block, hn, upd_blocks, Heap.upd]
    · exact alignedL_updBlocks setUsed_payload h
    · exact alignedL_updBlocks setUsed_payload (alignedL_updBlocks storePrev_payload h)
    · exact alignedL_updBlocks setUsed_payload (alignedL_updBlocks storeNext_payload h)
    · exact alignedL_updBlocks setUsed_payload
        (alignedL_updBlocks storePrev_payload (alignedL_updBlocks storeNext_payload h))

theorem alignedL_partition (s : Heap) (a space payload : Nat) (b0 : Block)
    (hInv : HeapInv s) (hg : getBlock s.blocks a = some b0)
    (hspace : b0.payload = space) (hfit : payload + MIN_BLOCK_SIZE ≤ space)
    (hpal : payload % ALIGNMENT = 0) (hpmin : MIN_PAYLOAD_SIZE ≤ payload)
    (hal : alignedL s.blocks) :
    alignedL (partition s a space payload).blocks := by
  have h8 : HEADER_SIZE = 8 := rfl
  have h24 : MIN_BLOCK_SIZE = 24 := rfl
  have h16 : MIN_PAYLOAD_SIZE = 16 := rfl
  have hA8 : ALIGNMENT = 8 := rfl
  have hU : U32 = 4294967296 := rfl
  have hU64 : U64 = 18446744073709551616 := rfl
  have hmem0 : b0 ∈ s.blocks := (getBlock_mem hg).1
  have haddr : b0.addr = a := (getBlock_mem hg).2
  have hsp32 : space < U32 := by
    have h1 := extent_le_endAddrL hmem0
    have h2 : endAddrL s.blocks ≤ U32 + 7 := hInv.2.1
    rw [hspace] at h1
    omega
  have hsal : space % ALIGNMENT = 0 ∧ MIN_PAYLOAD_SIZE ≤ space := by
    have := hal b0 hmem0
    rw [hspace] at this
    exact this
  obtain ⟨l1, l2, hl, h1⟩ := getBlock_decomp hg
  have hsplit := splitBlocks_eq a space payload b0 l1 l2 h1 haddr
  show alignedL (add_block
    { s with blocks := splitBlocks a space payload s.blocks }
    (a + payload + HEADER_SIZE)).blocks
  apply alignedL_add_block
  show alignedL (splitBlocks a space payload s.blocks)
  rw [hl, hsplit]
  intro b hb
  rw [List.mem_append] at hb
  rcases hb with hb | hb
  · exact hal b (by rw [hl]; exact List.mem_append_left _ hb)
  · rcases List.mem_cons.1 hb with rfl | hb
    · show toU32 payload % ALIGNMENT = 0 ∧ MIN_PAYLOAD_SIZE ≤ toU32 payload
      have hp32 : toU32 payload = payload := toU32_eq (by omega)
      rw [hp32]
      exact ⟨hpal, hpmin⟩
    · rcases List.mem_cons.1 hb with rfl | hb
      · show toU32 (wsub (wsub space payload) HEADER_SIZE) % ALIGNMENT = 0 ∧
          MIN_PAYLOAD_SIZE ≤ toU32 (wsub (wsub space payload) HEADER_SIZE)
        have hw1 : wsub space payload = space - payload := wsub_eq (by omega) (by omega)
        have hw2 : wsub (space - payload) HEADER_SIZE = space - payload - HEADER_SIZE :=
          wsub_eq (by omega) (by omega)
        rw [hw1, hw2, toU32_eq (by omega), hA8, h16, h8]
        rw [hA8] at hpal hsal
        omega
      · have hmem : b ∈ s.blocks := by
          rw [hl]
          exact List.mem_append_right _ (List.mem_cons_of_mem _ hb)
        exact hal b hmem

theorem alloc_not_free {s : Heap} {x : Nat} {b : Block} (hInv : HeapInv s)
    (hg : getBlock s.blocks x = some b) (hb : b.allocated = true) :
    x ∉ s.freeList := by
  intro hmem
  have hf := hInv.2.2.2.1 _ hmem
  unfold freeAt at hf
  rw [hg] at hf
  have hf' : (!b.allocated) = true := hf
  rw [hb] at hf'
  exact absurd hf' (by simp)

theorem alignedL_absorb (s : Heap) (a : Nat) (bA c : Block)
    (hInv : HeapInv s) (hga : getBlock s.blocks a = some bA)
    (hgc : getBlock s.blocks (a + bA.payload + HEADER_SIZE) = some c)
    (hal : alignedL s.blocks) :
    alignedL (absorbBlocks a c s.blocks) := by
  have h8 : HEADER_SIZE = 8 := rfl
  have hA8 : ALIGNMENT = 8 := rfl
  have h16 : MIN_PAYLOAD_SIZE = 16 := rfl
  have hU : U32 = 4294967296 := rfl
  have hgc' : getBlock s.blocks (a + HEADER_SIZE + bA.payload) = some c := by
    rw [show a + HEADER_SIZE + bA.payload = a + bA.payload + HEADER_SIZE by omega]
    exact hgc
  obtain ⟨l1, l2, hl, hlt1, haA, haC, hub2⟩ :=
    chained_adjacent_decomp hInv.1 hga hgc'
  have hmemc : c ∈ s.blocks := (getBlock_mem hgc).1
  have hext := chained_ub hInv.1 c hmemc
  have hend : endAddrL s.blocks ≤ U32 + 7 := hInv.2.1
  have hbound : bA.payload + c.payload + HEADER_SIZE < U32 := by
    rw [haC] at hext
    omega
  have habs := absorbBlocks_eq a bA c l1 l2
    (fun x hx => by have := hlt1 x hx; omega) haA
    (fun x hx => by have := hub2 x hx; omega)
  rw [hl, habs]
  intro b hb
  rw [List.mem_append] at hb
  rcases hb with hb | hb
  · exact hal b (by rw [hl]; exact List.mem_append_left _ hb)
  · rcases List.mem_cons.1 hb with rfl | hb
    · show (grownBlock bA c).payload % ALIGNMENT = 0 ∧
        MIN_PAYLOAD_SIZE ≤ (grownBlock bA c).payload
      have hgp : (grownBlock bA c).payload = bA.payload + c.payload + HEADER_SIZE := by
        show toU32 (bA.payload + c.payload + HEADER_SIZE) = _
        exact toU32_eq hbound
      have hA := hal bA (by rw [hl]; exact List.mem_append_right _ (List.mem_cons_self ..))
      have hC := hal c (by
        rw [hl]
        exact List.mem_append_right _ (List.mem_cons_of_mem _ (List.mem_cons_self ..)))
      rw [hgp, hA8, h16, h8]
      rw [hA8, h16] at hA hC
      omega
    · have hmem : b ∈ s.blocks := by
        rw [hl]
        exact List.mem_append_right _ (List.mem_cons_of_mem _ (List.mem_cons_of_mem _ hb))
      exact hal b hmem

theorem alignedL_coalesce_loop (fuel : Nat) :
    ∀ (s : Heap) (a : Nat) (bA : Block) (curr : Nat),
    s.blocks.length < fuel → HeapInv s → getBlock s.blocks a = some bA →
    a ∉ s.freeList → curr = a + bA.payload + HEADER_SIZE →
    alignedL s.blocks → alignedL (coalesce_loop a curr fuel s).blocks := by
  induction fuel with
  | zero =>
    intro s a bA curr hfuel
    omega
  | succ n ih =>
    intro s a bA curr hfuel hInv hga hanm hcurr hal
    by_cases hlt : curr < s.segmentSize
    · cases hgc : getBlock s.blocks curr with
      | none =>
        rw [coalesce_loop_stop_none hlt hgc]
        exact hal
      | some c =>
        by_cases hcf : c.allocated = false
        · subst hcurr
          obtain ⟨hA1, hA2, hA3, hA4, hA5, hA6, hA7, hgp, hA8c, hA9⟩ :=
            absorb_spec s a bA c hInv hga hgc hcf hanm
          have hInv2 : HeapInv (remove_block
              { s with blocks := absorbBlocks a c s.blocks }
              (a + bA.payload + HEADER_SIZE)) := by
            refine ⟨hA3, ?_, hA5, hA6⟩
            show endAddrL _ ≤ U32 + 7
            rw [hA4]
            exact hInv.2.1
          have hlen2 : (remove_block { s with blocks := absorbBlocks a c s.blocks }
              (a + bA.payload + HEADER_SIZE)).blocks.length < n := by
            omega
          have hanm2 : a ∉ (remove_block { s with blocks := absorbBlocks a c s.blocks }
              (a + bA.payload + HEADER_SIZE)).freeList := by
            rw [hA1]
            intro hmem
            exact hanm (List.mem_of_mem_erase hmem)
          have hcurr2 : a + bA.payload + HEADER_SIZE + c.payload + HEADER_SIZE =
              a + (grownBlock bA c).payload + HEADER_SIZE := by
            rw [hgp]
            omega
          have hal2 : alignedL (remove_block
              { s with blocks := absorbBlocks a c s.blocks }
              (a + bA.payload + HEADER_SIZE)).blocks := by
            apply alignedL_remove_block
            show alignedL (absorbBlocks a c s.blocks)
            exact alignedL_absorb s a bA c hInv hga hgc hal
          rw [coalesce_loop_step hlt hgc hcf]
          exact ih _ a (grownBlock bA c) _ hlen2 hInv2 hA7 hanm2 hcurr2 hal2
        · rw [coalesce_loop_stop_alloc hlt hgc hcf]
          exact hal
    · rw [coalesce_loop_stop_seg hlt]
      exact hal

theorem alignedL_coalesce_right (s : Heap) (a : Nat) (bA : Block)
    (hInv : HeapInv s) (hga : getBlock s.blocks a = some bA) (hanm : a ∉ s.freeList)
    (hal : alignedL s.blocks) :
    alignedL (coalesce_right s (some a)).blocks := by
  have hcr : coalesce_right s (some a) =
      coalesce_loop a (a + bA.payload + HEADER_SIZE) (s.blocks.length + 1) s := by
    simp [coalesce_right, hga]
  rw [hcr]
  exact alignedL_coalesce_loop (s.blocks.length + 1) s a bA _ (by omega) hInv hga
    hanm rfl hal

theorem alignedL_find_fit_loop (lst : List Nat) : ∀ (s : Heap) (req : Nat),
    HeapInv s → req % ALIGNMENT = 0 → MIN_PAYLOAD_SIZE ≤ req → alignedL s.blocks →
    alignedL (find_fit_loop s req lst).2.blocks := by
  induction lst with
  | nil =>
    intro s req _ _ _ hal
    exact hal
  | cons a rest ih =>
    intro s req hInv hq1 hq2 hal
    cases hga : getBlock s.blocks a with
    | none =>
      simp only [find_fit_loop, hga]
      exact hal
    | some b =>
      simp only [find_fit_loop, hga]
      by_cases hfit : req ≤ b.payload
      · rw [if_pos hfit]
        by_cases hsplit : req + MIN_BLOCK_SIZE ≤ b.payload
        · rw [if_pos hsplit]
          exact alignedL_remove_block
            (alignedL_partition s a b.payload req b hInv hga rfl hsplit hq1 hq2 hal)
        · rw [if_neg hsplit]
          exact alignedL_remove_block hal
      · rw [if_neg hfit]
        exact ih s req hInv hq1 hq2 hal

theorem alignedL_mymalloc (s : Heap) (n : Nat) (hInv : HeapInv s)
    (hal : alignedL s.blocks) : alignedL (mymalloc s n).2.blocks := by
  by_cases hrej : n > MAX_REQUEST_SIZE ∨ n = 0
  · have hm : mymalloc s n = (none, s) := by
      simp [mymalloc, hrej]
    rw [hm]
    exact hal
  · have hff := alignedL_find_fit_loop s.freeList s (adjust n) hInv (adjust_mod8 n)
      (adjust_ge16 n) hal
    rcases hffp : find_fit s (adjust n) with ⟨r1, r2⟩
    have h2 : (find_fit_loop s (adjust n) s.freeList).2 = r2 := by
      rw [show find_fit_loop s (adjust n) s.freeList = find_fit s (adjust n) from rfl,
        hffp]
    rw [h2] at hff
    cases r1 with
    | none =>
      have hm : mymalloc s n = (none, r2) := by
        simp [mymalloc, hrej, hffp]
      rw [hm]
      exact hff
    | some a =>
      have hm : mymalloc s n = (some (a + HEADER_SIZE), r2) := by
        simp [mymalloc, hrej, hffp]
      rw [hm]
      exact hff

theorem alignedL_myfree (s : Heap) (p : Nat) (bA : Block)
    (hInv : HeapInv s) (hga : getBlock s.blocks (p - HEADER_SIZE) = some bA)
    (halloc : bA.allocated = true) (hal : alignedL s.blocks) :
    alignedL (myfree s (some p)).blocks := by
  have hanm : (p - HEADER_SIZE) ∉ s.freeList := alloc_not_free hInv hga halloc
  have h1 := alignedL_coalesce_right s (p - HEADER_SIZE) bA hInv hga hanm hal
  show alignedL ((add_block (coalesce_right s (some (p - HEADER_SIZE)))
    (p - HEADER_SIZE)).upd (p - HEADER_SIZE)
    (fun b => { b with allocated := false })).blocks
  rw [upd_blocks]
  exact alignedL_updBlocks (fun b => rfl) (alignedL_add_block h1)

theorem alignedL_myrealloc (s : Heap) (p n : Nat) (b : Block)
    (hInv : HeapInv s) (hn : n ≠ 0)
    (hgb : getBlock s.blocks (p - HEADER_SIZE) = some b)
    (halloc : b.allocated = true) (hal : alignedL s.blocks) :
    alignedL (myrealloc s (some p) n).2.blocks := by
  have h8 : HEADER_SIZE = 8 := rfl
  have h24 : MIN_BLOCK_SIZE = 24 := rfl
  by_cases hc1 : b.payload = adjust n
  · have hred : myrealloc s (some p) n = (some p, s) := by
      simp [myrealloc, hn, hgb, hc1]
    rw [hred]
    exact hal
  by_cases hc2 : b.payload > adjust n ∧ b.payload < adjust n + MIN_BLOCK_SIZE
  · have hred : myrealloc s (some p) n = (some p, s) := by
      simp [myrealloc, hn, hgb, hc1, hc2]
    rw [hred]
    exact hal
  by_cases hc3 : b.payload > adjust n ∧ b.payload ≥ adjust n + MIN_BLOCK_SIZE
  · have hred : myrealloc s (some p) n =
        (some p, partition s (p - HEADER_SIZE) b.payload (adjust n)) := by
      simp [myrealloc, hn, hgb, hc1, hc2, hc3]
    rw [hred]
    exact alignedL_partition s (p - HEADER_SIZE) b.payload (adjust n) b hInv hgb rfl
      (by omega) (adjust_mod8 n) (adjust_ge16 n) hal
  have hlt : b.payload < adjust n := by omega
  have hanm : (p - HEADER_SIZE) ∉ s.freeList := alloc_not_free hInv hgb halloc
  obtain ⟨hInv1, hseg1, hend1, ⟨b1, hgb1, hfl1, hple1, hdata1⟩, hsub1⟩ :=
    coalesce_right_spec s (p - HEADER_SIZE) b hInv hgb hanm
  have hal1 : alignedL (coalesce_right s (some (p - HEADER_SIZE))).blocks :=
    alignedL_coalesce_right s (p - HEADER_SIZE) b hInv hgb hanm hal
  by_cases hge : b1.payload ≥ adjust n
  · by_cases hsp : b1.payload ≥ adjust n + MIN_BLOCK_SIZE
    · have hred : myrealloc s (some p) n =
          (some p, partition (coalesce_right s (some (p - HEADER_SIZE)))
            (p - HEADER_SIZE) b1.payload (adjust n)) := by
        simp [myrealloc, hn, hgb, hc1, hc2, hc3, hgb1, hge, hsp]
      rw [hred]
      exact alignedL_partition (coalesce_right s (some (p - HEADER_SIZE)))
        (p - HEADER_SIZE) b1.payload (adjust n) b1 hInv1 hgb1 rfl (by omega)
        (adjust_mod8 n) (adjust_ge16 n) hal1
    · have hred : myrealloc s (some p) n =
          (some p, coalesce_right s (some (p - HEADER_SIZE))) := by
        simp [myrealloc, hn, hgb, hc1, hc2, hc3, hgb1, hge, hsp]
      rw [hred]
      exact hal1
  obtain ⟨hInv2, hseg2, hend2, hmnone, hmsome⟩ :=
    mymalloc_spec (coalesce_right s (some (p - HEADER_SIZE))) n hInv1
  have hal2 : alignedL (mymalloc (coalesce_right s (some (p - HEADER_SIZE))) n).2.blocks :=
    alignedL_mymalloc (coalesce_right s (some (p - HEADER_SIZE))) n hInv1 hal1
  rcases hmm : mymalloc (coalesce_right s (some (p - HEADER_SIZE))) n with ⟨r1, s2⟩
  simp only [hmm] at hInv2 hseg2 hend2 hmnone hmsome hal2
  cases r1 with
  | none =>
    have hred : myrealloc s (some p) n = (none, s2) := by
      simp [myrealloc, hn, hgb, hc1, hc2, hc3, hgb1, hge, hmm]
    rw [hred]
    exact hal2
  | some q =>
    obtain ⟨hq8, ⟨P2, hsigq, hP2ge⟩, hout⟩ := hmsome q rfl
    have hanm1 : (p - HEADER_SIZE) ∉
        (coalesce_right s (some (p - HEADER_SIZE))).freeList :=
      fun h => hanm (hsub1 _ h)
    have houtA : getBlock s2.blocks (p - HEADER_SIZE) = some b1 := by
      rw [hout (p - HEADER_SIZE) b1 hanm1 hgb1]
      exact hgb1
    have hne : q - HEADER_SIZE ≠ p - HEADER_SIZE := by
      intro heq
      rw [heq, houtA] at hsigq
      simp only [Option.map_some', Option.some.injEq, blockSig, Prod.mk.injEq] at hsigq
      obtain ⟨h1, h2, h3, h4⟩ := hsigq
      omega
    have hred : myrealloc s (some p) n =
        (some q, myfree (s2.upd (q - HEADER_SIZE)
          (fun nb =>
            { nb with data := b1.data.take b.payload ++ nb.data.drop b.payload }))
          (some p)) := by
      simp [myrealloc, hn, hgb, hc1, hc2, hc3, hgb1, hge, hmm, houtA]
    have hlen : ∀ nb ∈ s2.blocks, nb.addr = q - HEADER_SIZE →
        nb.data.length = nb.payload →
        ((fun nb : Block =>
          { nb with data := b1.data.take b.payload ++ nb.data.drop b.payload }) nb).data.length =
        ((fun nb : Block =>
          { nb with data := b1.data.take b.payload ++ nb.data.drop b.payload }) nb).payload := by
      intro nb hnb haddr hdl
      have hgnb : getBlock s2.blocks (q - HEADER_SIZE) = some nb := by
        rw [← haddr]
        exact chained_getBlock hInv2.1 hnb
      have hsig' := hsigq
      rw [hgnb] at hsig'
      simp only [Option.map_some', Option.some.injEq, blockSig, Prod.mk.injEq] at hsig'
      obtain ⟨h1, h2, h3, h4⟩ := hsig'
      have hb1len : b1.data.length = b1.payload :=
        hInv1.2.2.1 b1 (getBlock_mem hgb1).1
      show (b1.data.take b.payload ++ nb.data.drop b.payload).length = nb.payload
      rw [List.length_append, List.length_take, List.length_drop]
      omega
    obtain ⟨hInv3, hfl3, hseg3, hend3⟩ :=
      upd_keepflag_HeapInv s2 (q - HEADER_SIZE)
        (fun nb =>
          { nb with data := b1.data.take b.payload ++ nb.data.drop b.payload })
        (fun _ => rfl) (fun _ => rfl) (fun _ => rfl) hlen hInv2
    have hga3 : getBlock (s2.upd (q - HEADER_SIZE)
        (fun nb =>
          { nb with data := b1.data.take b.payload ++ nb.data.drop b.payload })).blocks
        (p - HEADER_SIZE) = some b1 := by
      rw [upd_blocks, getBlock_updBlocks_ne
        (fun nb : Block =>
          { nb with data := b1.data.take b.payload ++ nb.data.drop b.payload })
        (q - HEADER_SIZE) (p - HEADER_SIZE) s2.blocks
        (fun _ => rfl) (fun h => hne h.symm)]
      exact houtA
    have hallocb1 : b1.allocated = true := by
      rw [hfl1]
      exact halloc
    have hal3 : alignedL ((s2.upd (q - HEADER_SIZE)
        (fun nb =>
          { nb with data := b1.data.take b.payload ++ nb.data.drop b.payload })).blocks) := by
      rw [upd_blocks]
      exact alignedL_updBlocks (fun nb => rfl) hal2
    rw [hred]
    exact alignedL_myfree _ p b1 hInv3 hga3 hallocb1 hal3

theorem step_preserves_align {s t : Heap} (hInv : HeapInv s)
    (hal : alignedL s.blocks) (hst : Step s t) : alignedL t.blocks := by
  cases hst with
  | malloc n => exact alignedL_mymalloc s n hInv hal
  | freeNull => exact hal
  | free p h =>
    obtain ⟨b, hg, ha⟩ := validPtrB_elim h
    exact alignedL_myfree s p b hInv hg ha hal
  | reallocNull n => exact alignedL_mymalloc s n hInv hal
  | realloc p n h =>
    obtain ⟨b, hg, ha⟩ := validPtrB_elim h
    by_cases hn : n = 0
    · subst hn
      have hr : myrealloc s (some p) 0 = mymalloc s 0 := by
        simp [myrealloc]
      have hm : mymalloc s 0 = (none, s) := by
        simp [mymalloc]
      rw [hr, hm]
      exact hal
    · exact alignedL_myrealloc s p n b hInv hn hg ha hal

theorem reachable_align {init t : Heap} (hInv : HeapInv init)
    (hal : alignedL init.blocks) (h : ReachableFrom init t) : alignedL t.blocks := by
  induction h with
  | refl => exact hal
  | step hr hs ih =>
    have hI := (reachable_spec hInv hr).1
    exact step_preserves_align hI ih hs

theorem myinit_aligned {size : Nat} {s : Heap} (h : myinit size = some s)
    (hdvd : size % ALIGNMENT = 0) (hmin : MIN_BLOCK_SIZE ≤ size)
    (hbound : size ≤ U32 + 7) : alignedL s.blocks := by
  have h8 : HEADER_SIZE = 8 := rfl
  have hA8 : ALIGNMENT = 8 := rfl
  have h16 : MIN_PAYLOAD_SIZE = 16 := rfl
  have h24 : MIN_BLOCK_SIZE = 24 := rfl
  have hU : U32 = 4294967296 := rfl
  unfold myinit at h
  by_cases hle : size ≤ HEADER_SIZE
  · rw [if_pos hle] at h
    exact absurd h (by simp)
  · rw [if_neg hle] at h
    have hs : s = { blocks := [{ addr := 0, payload := toU32 (size - HEADER_SIZE),
                                 allocated := false,
                                 data := List.replicate (toU32 (size - HEADER_SIZE)) 0 }],
                    freeList := [0],
                    segmentSize := size } := by
      cases h
      rfl
    subst hs
    intro b hb
    simp only [List.mem_singleton] at hb
    subst hb
    show toU32 (size - HEADER_SIZE) % ALIGNMENT = 0 ∧
      MIN_PAYLOAD_SIZE ≤ toU32 (size - HEADER_SIZE)
    rw [toU32_eq (by omega), hA8, h16]
    rw [hA8] at hdvd
    omega

/-- Claim C3 (amended): in every heap state reachable from an initialization
whose size is a multiple of `ALIGNMENT`, at least `MIN_BLOCK_SIZE`, and small
enough for the 32-bit payload header (`size ≤ U32 + 7`), every block's
payload size is a multiple of the configured alignment and at least the
minimum payload size.  The provisos are needed: an unaligned or tiny or
truncating initialization already installs a violating block. -/
theorem C3_payload_shape (size : Nat) (init t : Heap)
    (hinit : myinit size = some init)
    (hdvd : size % ALIGNMENT = 0) (hmin : MIN_BLOCK_SIZE ≤ size)
    (hbound : size ≤ U32 + 7) (hr : ReachableFrom init t) :
    ∀ b ∈ t.blocks, b.payload % ALIGNMENT = 0 ∧ MIN_PAYLOAD_SIZE ≤ b.payload := by
  obtain ⟨hInv0, _⟩ := myinit_HeapInv hinit
  exact reachable_align hInv0 (myinit_aligned hinit hdvd hmin hbound) hr

theorem C3_witness :
    32 % ALIGNMENT = 0 ∧
    (∀ b ∈ ({ blocks := [{ addr := 0, payload := 24, allocated := false, data := List.replicate 24 0 }], freeList := [0], segmentSize := 32 } : Heap).blocks,
      b.payload % ALIGNMENT = 0 ∧ MIN_PAYLOAD_SIZE ≤ b.payload) :=
  ⟨by decide, C3_payload_shape 32 _ _ (by decide) (by decide) (by decide) (by decide)
    ReachableFrom.refl⟩

/-- Claim C3 counterexample: `myinit 9` succeeds and installs a block of
payload 1 — neither a multiple of the alignment nor at least the minimum
payload size — so the unqualified claim fails already in the initial
(trivially reachable) state. -/
theorem C3_counterexample :
    myinit 9 = some { blocks := [{ addr := 0, payload := 1, allocated := false, data := [0] }], freeList := [0], segmentSize := 9 } ∧
    ¬ (∀ b ∈ ({ blocks := [{ addr := 0, payload := 1, allocated := false, data := [0] }], freeList := [0], segmentSize := 9 } : Heap).blocks,
        b.payload % ALIGNMENT = 0 ∧ MIN_PAYLOAD_SIZE ≤ b.payload) := by decide

theorem coalesce_loop_stop_seg2 {s : Heap} {a curr n : Nat}
    (h : ¬ curr < s.segmentSize) : coalesce_loop a curr n s = s := by
  cases n with
  | zero => rfl
  | succ m => exact coalesce_loop_stop_seg h

theorem coalesce_loop_stop_alloc2 {s : Heap} {a curr n : Nat} {c : Block}
    (hlt : curr < s.segmentSize) (hgc : getBlock s.blocks curr = some c)
    (h : ¬ c.allocated = false) : coalesce_loop a curr n s = s := by
  cases n with
  | zero => rfl
  | succ m => exact coalesce_loop_stop_alloc hlt hgc h

theorem sig_some {o : Option Block} {ad pl ln : Nat} {fl : Bool}
    (h : o.map blockSig = some (ad, pl, fl, ln)) :
    ∃ b2, o = some b2 ∧ b2.addr = ad ∧ b2.payload = pl ∧ b2.allocated = fl ∧
      b2.data.length = ln := by
  cases o with
  | none => simp at h
  | some b2 =>
    simp only [Option.map_some', Option.some.injEq, blockSig, Prod.mk.injEq] at h
    exact ⟨b2, rfl, h.1, h.2.1, h.2.2.1, h.2.2.2⟩

/-- Claim C2 (amended/corrected): releasing two physically adjacent allocated
blocks merges them into one free block of payload `pA + pB + HEADER_SIZE`
with exactly one free-list entry covering the span — but only when the block
at the higher address is released FIRST (and nothing free adjoins the pair on
the right).  Coalescing is right-only, so the release order matters: the
original "in either release order" fails (see the counterexample, where the
left-first order leaves two separate free blocks and two list entries). -/
theorem C2_adjacent_release (s : Heap) (a c : Nat) (bA bB : Block)
    (hInv : HeapInv s)
    (hcdef : c = a + HEADER_SIZE + bA.payload)
    (hga : getBlock s.blocks a = some bA)
    (hgb : getBlock s.blocks c = some bB)
    (hallocA : bA.allocated = true) (hallocB : bB.allocated = true)
    (hEnd : endAddrL s.blocks = s.segmentSize)
    (hstop : s.segmentSize ≤ c + bB.payload + HEADER_SIZE ∨
      ∃ d, getBlock s.blocks (c + bB.payload + HEADER_SIZE) = some d ∧
        d.allocated = true) :
    (getBlock (myfree (myfree s (some (c + HEADER_SIZE)))
        (some (a + HEADER_SIZE))).blocks a).map blockSig =
      some (a, bA.payload + bB.payload + HEADER_SIZE, false,
        bA.payload + bB.payload + HEADER_SIZE) ∧
    (myfree (myfree s (some (c + HEADER_SIZE)))
        (some (a + HEADER_SIZE))).freeList = a :: s.freeList ∧
    (∀ x ∈ (myfree (myfree s (some (c + HEADER_SIZE)))
        (some (a + HEADER_SIZE))).freeList,
      a ≤ x → x < c + bB.payload + HEADER_SIZE → x = a) := by
  have h8 : HEADER_SIZE = 8 := rfl
  have haA : bA.addr = a := (getBlock_mem hga).2
  have haB : bB.addr = c := (getBlock_mem hgb).2
  have hmemA : bA ∈ s.blocks := (getBlock_mem hga).1
  have hmemB : bB ∈ s.blocks := (getBlock_mem hgb).1
  have hubB := chained_ub hInv.1 bB hmemB
  rw [haB, hEnd] at hubB
  have hcseg : c < s.segmentSize := by omega
  have hanmA : a ∉ s.freeList := alloc_not_free hInv hga hallocA
  have hanmB : c ∉ s.freeList := alloc_not_free hInv hgb hallocB
  have hcoal1 : coalesce_right s (some c) = s := by
    have hcr : coalesce_right s (some c) =
        coalesce_loop c (c + bB.payload + HEADER_SIZE) (s.blocks.length + 1) s := by
      simp [coalesce_right, hgb]
    rw [hcr]
    rcases hstop with hse | ⟨d, hgd, hdal⟩
    · exact coalesce_loop_stop_seg2 (by omega)
    · have hdaddr : d.addr = c + bB.payload + HEADER_SIZE := (getBlock_mem hgd).2
      have hdub := chained_ub hInv.1 d (getBlock_mem hgd).1
      rw [hdaddr, hEnd] at hdub
      exact coalesce_loop_stop_alloc2 (by omega) hgd (by simp [hdal])
  have hfree1 : myfree s (some (c + HEADER_SIZE)) =
      (add_block s c).upd c (fun b => { b with allocated := false }) := by
    simp only [myfree]
    rw [show c + HEADER_SIZE - HEADER_SIZE = c by omega, hcoal1]
  have hgb' : getBlock s.blocks (c + HEADER_SIZE - HEADER_SIZE) = some bB := by
    rw [show c + HEADER_SIZE - HEADER_SIZE = c by omega]
    exact hgb
  obtain ⟨hInvT1, hsegT1, hendT1⟩ := myfree_spec s (c + HEADER_SIZE) bB hInv hgb' hallocB
  rw [hfree1] at hInvT1 hsegT1 hendT1
  rw [hfree1]
  set t1 : Heap := (add_block s c).upd c (fun b => { b with allocated := false }) with ht1
  have htfl : t1.freeList = c :: s.freeList := by
    rw [ht1]
    show ((add_block s c).upd c _).freeList = _
    rw [upd_freeList, add_block_freeList]
  have htseg : t1.segmentSize = s.segmentSize := by
    rw [ht1]
    show ((add_block s c).upd c _).segmentSize = _
    rw [upd_segmentSize, add_block_segmentSize]
  have hac : a ≠ c := by omega
  have hsigA1 : (getBlock t1.blocks a).map blockSig =
      some (a, bA.payload, true, bA.data.length) := by
    rw [ht1, upd_blocks,
      getBlock_updBlocks_ne (fun b : Block => { b with allocated := false }) c a
        (add_block s c).blocks (fun b => rfl) hac,
      add_block_getBlock_sig s c a hac, hga]
    show some (blockSig bA) = _
    rw [show blockSig bA = (bA.addr, bA.payload, bA.allocated, bA.data.length) from rfl,
      haA, hallocA]
  obtain ⟨bA2, hgA2, hA2addr, hA2pay, hA2fl, hA2len⟩ := sig_some hsigA1
  have ht1sig : ∀ x, x ≠ c → (getBlock t1.blocks x).map blockSig =
      (getBlock s.blocks x).map blockSig := by
    intro x hx
    rw [ht1, upd_blocks,
      getBlock_updBlocks_ne (fun b : Block => { b with allocated := false }) c x
        (add_block s c).blocks (fun b => rfl) hx,
      add_block_getBlock_sig s c x hx]
  obtain ⟨cB, hgcB, hcBpay, hcBfl, hcBlen⟩ :
      ∃ cB, getBlock t1.blocks c = some cB ∧ cB.payload = bB.payload ∧
        cB.allocated = false ∧ cB.data.length = bB.data.length := by
    refine ⟨{ bB with allocated := false, data := writeZeros bB.data 0 16 }, ?_, rfl,
      rfl, ?_⟩
    · rw [ht1, upd_blocks,
        getBlock_updBlocks_self (fun b : Block => { b with allocated := false }) c
          (add_block s c).blocks (fun b => rfl),
        add_block_getBlock_self s c hanmB, hgb]
      rfl
    · show (writeZeros bB.data 0 16).length = bB.data.length
      exact writeZeros_length bB.data 0 16
  have hceq : a + bA2.payload + HEADER_SIZE = c := by
    rw [hA2pay]
    omega
  have hgcB' : getBlock t1.blocks (a + bA2.payload + HEADER_SIZE) = some cB := by
    rw [hceq]
    exact hgcB
  have hanm2 : a ∉ t1.freeList := by
    rw [htfl]
    intro hmem
    rcases List.mem_cons.1 hmem with heq | hmem
    · exact hac heq
    · exact hanmA hmem
  obtain ⟨hA1, hA2seg, hA3, hA4, hA5, hA6, hA7, hgp, hA8, hA9⟩ :=
    absorb_spec t1 a bA2 cB hInvT1 hgA2 hgcB' hcBfl hanm2
  set A : Heap := remove_block { t1 with blocks := absorbBlocks a cB t1.blocks }
    (a + bA2.payload + HEADER_SIZE) with hAdef
  have hcoal2 : coalesce_right t1 (some a) = A := by
    have hcr : coalesce_right t1 (some a) =
        coalesce_loop a (a + bA2.payload + HEADER_SIZE) (t1.blocks.length + 1) t1 := by
      simp [coalesce_right, hgA2]
    rw [hcr]
    have hlt2 : a + bA2.payload + HEADER_SIZE < t1.segmentSize := by
      rw [hceq, htseg]
      exact hcseg
    rw [coalesce_loop_step hlt2 hgcB' hcBfl, ← hAdef]
    rcases hstop with hse | ⟨d, hgd, hdal⟩
    · apply coalesce_loop_stop_seg2
      rw [hA2seg, htseg]
      omega
    · have hdaddr : d.addr = c + bB.payload + HEADER_SIZE := (getBlock_mem hgd).2
      have hdub := chained_ub hInv.1 d (getBlock_mem hgd).1
      rw [hdaddr, hEnd] at hdub
      have hcurr2 : a + bA2.payload + HEADER_SIZE + cB.payload + HEADER_SIZE =
          c + bB.payload + HEADER_SIZE := by
        rw [hcBpay]
        omega
      have hsigd : (getBlock A.blocks
          (a + bA2.payload + HEADER_SIZE + cB.payload + HEADER_SIZE)).map blockSig =
          some (d.addr, d.payload, true, d.data.length) := by
        rw [hA8 _ (by omega) (by omega), hcurr2, ht1sig _ (by omega), hgd]
        show some (blockSig d) = _
        rw [show blockSig d = (d.addr, d.payload, d.allocated, d.data.length) from rfl,
          hdal]
      obtain ⟨d2, hgd2, hd2addr, hd2pay, hd2fl, hd2len⟩ := sig_some hsigd
      apply coalesce_loop_stop_alloc2 ?_ hgd2 (by simp [hd2fl])
      rw [hA2seg, htseg]
      omega
  have hfree2 : myfree t1 (some (a + HEADER_SIZE)) =
      (add_block A a).upd a (fun b => { b with allocated := false }) := by
    simp only [myfree]
    rw [show a + HEADER_SIZE - HEADER_SIZE = a by omega, hcoal2]
  rw [hfree2]
  have hAfl : A.freeList = s.freeList := by
    rw [hA1, htfl, hceq]
    exact List.erase_cons_head ..
  have hanmA2 : a ∉ A.freeList := by
    rw [hAfl]
    exact hanmA
  have hfinal : getBlock ((add_block A a).upd a
      (fun b : Block => { b with allocated := false })).blocks a =
      some ((fun b : Block => { b with allocated := false })
        (setFree (storeLinks2 (grownBlock bA2 cB)))) := by
    rw [upd_blocks,
      getBlock_updBlocks_self (fun b : Block => { b with allocated := false }) a
        (add_block A a).blocks (fun b => rfl),
      add_block_getBlock_self A a hanmA2, hA7]
    rfl
  have hdA : bA.data.length = bA.payload := hInv.2.2.1 bA hmemA
  have hdB : bB.data.length = bB.payload := hInv.2.2.1 bB hmemB
  refine ⟨?_, ?_, ?_⟩
  · rw [hfinal]
    show some (blockSig ((fun b : Block => { b with allocated := false })
      (setFree (storeLinks2 (grownBlock bA2 cB))))) = _
    have e1 : ((fun b : Block => { b with allocated := false })
        (setFree (storeLinks2 (grownBlock bA2 cB)))).addr = a := by
      show (grownBlock bA2 cB).addr = a
      show bA2.addr = a
      exact hA2addr
    have e2 : ((fun b : Block => { b with allocated := false })
        (setFree (storeLinks2 (grownBlock bA2 cB)))).payload =
        bA.payload + bB.payload + HEADER_SIZE := by
      show (grownBlock bA2 cB).payload = _
      rw [hgp, hA2pay, hcBpay]
    have e4 : ((fun b : Block => { b with allocated := false })
        (setFree (storeLinks2 (grownBlock bA2 cB)))).data.length =
        bA.payload + bB.payload + HEADER_SIZE := by
      show (writeZeros (grownBlock bA2 cB).data 0 16).length = _
      rw [writeZeros_length]
      show (bA2.data ++ List.replicate HEADER_SIZE 0 ++ cB.data).length = _
      rw [List.length_append, List.length_append, List.length_replicate,
        hA2len, hcBlen, hdA, hdB]
      omega
    rw [show blockSig ((fun b : Block => { b with allocated := false })
        (setFree (storeLinks2 (grownBlock bA2 cB)))) =
      (((fun b : Block => { b with allocated := false })
          (setFree (storeLinks2 (grownBlock bA2 cB)))).addr,
        ((fun b : Block => { b with allocated := false })
          (setFree (storeLinks2 (grownBlock bA2 cB)))).payload,
        ((fun b : Block => { b with allocated := false })
          (setFree (storeLinks2 (grownBlock bA2 cB)))).allocated,
        ((fun b : Block => { b with allocated := false })
          (setFree (storeLinks2 (grownBlock bA2 cB)))).data.length) from rfl,
      e1, e2, e4]
  · show ((add_block A a).upd a _).freeList = a :: s.freeList
    rw [upd_freeList, add_block_freeList, hAfl]
  · intro x hx hax hxlt
    have hx' : x ∈ a :: s.freeList := by
      have hxx : x ∈ (add_block A a).freeList := hx
      rw [add_block_freeList, hAfl] at hxx
      exact hxx
    rcases List.mem_cons.1 hx' with rfl | hxs
    · rfl
    · exfalso
      have hf := hInv.2.2.2.1 x hxs
      unfold freeAt at hf
      cases hgx : getBlock s.blocks x with
      | none =>
        rw [hgx] at hf
        exact absurd hf (by simp)
      | some bx =>
        rw [hgx] at hf
        have hbxfree : bx.allocated = false := by
          have hnb : (!bx.allocated) = true := hf
          cases hb : bx.allocated
          · rfl
          · rw [hb] at hnb
            exact absurd hnb (by simp)
        have hbxaddr : bx.addr = x := (getBlock_mem hgx).2
        have hbxmem : bx ∈ s.blocks := (getBlock_mem hgx).1
        have hgbd : getBlock s.blocks (a + HEADER_SIZE + bA.payload) = some bB := by
          rw [show a + HEADER_SIZE + bA.payload = c from hcdef.symm]
          exact hgb
        obtain ⟨l1, l2, hl, hlt1, _, haC2, hub2⟩ :=
          chained_adjacent_decomp hInv.1 hga hgbd
        rw [hl] at hbxmem
        rcases List.mem_append.1 hbxmem with hin | hin
        · have := hlt1 bx hin
          omega
        · rcases List.mem_cons.1 hin with rfl | hin
          · rw [hallocA] at hbxfree
            exact absurd hbxfree (by simp)
          · rcases List.mem_cons.1 hin with rfl | hin
            · rw [hallocB] at hbxfree
              exact absurd hbxfree (by simp)
            · have hlb := hub2 bx hin
              rw [haB] at hlb
              omega

theorem C2_witness :
    (getBlock (myfree (myfree adjHeap (some 32)) (some 8)).blocks 0).map blockSig =
      some (0, 40, false, 40) ∧
    (myfree (myfree adjHeap (some 32)) (some 8)).freeList = [0] ∧
    (∀ x ∈ (myfree (myfree adjHeap (some 32)) (some 8)).freeList,
      0 ≤ x → x < 48 → x = 0) :=
  C2_adjacent_release adjHeap 0 24
    { addr := 0, payload := 16, allocated := true, data := List.replicate 16 0 }
    { addr := 24, payload := 16, allocated := true, data := List.replicate 16 0 }
    (by decide) (by decide) (by decide) (by decide) (by decide) (by decide)
    (by decide) (Or.inl (by decide))

/-- Claim C2 counterexample: on the same two adjacent allocated blocks, the
LEFT-first release order leaves TWO free blocks and two free-list entries
(the right-only coalescer never merges a newly freed block into an existing
free block on its left), refuting "in either release order": the final free
list is `[24, 0]` and the block at 0 still has payload 16, not 40. -/
theorem C2_counterexample :
    HeapInv adjHeap ∧
    (myfree (myfree adjHeap (some 8)) (some 32)).freeList = [24, 0] ∧
    ¬ ((getBlock (myfree (myfree adjHeap (some 8)) (some 32)).blocks 0).map blockSig =
        some (0, 40, false, 40)) := by decide
